import Mathlib

/-!
# Full-coverage mission planner over a lanelet routing graph

A shallow embedding of `mission_planner_lanelet2.cpp`, `TSP_LKH.cpp` and
`TSP_concorde.cpp`.

* A lanelet is identified with its id (`Node`); `laneletLayer.get(id)` is the
  identity on the ids the planner holds.
* Costs are C++ `double`s.  The cost type `W` is a parameter that only offers
  zero, addition and the literal `1000000`; no algebraic law of addition is
  used, and sums are taken in the order the loops take them.
* The routing graph is the read-only query surface of
  `lanelet::routing::RoutingGraph` that the planner calls.
-/

namespace MissionPlanner

/-! ## Data model -/

/-- Relation kinds of `lanelet::routing::RelationType`. -/
inductive RelationType
  | None
  | Successor
  | Left
  | Right
  | AdjacentLeft
  | AdjacentRight
  | Conflicting
  | Area
  deriving DecidableEq, Repr

/-- A `lanelet::routing::LaneletPath`: a sequence of lanelets that is never
empty (a path returned by the routing graph holds at least its first
lanelet). -/
structure LaneletPath (Node : Type) where
  first : Node
  rest : List Node
  deriving DecidableEq, Repr

/-- Lanelets of a path in order. -/
def LaneletPath.toList {Node : Type} (p : LaneletPath Node) : List Node :=
  p.first :: p.rest

/-- The queries of `routing_graph_ptr_` used by the planner.
`passable` is `passableSubmap()->laneletLayer` in iteration order,
`shortestPath a b` is `shortestPath(a, b, 0, false)`,
`getRoute a b` is the shortest path of `getRoute(a, b, 0)`,
`getEdgeCost`, `routingRelation` and `following` are the queries of the same
name. -/
structure RoutingGraph (Node W : Type) where
  passable : List Node
  shortestPath : Node → Node → Option (LaneletPath Node)
  getRoute : Node → Node → Option (LaneletPath Node)
  getEdgeCost : Node → Node → Option W
  routingRelation : Node → Node → Option RelationType
  following : Node → List Node

/-- The literal `1000000.0` written on the diagonal of the matrix. -/
def sentinelCost {W : Type} [NatCast W] : W := ((1000000 : Nat) : W)

/-- A matrix `std::vector<std::vector<double>>` as a list of rows. -/
abbrev Mat (W : Type) := List (List W)

/-- Checked read of `m[row][col]`. -/
def getEntry {W : Type} (m : Mat W) (row col : Nat) : Option W :=
  match m[row]? with
  | some r => r[col]?
  | none => none

/-- The assignment `m[row][col] = v` (inside the bounds of `m`). -/
def setEntry {W : Type} (m : Mat W) (row col : Nat) (v : W) : Mat W :=
  match m[row]? with
  | some r => m.set row (r.set col v)
  | none => m

/-! ## `expandPathToTheLanelet` and `getWeightOfAjacentMatrix` -/

/-- `expandPathToTheLanelet(path_lanelets_ptr, goal_lanelet)`: the returned
flag and the content of `*path_lanelets_ptr` after the call. -/
def expandPathToTheLanelet {Node W : Type} (g : RoutingGraph Node W)
    (path : List Node) (goal : Node) : Bool × List Node :=
  match path.getLast? with
  | none => (false, path)
  | some back =>
    match g.shortestPath back goal with
    | none => (false, path)
    | some go_path => (true, path.dropLast ++ go_path.toList)

/-- The loop of `getWeightOfAjacentMatrix` over the consecutive pairs of
`weight_path`: adds the edge costs to `total` and breaks at the first pair
without an edge cost. -/
def sumEdgeCosts {Node W : Type} [Add W] (g : RoutingGraph Node W) :
    List Node → W → W
  | a :: b :: rest, total =>
    match g.getEdgeCost a b with
    | none => total
    | some c => sumEdgeCosts g (b :: rest) (total + c)
  | _, total => total

/-- `getWeightOfAjacentMatrix(from, to)`. -/
def getWeightOfAjacentMatrix {Node W : Type} [Zero W] [Add W]
    (g : RoutingGraph Node W) (src dst : Node) : W :=
  match expandPathToTheLanelet g [src] dst with
  | (false, _) => 0
  | (true, weight_path) => sumEdgeCosts g weight_path 0

/-- The consecutive pairs `(p_k, p_k+1)` of a sequence. -/
def consecutivePairs {Node : Type} (l : List Node) : List (Node × Node) :=
  l.zip l.tail

/-- The sum of a list of costs taken from left to right, starting at zero. -/
def sumLeft {W : Type} [Zero W] [Add W] (costs : List W) : W :=
  costs.foldl (fun total c => total + c) 0

/-! ## `initializeNode2laneletHash` and `getAjacentMatrix` -/

/-- `initializeNode2laneletHash`: `node2lanelet_hash_` maps the ordinals
`0 .. size-1` to lanelet ids and is kept as the list of its values;
`emplace(node_index, id)` inserts only the ordinals not yet present. -/
def initializeNode2laneletHash {Node W : Type} (g : RoutingGraph Node W)
    (node2lanelet_hash : List Node) : List Node :=
  node2lanelet_hash ++ g.passable.drop node2lanelet_hash.length

/-- The value stored at `aj_matrix[row][col]` by the double loop. -/
def matrixCell {Node W : Type} [Zero W] [Add W] [NatCast W]
    (g : RoutingGraph Node W) (node2lanelet_hash : List Node)
    (row col : Fin node2lanelet_hash.length) : W :=
  if row ≠ col then
    getWeightOfAjacentMatrix g (node2lanelet_hash.get row) (node2lanelet_hash.get col)
  else sentinelCost

/-- The inner loop `for (col = 0; col < dimension; col++)` for one row. -/
def fillRow {Node W : Type} [Zero W] [Add W] [NatCast W]
    (g : RoutingGraph Node W) (node2lanelet_hash : List Node)
    (row : Fin node2lanelet_hash.length) (m : Mat W) : Mat W :=
  (List.finRange node2lanelet_hash.length).foldl
    (fun acc col => setEntry acc row.val col.val (matrixCell g node2lanelet_hash row col)) m

/-- The outer loop `for (row = 0; row < dimension; row++)`. -/
def fillMatrix {Node W : Type} [Zero W] [Add W] [NatCast W]
    (g : RoutingGraph Node W) (node2lanelet_hash : List Node) (m : Mat W) : Mat W :=
  (List.finRange node2lanelet_hash.length).foldl
    (fun acc row => fillRow g node2lanelet_hash row acc) m

/-- `getAjacentMatrix()`: the empty matrix when the registry size differs
from the passable-lanelet count, else the `(dimension+1) x (dimension+1)`
matrix, zero-initialised, filled by the double loop, with
`aj_matrix[dimension][dimension] = 1000000.0`. -/
def getAjacentMatrix {Node W : Type} [Zero W] [Add W] [NatCast W]
    (g : RoutingGraph Node W) (node2lanelet_hash : List Node) : Mat W :=
  if g.passable.length ≠ node2lanelet_hash.length then []
  else
    let dimension := node2lanelet_hash.length
    let aj_matrix : Mat W := List.replicate (dimension + 1) (List.replicate (dimension + 1) 0)
    setEntry (fillMatrix g node2lanelet_hash aj_matrix) dimension dimension sentinelCost

/-! ## Formatted extraction `iss >> value` -/

/-- The test `isspace` of the classic locale: blank, tab, line feed, vertical
tab, form feed, carriage return. -/
def isSpace (c : Char) : Bool := c.toNat = 32 || (9 ≤ c.toNat && c.toNat ≤ 13)

/-- Decimal digit test. -/
def isDigit (c : Char) : Bool := 48 ≤ c.toNat && c.toNat ≤ 57

/-- Leading white space is skipped by the extraction. -/
def skipSpaces : List Char → List Char
  | [] => []
  | c :: cs => if isSpace c then skipSpaces cs else c :: cs

/-- The longest run of decimal digits at the front, and what follows it. -/
def spanDigits : List Char → List Nat × List Char
  | [] => ([], [])
  | c :: cs =>
    if isDigit c then ((c.toNat - 48) :: (spanDigits cs).1, (spanDigits cs).2)
    else ([], c :: cs)

/-- Smallest value of a 32-bit `int`. -/
def INT_MIN : Int := -2147483648

/-- Largest value of a 32-bit `int`. -/
def INT_MAX : Int := 2147483647

/-- The optional sign in front of the digits: whether it is a minus sign, and
what follows it. -/
def readSign : List Char → Bool × List Char
  | [] => (false, [])
  | c :: cs =>
    if c.toNat = 45 then (true, cs) else if c.toNat = 43 then (false, cs) else (false, c :: cs)

/-- The number written by a run of decimal digits. -/
def digitsValue (ds : List Nat) : Int :=
  Int.ofNat (ds.foldl (fun a d => 10 * a + d) 0)

/-- The extraction `iss >> value` for an `int value`: skips white space, reads
an optional sign and a non-empty run of digits, and fails (`none`) when
there is no digit or the number does not fit an `int`.  On success gives the
value and the unread rest of the stream. -/
def extractInt (s : List Char) : Option (Int × List Char) :=
  let signed := readSign (skipSpaces s)
  let ds := spanDigits signed.2
  if ds.1 = [] then none
  else
    let v : Int := if signed.1 = true then - digitsValue ds.1 else digitsValue ds.1
    if INT_MIN ≤ v ∧ v ≤ INT_MAX then some (v, ds.2) else none

/-- The value of `iss >> value` on a fresh stream over `line`, when the
extraction succeeds. -/
def leadingInt (line : String) : Option Int :=
  match extractInt line.data with
  | some (value, _) => some value
  | none => none

/-- Repeated extraction `while (iss >> value)` on one line: the values read
until the first extraction that fails. -/
def extractAll : Nat → List Char → List Int
  | 0, _ => []
  | fuel + 1, s =>
    match extractInt s with
    | some (v, r) => v :: extractAll fuel r
    | none => []

/-- Two-complement result of an `int` computation (the `int` is 32 bits
wide).  `value -= 1` at `INT_MIN` has no defined behaviour in C++; the model
takes the wrapped value there. -/
def wrapInt (x : Int) : Int := (x + 2147483648) % 4294967296 - 2147483648

/-! ## File operations and the environment of the tour solvers -/

/-- Operations a solver issues on the file system and the shell, in program
order: opening a file for writing and the lines streamed to it, a `system`
call, opening a file for reading, and `remove`. -/
inductive FileOp
  | write (name : String) (lines : List String)
  | system (cmd : String)
  | read (name : String)
  | remove (name : String)
  deriving DecidableEq, Repr

/-- How a call ends: it returns a value, the process is aborted by a failed
`assert`, or a loop of the model ran out of fuel. -/
inductive Outcome (α : Type)
  | returned (value : α)
  | aborted
  | outOfFuel
  deriving DecidableEq, Repr

/-- What a solver call sees from outside the program.
`tv_sec`, `tv_usec`: the result of `gettimeofday`;
`assertsEnabled`: whether `assert` is compiled in (`NDEBUG` undefined);
`system cmd`: the status `system(cmd)` returns;
`fileLines name`: the lines `getline` yields from the file `name` when it is
opened for reading, `none` when it cannot be opened;
`binFolder k`: the token read into `bin_folder` at the `k`-th attempt of the
Concorde adapter;
`intText c`: the text streamed for `(int) c`. -/
structure SolverEnv (W : Type) where
  tv_sec : Nat
  tv_usec : Nat
  assertsEnabled : Bool
  system : String → Int
  fileLines : String → Option (List String)
  binFolder : Nat → String
  intText : W → String

/-- The string `unique_file_identifier_` built from the time of day. -/
def uniqueFileIdentifier {W : Type} (env : SolverEnv W) : String :=
  "_" ++ toString env.tv_sec ++ "_" ++ toString env.tv_usec

/-- The order `0, 1, ..., n-1` pushed by the loops `for (node = 0; node < size; node++)`. -/
def identityOrder (n : Nat) : List Int := (List.range n).map Int.ofNat

/-- The final check of both solvers: an order whose size differs from the
matrix size is replaced by the standard order. -/
def checkedOrder (unsorted_order : List Int) (size : Nat) : List Int :=
  if unsorted_order.length ≠ size then identityOrder size else unsorted_order

/-- The rows of the `EDGE_WEIGHT_SECTION`: for each row the first
`pathlength_matrix[0].size()` entries, each written as a blank and the cost
cast to `int`. -/
def weightSection {W : Type} (intText : W → String) (m : Mat W) : List String :=
  m.map (fun row => String.join ((row.take (m.headD []).length).map (fun c => " " ++ intText c)))

/-! ## `LKHTSPSolver` -/

namespace LKHTSPSolver

/-- `writeToFile(pathlength_matrix, tsp_in_filename, tsp_out_filename)`: the
problem file in TSPLIB format and the parameter file naming the problem file
and the tour file. -/
def writeToFile {W : Type} (env : SolverEnv W) (pathlength_matrix : Mat W)
    (tsp_in_filename tsp_out_filename : String) : List FileOp :=
  let tsp_lib_filename := tsp_in_filename ++ ".atsp"
  let tsp_par_filename := tsp_in_filename ++ ".par"
  [ FileOp.write tsp_lib_filename
      ([ "NAME: routing-with-lanelet2_" ++ tsp_lib_filename,
         "TYPE: ATSP",
         "COMMENT: This is the TSPlib file for using LKH.",
         "DIMENSION: " ++ toString pathlength_matrix.length,
         "EDGE_WEIGHT_TYPE: EXPLICIT",
         "EDGE_WEIGHT_FORMAT: FULL_MATRIX",
         "EDGE_WEIGHT_SECTION" ]
        ++ weightSection env.intText pathlength_matrix ++ ["EOF"]),
    FileOp.write tsp_par_filename
      [ "PROBLEM_FILE = " ++ tsp_lib_filename,
        "TOUR_FILE = ./" ++ tsp_out_filename,
        "RUNS = 1" ] ]

/-- The `while (getline(reading_file, line))` loop of `readFromFile` with its
state `line_counter` and `order_vector`. -/
def readLoop : List String → Nat → List Int → List Int
  | [], _, order_vector => order_vector
  | line :: rest, line_counter, order_vector =>
    if line_counter < 6 then readLoop rest (line_counter + 1) order_vector
    else
      match leadingInt line with
      | some value =>
        if value = -1 then order_vector
        else readLoop rest line_counter (order_vector ++ [wrapInt (value - 1)])
      | none => readLoop rest line_counter order_vector

/-- `readFromFile(tsp_out_filename)` on the lines of the file (`none`: the
file could not be opened, the order stays empty). -/
def readFromFile (file : Option (List String)) : List Int :=
  match file with
  | some lines => readLoop lines 0 []
  | none => []

/-- The name `tsp_in_filename` of `solveLKHTSP`. -/
def tsp_in_filename {W : Type} (env : SolverEnv W) : String :=
  "TSPlib_file" ++ uniqueFileIdentifier env

/-- The name `tsp_lib_filename` of `solveLKHTSP`. -/
def tsp_lib_filename {W : Type} (env : SolverEnv W) : String :=
  tsp_in_filename env ++ ".atsp"

/-- The name `tsp_par_filename` of `solveLKHTSP`. -/
def tsp_par_filename {W : Type} (env : SolverEnv W) : String :=
  tsp_in_filename env ++ ".par"

/-- The name `tsp_out_filename` of `solveLKHTSP`. -/
def tsp_out_filename : String := "ATSP_output.txt"

/-- The command line `cmd` of `solveLKHTSP`. -/
def cmd {W : Type} (env : SolverEnv W) : String :=
  "./LKH " ++ tsp_in_filename env ++ ".par"

/-- `solveLKHTSP(path_length_matrix)`: how the call ends and the file
operations it issued.  With assertions compiled in, `assert(!result)` aborts
the process when `system` returns a non-zero status. -/
def solveLKHTSP {W : Type} (env : SolverEnv W) (path_length_matrix : Mat W) :
    Outcome (List Int) × List FileOp :=
  let cleanup := [FileOp.remove (tsp_lib_filename env), FileOp.remove (tsp_par_filename env)]
  if path_length_matrix.length > 2 then
    let ops := writeToFile env path_length_matrix (tsp_in_filename env) tsp_out_filename
      ++ [FileOp.system (cmd env)]
    if env.assertsEnabled = true ∧ env.system (cmd env) ≠ 0 then (Outcome.aborted, ops)
    else
      let unsorted_order := readFromFile (env.fileLines tsp_out_filename)
      (Outcome.returned (checkedOrder unsorted_order path_length_matrix.length),
        ops ++ [FileOp.read tsp_out_filename] ++ cleanup)
  else
    (Outcome.returned
      (checkedOrder (identityOrder path_length_matrix.length) path_length_matrix.length),
      cleanup)

end LKHTSPSolver

/-! ## `ConcordeTSPSolver` -/

namespace ConcordeTSPSolver

/-- `writeToFile(pathlength_matrix, tsp_lib_filename, tsp_order_filename)`:
the problem file, and the result file opened for writing with nothing
streamed to it. -/
def writeToFile {W : Type} (env : SolverEnv W) (pathlength_matrix : Mat W)
    (tsp_lib_filename tsp_order_filename : String) : List FileOp :=
  [ FileOp.write tsp_lib_filename
      ([ "NAME: routing-with-lanelet2_" ++ tsp_lib_filename,
         "TYPE: TSP",
         "COMMENT: This is the TSPlib file for using concorde.",
         "DIMENSION: " ++ toString pathlength_matrix.length,
         "EDGE_WEIGHT_TYPE: EXPLICIT",
         "EDGE_WEIGHT_FORMAT: FULL_MATRIX",
         "EDGE_WEIGHT_SECTION" ]
        ++ weightSection env.intText pathlength_matrix ++ ["EOF"]),
    FileOp.write tsp_order_filename [] ]

/-- The inner loop `while (iss >> value)` over the values of one line: every
value but the very first of the file is stored. -/
def readValues : List Int → Nat × List Int → Nat × List Int
  | [], st => st
  | value :: rest, (line_counter, order_vector) =>
    readValues rest
      (line_counter + 1, if line_counter > 0 then order_vector ++ [value] else order_vector)

/-- `readFromFile(tsp_order_filename)` on the lines of the file. -/
def readFromFile (file : Option (List String)) : List Int :=
  match file with
  | some lines =>
    (lines.foldl (fun st line => readValues (extractAll line.length line.data) st) (0, [])).2
  | none => []

/-- The loop `while (bin_folder.length()==0)`: each round runs `rospack`
into a temporary file, reads one token from it and removes it.  Gives the
folder found and the operations issued, `none` when the fuel is used up. -/
def findBinFolder {W : Type} (env : SolverEnv W) (temp_file : String) :
    Nat → Nat → List FileOp → Option (String × List FileOp)
  | 0, _, _ => none
  | fuel + 1, attempt, ops =>
    let ops1 := ops ++
      [ FileOp.system ("rospack libs-only-L libconcorde_tsp_solver > " ++ temp_file),
        FileOp.read temp_file, FileOp.remove temp_file ]
    if (env.binFolder attempt).length = 0 then findBinFolder env temp_file fuel (attempt + 1) ops1
    else some (env.binFolder attempt, ops1)

/-- `solveConcordeTSP(path_length_matrix)`: how the call ends and the file
operations it issued; `fuel` bounds the rounds of the `bin_folder` loop. -/
def solveConcordeTSP {W : Type} (env : SolverEnv W) (fuel : Nat) (path_length_matrix : Mat W) :
    Outcome (List Int) × List FileOp :=
  let unique := uniqueFileIdentifier env
  let tsp_lib_filename := "TSPlib_file" ++ unique ++ ".atsp"
  let tsp_order_filename := "TSP_order" ++ unique ++ ".atsp"
  let cleanup :=
    [ FileOp.remove tsp_lib_filename, FileOp.remove tsp_order_filename,
      FileOp.remove ("TSPlib_file" ++ unique ++ ".sol"),
      FileOp.remove ("TSPlib_file" ++ unique ++ ".res") ]
  if path_length_matrix.length > 2 then
    let ops0 := writeToFile env path_length_matrix tsp_lib_filename tsp_order_filename
    match findBinFolder env ("temp_libconcorde_path" ++ unique ++ ".txt") fuel 0 ops0 with
    | none => (Outcome.outOfFuel, ops0)
    | some (bin_folder, ops1) =>
      let cmd := bin_folder ++ "/libconcorde_tsp_solver/concorde -o " ++ "./"
        ++ tsp_order_filename ++ " ./" ++ tsp_lib_filename
      let ops := ops1 ++ [FileOp.system cmd]
      if env.assertsEnabled = true ∧ env.system cmd ≠ 0 then (Outcome.aborted, ops)
      else
        let unsorted_order := readFromFile (env.fileLines tsp_order_filename)
        (Outcome.returned (checkedOrder unsorted_order path_length_matrix.length),
          ops ++ [FileOp.read tsp_order_filename] ++ cleanup)
  else
    (Outcome.returned
      (checkedOrder (identityOrder path_length_matrix.length) path_length_matrix.length),
      cleanup)

end ConcordeTSPSolver

/-! ## `getPathCost` and `planFullCoveragePathByTSP` -/

/-- The loop of `getPathCost` over the consecutive pairs of `path`: a pair
counts when its relation is `Successor`, `Left` or `Right` and it has an edge
cost; the loop breaks at the first pair that does not. -/
def pathCostLoop {Node W : Type} [Add W] (g : RoutingGraph Node W) :
    List Node → W → W
  | a :: b :: rest, total_cost =>
    match g.routingRelation a b with
    | some r =>
      if r = RelationType.Successor ∨ r = RelationType.Left ∨ r = RelationType.Right then
        match g.getEdgeCost a b with
        | none => total_cost
        | some c => pathCostLoop g (b :: rest) (total_cost + c)
      else total_cost
    | none => total_cost
  | _, total_cost => total_cost

/-- `getPathCost(path)` for a non-empty path. -/
def getPathCost {Node W : Type} [Zero W] [Add W] (g : RoutingGraph Node W)
    (path : List Node) : W :=
  pathCostLoop g path 0

/-- The unchecked read `ajacent_matrix[i][j]` with `int` subscripts: `none`
when a subscript is outside the matrix (no defined behaviour). -/
def matrixAt {W : Type} (m : Mat W) (i j : Int) : Option W :=
  if 0 ≤ i ∧ 0 ≤ j then getEntry m i.toNat j.toNat else none

/-- The `verify_solution` loop over `optimal_node_order` and the closing
term `ajacent_matrix[optimal_node_order.back()][0]`; `none` when the order is
empty or a subscript is outside the matrix (no defined behaviour). -/
def verifySolution {W : Type} [Add W] (m : Mat W) : List Int → W → Option W
  | a :: b :: rest, verify_solution =>
    match matrixAt m a b with
    | some c => verifySolution m (b :: rest) (verify_solution + c)
    | none => none
  | [a], verify_solution =>
    match matrixAt m a 0 with
    | some c => some (verify_solution + c)
    | none => none
  | [], _ => none

/-- The conversion loop to `lanelet_id_order`: an index is kept when, as an
unsigned 64-bit number, it is below `optimal_node_order.size() - 1`, and is
looked up with `node2lanelet_hash_.at(index)`; `none` when `at` throws. -/
def laneletIdOrder {Node : Type} (node2lanelet_hash : List Node) (size : Nat) :
    List Int → Option (List Node)
  | [] => some []
  | index :: rest =>
    if (index % 18446744073709551616).toNat < size - 1 then
      match (if 0 ≤ index then node2lanelet_hash[index.toNat]? else none),
        laneletIdOrder node2lanelet_hash size rest with
      | some id, some ids => some (id :: ids)
      | _, _ => none
    else laneletIdOrder node2lanelet_hash size rest

/-- The search loop for `start_id_position`: the last position holding
`start_id`, `none` when the variable is never assigned. -/
def startIdPosition {Node : Type} [DecidableEq Node] (lanelet_id_order : List Node)
    (start_id : Node) : Option Nat :=
  lanelet_id_order.enum.foldl
    (fun pos ix => if ix.2 = start_id then some ix.1 else pos) none

/-- The two copy loops that open the cycle at `start_id_position`. -/
def finalLaneletIdOrder {Node : Type} (lanelet_id_order : List Node)
    (start_id_position : Nat) : List Node :=
  lanelet_id_order.drop start_id_position ++ lanelet_id_order.take start_id_position

/-- The loop calling `expandPathToTheLanelet` for each id in turn: stops
with `false` at the first call that fails. -/
def expandAll {Node W : Type} (g : RoutingGraph Node W) :
    List Node → List Node → Bool × List Node
  | path, [] => (true, path)
  | path, llt_id :: rest =>
    match expandPathToTheLanelet g path llt_id with
    | (false, p) => (false, p)
    | (true, p) => expandAll g p rest

/-- How a planning call ends: it returns `true` or `false` (with the content
of `*path_lanelets_ptr` after the call), the process is aborted by a failed
`assert`, an exception leaves the call, a construct without defined behaviour
is executed, or a loop of the model ran out of fuel. -/
inductive PlanResult (Node : Type)
  | success (path_lanelets : List Node)
  | failure (path_lanelets : List Node)
  | aborted
  | thrown
  | undefinedBehaviour
  | outOfFuel
  deriving DecidableEq, Repr

/-- The part of `planFullCoveragePathByTSP` after the solver returned
`optimal_node_order`: the `verify_solution` loop, the conversion to lanelet
ids, the rotation to the start lanelet and the stitching with
`expandPathToTheLanelet`.  The two values of `getPathCost` that are only
logged are left out. -/
def stitchOrder {Node W : Type} [DecidableEq Node] [Add W] [Zero W]
    (g : RoutingGraph Node W) (node2lanelet_hash : List Node) (ajacent_matrix : Mat W)
    (start_lanelet goal_lanelet : Node) (path_lanelets : List Node)
    (optimal_node_order : List Int) : PlanResult Node :=
  match verifySolution ajacent_matrix optimal_node_order 0 with
  | none => PlanResult.undefinedBehaviour
  | some _ =>
    match laneletIdOrder node2lanelet_hash optimal_node_order.length optimal_node_order with
    | none => PlanResult.thrown
    | some lanelet_id_order =>
      match startIdPosition lanelet_id_order start_lanelet with
      | none => PlanResult.undefinedBehaviour
      | some start_id_position =>
        let final_lanelet_id_order := finalLaneletIdOrder lanelet_id_order start_id_position
        match expandAll g [start_lanelet] final_lanelet_id_order.tail with
        | (false, _) => PlanResult.failure path_lanelets
        | (true, full_coverage_path) =>
          match expandPathToTheLanelet g full_coverage_path goal_lanelet with
          | (false, _) => PlanResult.failure path_lanelets
          | (true, full_path) => PlanResult.success (path_lanelets ++ full_path)

/-- `planFullCoveragePathByTSP` from the point where the start and goal
lanelets are found: builds the matrix, calls `solveLKHTSP` on it and stitches
the order.  Gives how the call ends and the file operations of the solver. -/
def planFullCoveragePathByTSP {Node W : Type} [DecidableEq Node] [Zero W] [Add W] [NatCast W]
    (g : RoutingGraph Node W) (node2lanelet_hash : List Node) (env : SolverEnv W)
    (start_lanelet goal_lanelet : Node) (path_lanelets : List Node) :
    PlanResult Node × List FileOp :=
  let ajacent_matrix : Mat W := getAjacentMatrix g node2lanelet_hash
  match LKHTSPSolver.solveLKHTSP env ajacent_matrix with
  | (Outcome.returned optimal_node_order, ops) =>
    (stitchOrder g node2lanelet_hash ajacent_matrix start_lanelet goal_lanelet path_lanelets
      optimal_node_order, ops)
  | (Outcome.aborted, ops) => (PlanResult.aborted, ops)
  | (Outcome.outOfFuel, ops) => (PlanResult.outOfFuel, ops)

/-- The part of `planFullCoveragePathByTSP` that follows the conversion to
`lanelet_id_order` (the sentinel ordinal is dropped by then): the search for
the start id, the rotation, and the stitching with `expandPathToTheLanelet`
up to the goal lanelet. -/
def stitchLaneletIds {Node W : Type} [DecidableEq Node]
    (g : RoutingGraph Node W) (lanelet_id_order : List Node)
    (start_lanelet goal_lanelet : Node) (path_lanelets : List Node) : PlanResult Node :=
  match startIdPosition lanelet_id_order start_lanelet with
  | none => PlanResult.undefinedBehaviour
  | some start_id_position =>
    let final_lanelet_id_order := finalLaneletIdOrder lanelet_id_order start_id_position
    match expandAll g [start_lanelet] final_lanelet_id_order.tail with
    | (false, _) => PlanResult.failure path_lanelets
    | (true, full_coverage_path) =>
      match expandPathToTheLanelet g full_coverage_path goal_lanelet with
      | (false, _) => PlanResult.failure path_lanelets
      | (true, full_path) => PlanResult.success (path_lanelets ++ full_path)

/-! ## `planFullCoveragePath` (depth-first coverage) -/

/-- The local state of the `while` loop of `planFullCoveragePath`: the stack
`dfs_stk` (top first), the set `visited_lanelet` and `full_coverage_path`. -/
structure DfsState (Node : Type) where
  dfs_stk : List Node
  visited_lanelet : List Node
  full_coverage_path : List Node
  deriving DecidableEq, Repr

/-- How the `while` loop ends: the stack ran empty, the call returned `false`,
a construct without defined behaviour was executed, or the fuel of the model
was used up. -/
inductive DfsResult (Node : Type)
  | finished (s : DfsState Node)
  | failed
  | undefinedBehaviour
  | outOfFuel
  deriving DecidableEq, Repr

/-- The call `visited_lanelet.emplace(id)` on the set. -/
def emplaceVisited {Node : Type} [DecidableEq Node] (visited_lanelet : List Node)
    (id : Node) : List Node :=
  if id ∈ visited_lanelet then visited_lanelet else id :: visited_lanelet

/-- The loop `for (following_llt : following_llts) dfs_stk.push(following_llt)`:
the last lanelet pushed is the new top. -/
def pushAll {Node : Type} (dfs_stk : List Node) (following_llts : List Node) : List Node :=
  following_llts.reverse ++ dfs_stk

/-- The loop `for (llt : back_path)` of the backtracking branch: each lanelet
is marked visited, appended to the path, and its following lanelets are
pushed. -/
def backtrackLoop {Node W : Type} [DecidableEq Node] (g : RoutingGraph Node W) :
    List Node → DfsState Node → DfsState Node
  | [], s => s
  | llt :: rest, s =>
    backtrackLoop g rest
      { dfs_stk := pushAll s.dfs_stk (g.following llt),
        visited_lanelet := emplaceVisited s.visited_lanelet llt,
        full_coverage_path := s.full_coverage_path ++ [llt] }

/-- One round of the `while` loop with `cur_lanelet` popped from the stack
and `dfs_stk` the stack left.  Reading `back()` of an empty path and
dereferencing an empty `routingRelation` result have no defined behaviour. -/
def dfsStep {Node W : Type} [DecidableEq Node] (g : RoutingGraph Node W)
    (cur_lanelet : Node) (dfs_stk : List Node) (s : DfsState Node) : DfsResult Node :=
  match s.full_coverage_path.getLast? with
  | none => DfsResult.undefinedBehaviour
  | some pose_lanelet =>
    if cur_lanelet ∈ s.visited_lanelet then
      DfsResult.finished { s with dfs_stk := dfs_stk }
    else
      match g.routingRelation pose_lanelet cur_lanelet with
      | none => DfsResult.undefinedBehaviour
      | some relation =>
        if relation ≠ RelationType.Successor then
          match g.getRoute pose_lanelet cur_lanelet with
          | none => DfsResult.failed
          | some back_path =>
            DfsResult.finished
              (backtrackLoop g back_path.toList
                { dfs_stk := dfs_stk,
                  visited_lanelet := s.visited_lanelet,
                  full_coverage_path := s.full_coverage_path.dropLast })
        else
          DfsResult.finished
            { dfs_stk := pushAll dfs_stk (g.following cur_lanelet),
              visited_lanelet := emplaceVisited s.visited_lanelet cur_lanelet,
              full_coverage_path := s.full_coverage_path ++ [cur_lanelet] }

/-- The loop `while (!dfs_stk.empty())`, at most `fuel` rounds. -/
def dfsLoop {Node W : Type} [DecidableEq Node] (g : RoutingGraph Node W) :
    Nat → DfsState Node → DfsResult Node
  | 0, s =>
    match s.dfs_stk with
    | [] => DfsResult.finished s
    | _ :: _ => DfsResult.outOfFuel
  | fuel + 1, s =>
    match s.dfs_stk with
    | [] => DfsResult.finished s
    | cur_lanelet :: dfs_stk =>
      match dfsStep g cur_lanelet dfs_stk s with
      | DfsResult.finished s1 => dfsLoop g fuel s1
      | DfsResult.failed => DfsResult.failed
      | DfsResult.undefinedBehaviour => DfsResult.undefinedBehaviour
      | DfsResult.outOfFuel => DfsResult.outOfFuel

/-- `planFullCoveragePath` from the point where the start and goal lanelets
are found: the depth-first loop, the closing route to the goal lanelet, and
the copy of `full_coverage_path` to `*path_lanelets_ptr`. -/
def planFullCoveragePath {Node W : Type} [DecidableEq Node] (g : RoutingGraph Node W)
    (fuel : Nat) (start_lanelet goal_lanelet : Node) (path_lanelets : List Node) :
    PlanResult Node :=
  match dfsLoop g fuel
      { dfs_stk := [start_lanelet], visited_lanelet := [],
        full_coverage_path := [start_lanelet] } with
  | DfsResult.finished s =>
    match s.full_coverage_path.getLast? with
    | none => PlanResult.undefinedBehaviour
    | some back =>
      match g.getRoute back goal_lanelet with
      | none => PlanResult.failure path_lanelets
      | some last_path =>
        PlanResult.success
          (path_lanelets ++ (s.full_coverage_path.dropLast ++ last_path.toList))
  | DfsResult.failed => PlanResult.failure path_lanelets
  | DfsResult.undefinedBehaviour => PlanResult.undefinedBehaviour
  | DfsResult.outOfFuel => PlanResult.outOfFuel

/-! ## Properties of the graph queries used as assumptions -/

/-- Every path a shortest-path query returns for `(a, b)` begins with `a`. -/
def BeginsAtSource {Node : Type} (query : Node → Node → Option (LaneletPath Node)) : Prop :=
  ∀ a b p, query a b = some p → p.first = a

/-- Every path a shortest-path query returns for `(a, b)` ends with `b`. -/
def EndsAtTarget {Node : Type} (query : Node → Node → Option (LaneletPath Node)) : Prop :=
  ∀ a b p, query a b = some p → p.toList.getLast? = some b

/-- The pair `(u, v)` is a consecutive pair of some path returned by
`shortestPath` or by the shortest path of `getRoute`. -/
def IsConnectorPair {Node W : Type} (g : RoutingGraph Node W) (u v : Node) : Prop :=
  ∃ a b p, (g.shortestPath a b = some p ∨ g.getRoute a b = some p) ∧
    (u, v) ∈ consecutivePairs p.toList

/-- The test of `getPathCost` on a pair: the relation is `Successor`, `Left`
or `Right` and the pair has an edge cost. -/
def validPair {Node W : Type} (g : RoutingGraph Node W) (ab : Node × Node) : Bool :=
  match g.routingRelation ab.1 ab.2 with
  | some r =>
    (decide (r = RelationType.Successor ∨ r = RelationType.Left ∨ r = RelationType.Right))
      && (g.getEdgeCost ab.1 ab.2).isSome
  | none => false

/-- Every consecutive pair of the sequence is related as `Successor` or is a
consecutive pair of a path returned by the graph. -/
def IsWalk {Node W : Type} (g : RoutingGraph Node W) (l : List Node) : Prop :=
  ∀ uv ∈ consecutivePairs l,
    g.routingRelation uv.1 uv.2 = some RelationType.Successor ∨ IsConnectorPair g uv.1 uv.2

/-- The edge costs of the consecutive pairs of a sequence that have one. -/
def pairCosts {Node W : Type} (g : RoutingGraph Node W) (pairs : List (Node × Node)) : List W :=
  pairs.filterMap (fun ab => g.getEdgeCost ab.1 ab.2)

/-- What the routing graph guarantees about its answers, as far as the walk
property needs it: a path returned by `shortestPath` or by the shortest path
of `getRoute` for `(a, b)` begins with `a`, and `routingRelation` and
`getEdgeCost` are read off the same edge, so a pair that has a relation has an
edge cost. -/
def RoutingContract {Node W : Type} (g : RoutingGraph Node W) : Prop :=
  BeginsAtSource g.shortestPath ∧ BeginsAtSource g.getRoute ∧
  (∀ u v r, g.routingRelation u v = some r → ∃ c, g.getEdgeCost u v = some c)

/-- A finite graph: `lanelets` is a finite set of lanelets that holds every
lanelet following one of its members and every lanelet on a route between two
of its members. -/
def FiniteGraph {Node W : Type} (g : RoutingGraph Node W) (lanelets : Finset Node) : Prop :=
  (∀ a ∈ lanelets, ∀ b ∈ g.following a, b ∈ lanelets) ∧
  (∀ a ∈ lanelets, ∀ b ∈ lanelets, ∀ p, g.getRoute a b = some p →
    ∀ x ∈ p.toList, x ∈ lanelets)

/-- The stack and the path of the state hold lanelets of `lanelets` only. -/
def InLanelets {Node : Type} (lanelets : Finset Node) (s : DfsState Node) : Prop :=
  (∀ x ∈ s.dfs_stk, x ∈ lanelets) ∧ (∀ x ∈ s.full_coverage_path, x ∈ lanelets)

/-- The number of lanelets of `lanelets` that are not in the visited set. -/
def unvisitedCount {Node : Type} [DecidableEq Node] (lanelets : Finset Node)
    (s : DfsState Node) : Nat :=
  (lanelets.filter (fun x => x ∉ s.visited_lanelet)).card

/-- The termination measure of the depth-first loop: the number of unvisited
lanelets and the size of the stack. -/
def dfsMeasure {Node : Type} [DecidableEq Node] (lanelets : Finset Node)
    (s : DfsState Node) : Nat × Nat :=
  (unvisitedCount lanelets s, s.dfs_stk.length)

/-- A node is reachable from `a` by following direct-successor edges, zero
or more steps. -/
def ReachableByFollowing {Node W : Type} (g : RoutingGraph Node W) (a b : Node) : Prop :=
  Relation.ReflTransGen (fun x y => y ∈ g.following x) a b

/-! ## Concrete graphs used as test inputs -/

/-- One passable lanelet `0`, no edges. -/
def graphOne : RoutingGraph Nat Int where
  passable := [0]
  shortestPath := fun a b => if a = b then some ⟨a, []⟩ else none
  getRoute := fun a b => if a = b then some ⟨a, []⟩ else none
  getEdgeCost := fun _ _ => none
  routingRelation := fun _ _ => none
  following := fun _ => []

/-- Two passable lanelets `0` and `1` with the single edge `0 -> 1` of cost
`7`; lanelet `0` cannot be reached from `1`. -/
def graphTwo : RoutingGraph Nat Int where
  passable := [0, 1]
  shortestPath := fun a b =>
    if a = b then some ⟨a, []⟩ else if a = 0 ∧ b = 1 then some ⟨0, [1]⟩ else none
  getRoute := fun a b =>
    if a = b then some ⟨a, []⟩ else if a = 0 ∧ b = 1 then some ⟨0, [1]⟩ else none
  getEdgeCost := fun a b => if a = 0 ∧ b = 1 then some 7 else none
  routingRelation := fun a b => if a = 0 ∧ b = 1 then some RelationType.Successor else none
  following := fun a => if a = 0 then [1] else []

/-- The shortest path along the cycle `0 -> 1 -> 2 -> 3 -> 0` from `a` to `b`. -/
def cyclePath (a b : Nat) : Option (LaneletPath Nat) :=
  if a < 4 ∧ b < 4 then
    some ⟨a, (List.range ((b + 4 - a) % 4)).map (fun i => (a + i + 1) % 4)⟩
  else none

/-- The four-lanelet cycle `0 -> 1 -> 2 -> 3 -> 0` with every edge of cost `1`.
Relation and cost are read off the edges: two lanelets that are not joined
by an edge have no relation and no edge cost. -/
def graphCycle : RoutingGraph Nat Int where
  passable := [0, 1, 2, 3]
  shortestPath := cyclePath
  getRoute := cyclePath
  getEdgeCost := fun a b => if a < 4 ∧ b = (a + 1) % 4 then some 1 else none
  routingRelation := fun a b =>
    if a < 4 ∧ b = (a + 1) % 4 then some RelationType.Successor else none
  following := fun a => if a < 4 then [(a + 1) % 4] else []

/-- The path `a, a+1, ..., b` along the chain `0 -> 1 -> 2`. -/
def loopPath (a b : Nat) : Option (LaneletPath Nat) :=
  if a ≤ b ∧ b ≤ 2 then
    some ⟨a, (List.range (b - a)).map (fun i => a + i + 1)⟩
  else none

/-- Three lanelets: lanelet `0` closes on itself (its end meets its own
start, so it is its own successor) and leads on to `1`, which leads on to
`2`.  Every edge has cost `1`; relation and cost are read off the edges. -/
def graphLoop : RoutingGraph Nat Int where
  passable := [0, 1, 2]
  shortestPath := loopPath
  getRoute := loopPath
  getEdgeCost := fun a b =>
    if (a = 0 ∧ b = 0) ∨ (a = 0 ∧ b = 1) ∨ (a = 1 ∧ b = 2) then some 1 else none
  routingRelation := fun a b =>
    if (a = 0 ∧ b = 0) ∨ (a = 0 ∧ b = 1) ∨ (a = 1 ∧ b = 2) then some RelationType.Successor
    else none
  following := fun a => if a = 0 then [0, 1] else if a = 1 then [2] else []

/-- A solver environment at time `17 s, 5 us`: `assert` compiled in or not,
the status every `system` call returns, and the lines of `ATSP_output.txt`
(any other file cannot be opened). -/
def envWith (assertsEnabled : Bool) (status : Int) (tour : List String) : SolverEnv Int where
  tv_sec := 17
  tv_usec := 5
  assertsEnabled := assertsEnabled
  system := fun _ => status
  fileLines := fun name => if name = "ATSP_output.txt" then some tour else none
  binFolder := fun _ => "/opt/ros/lib"
  intText := fun c => toString c

/-- The six header lines LKH writes at the top of a tour file. -/
def tourHeader : List String :=
  [ "NAME : TSPlib_file_17_5.tour", "COMMENT : Length = 7", "COMMENT : Found by LKH",
    "TYPE : TOUR", "DIMENSION : 3", "TOUR_SECTION" ]

/-- A three by three cost matrix. -/
def matThree : Mat Int := [[1000000, 7, 0], [0, 1000000, 0], [0, 0, 1000000]]

/-! ## Reading and writing matrix entries -/

/-- A matrix with `n` rows of `k` entries each. -/
def HasDims {W : Type} (m : Mat W) (n k : Nat) : Prop :=
  m.length = n ∧ ∀ row ∈ m, row.length = k

theorem hasDims_replicate {W : Type} (n k : Nat) (v : W) :
    HasDims (List.replicate n (List.replicate k v)) n k := by
  refine ⟨by simp, ?_⟩
  intro row hrow
  rw [List.eq_of_mem_replicate hrow]
  simp

theorem hasDims_setEntry {W : Type} {m : Mat W} {n k : Nat} (h : HasDims m n k)
    (r c : Nat) (v : W) : HasDims (setEntry m r c v) n k := by
  unfold setEntry
  cases hr : m[r]? with
  | none => simpa using h
  | some x =>
    refine ⟨by simpa using h.1, ?_⟩
    intro row hrow
    rcases List.mem_or_eq_of_mem_set hrow with hmem | heq
    · exact h.2 row hmem
    · rw [heq, List.length_set]
      exact h.2 x (List.getElem?_mem hr)

theorem getEntry_setEntry_same {W : Type} {m : Mat W} {n k : Nat} (h : HasDims m n k)
    {r c : Nat} (hr : r < n) (hc : c < k) (v : W) :
    getEntry (setEntry m r c v) r c = some v := by
  have hr2 : r < m.length := by rw [h.1]; exact hr
  have hrow : m[r]? = some m[r] := List.getElem?_eq_getElem hr2
  have hlen : (m[r]).length = k := h.2 _ (List.getElem_mem _)
  unfold getEntry setEntry
  simp only [hrow, List.getElem?_set, if_pos hr2, if_true]
  simp [hlen, hc]

theorem getEntry_setEntry_other {W : Type} (m : Mat W) {r c i j : Nat}
    (hne : i ≠ r ∨ j ≠ c) (v : W) :
    getEntry (setEntry m r c v) i j = getEntry m i j := by
  unfold setEntry
  cases hr : m[r]? with
  | none => rfl
  | some x =>
    unfold getEntry
    by_cases hir : r = i
    · subst hir
      have hjc : ¬ c = j := by
        rcases hne with h | h
        · exact absurd rfl h
        · exact fun e => h e.symm
      have hlt : r < m.length := by
        by_contra hge
        rw [List.getElem?_eq_none (Nat.le_of_not_lt hge)] at hr
        cases hr
      simp [List.getElem?_set, hlt, hr, hjc]
    · simp [List.getElem?_set, hir]

/-! ## Loops that write matrix entries -/

theorem foldl_invariant {α ι : Type} (P : α → Prop) (step : ι → α → α) :
    ∀ (xs : List ι) (a : α), (∀ x ∈ xs, ∀ b, P b → P (step x b)) → P a →
      P (xs.foldl (fun acc x => step x acc) a) := by
  intro xs
  induction xs with
  | nil => intro a _ ha; exact ha
  | cons x xs ih =>
    intro a hstep ha
    simp only [List.foldl_cons]
    apply ih
    · intro y hy b hb
      exact hstep y (List.mem_cons_of_mem _ hy) b hb
    · exact hstep x (List.mem_cons_self _ _) a ha

theorem foldl_establish {α ι : Type} (Q R : α → Prop) (step : ι → α → α) (x0 : ι) :
    ∀ (xs : List ι) (a : α), x0 ∈ xs →
      (∀ x ∈ xs, ∀ b, Q b → Q (step x b)) →
      (∀ b, Q b → R (step x0 b)) →
      (∀ x ∈ xs, ∀ b, Q b → R b → R (step x b)) →
      Q a → R (xs.foldl (fun acc x => step x acc) a) := by
  intro xs
  induction xs with
  | nil => intro a hmem; cases hmem
  | cons x xs ih =>
    intro a hmem hQ hR0 hR ha
    simp only [List.foldl_cons]
    have hQx : Q (step x a) := hQ x (List.mem_cons_self _ _) a ha
    by_cases hin : x0 ∈ xs
    · exact ih (step x a) hin
        (fun y hy b hb => hQ y (List.mem_cons_of_mem _ hy) b hb) hR0
        (fun y hy b hb hr => hR y (List.mem_cons_of_mem _ hy) b hb hr) hQx
    · have hx : x0 = x := by
        rcases List.mem_cons.mp hmem with h | h
        · exact h
        · exact absurd h hin
      have hboth : Q (xs.foldl (fun acc y => step y acc) (step x a)) ∧
          R (xs.foldl (fun acc y => step y acc) (step x a)) := by
        apply foldl_invariant (fun b => Q b ∧ R b) step xs (step x a)
        · intro y hy b hb
          exact ⟨hQ y (List.mem_cons_of_mem _ hy) b hb.1,
            hR y (List.mem_cons_of_mem _ hy) b hb.1 hb.2⟩
        · exact ⟨hQx, by rw [← hx]; exact hR0 a ha⟩
      exact hboth.2

section MatrixLoops

variable {Node W : Type} [Zero W] [Add W] [NatCast W]

theorem fillRow_hasDims (g : RoutingGraph Node W) (hash : List Node)
    (row : Fin hash.length) {m : Mat W} {n k : Nat} (h : HasDims m n k) :
    HasDims (fillRow g hash row m) n k := by
  unfold fillRow
  apply foldl_invariant (fun b => HasDims b n k)
    (fun (col : Fin hash.length) acc => setEntry acc row.val col.val (matrixCell g hash row col))
  · intro col _ b hb
    exact hasDims_setEntry hb _ _ _
  · exact h

theorem fillRow_other (g : RoutingGraph Node W) (hash : List Node)
    (row : Fin hash.length) {m : Mat W} {n k : Nat} (h : HasDims m n k) {i j : Nat}
    (hne : i ≠ row.val ∨ hash.length ≤ j) :
    getEntry (fillRow g hash row m) i j = getEntry m i j := by
  unfold fillRow
  have key := foldl_invariant (fun b => HasDims b n k ∧ getEntry b i j = getEntry m i j)
    (fun (col : Fin hash.length) acc => setEntry acc row.val col.val (matrixCell g hash row col))
    (List.finRange hash.length) m
    (by
      intro col _ b hb
      refine ⟨hasDims_setEntry hb.1 _ _ _, ?_⟩
      rw [getEntry_setEntry_other b _ _, hb.2]
      rcases hne with h1 | h2
      · exact Or.inl h1
      · exact Or.inr (fun e => absurd col.isLt (by omega)))
    ⟨h, rfl⟩
  exact key.2

theorem fillRow_same (g : RoutingGraph Node W) (hash : List Node)
    (row col : Fin hash.length) {m : Mat W} {n k : Nat} (h : HasDims m n k)
    (hn : hash.length ≤ n) (hk : hash.length ≤ k) :
    getEntry (fillRow g hash row m) row.val col.val = some (matrixCell g hash row col) := by
  unfold fillRow
  apply foldl_establish (fun b => HasDims b n k)
    (fun b => getEntry b row.val col.val = some (matrixCell g hash row col))
    (fun (c : Fin hash.length) acc => setEntry acc row.val c.val (matrixCell g hash row c))
    col (List.finRange hash.length) m (List.mem_finRange col)
  · intro c _ b hb
    exact hasDims_setEntry hb _ _ _
  · intro b hb
    exact getEntry_setEntry_same hb (by have := row.isLt; omega) (by have := col.isLt; omega) _
  · intro c _ b hb hr
    by_cases hc : c = col
    · subst hc
      exact getEntry_setEntry_same hb (by have := row.isLt; omega) (by have := c.isLt; omega) _
    · rw [getEntry_setEntry_other b _ _, hr]
      exact Or.inr (fun e => hc (Fin.ext e.symm))
  · exact h

theorem fillMatrix_hasDims (g : RoutingGraph Node W) (hash : List Node)
    {m : Mat W} {n k : Nat} (h : HasDims m n k) :
    HasDims (fillMatrix g hash m) n k := by
  unfold fillMatrix
  apply foldl_invariant (fun b => HasDims b n k)
    (fun (row : Fin hash.length) acc => fillRow g hash row acc)
  · intro row _ b hb
    exact fillRow_hasDims g hash row hb
  · exact h

theorem fillMatrix_other (g : RoutingGraph Node W) (hash : List Node)
    {m : Mat W} {n k : Nat} (h : HasDims m n k) {i j : Nat}
    (hne : hash.length ≤ i ∨ hash.length ≤ j) :
    getEntry (fillMatrix g hash m) i j = getEntry m i j := by
  unfold fillMatrix
  have key := foldl_invariant (fun b => HasDims b n k ∧ getEntry b i j = getEntry m i j)
    (fun (row : Fin hash.length) acc => fillRow g hash row acc)
    (List.finRange hash.length) m
    (by
      intro row _ b hb
      refine ⟨fillRow_hasDims g hash row hb.1, ?_⟩
      rw [fillRow_other g hash row hb.1, hb.2]
      rcases hne with h1 | h2
      · exact Or.inl (fun e => absurd row.isLt (by omega))
      · exact Or.inr h2)
    ⟨h, rfl⟩
  exact key.2

theorem fillMatrix_same (g : RoutingGraph Node W) (hash : List Node)
    (row col : Fin hash.length) {m : Mat W} {n k : Nat} (h : HasDims m n k)
    (hn : hash.length ≤ n) (hk : hash.length ≤ k) :
    getEntry (fillMatrix g hash m) row.val col.val = some (matrixCell g hash row col) := by
  unfold fillMatrix
  apply foldl_establish (fun b => HasDims b n k)
    (fun b => getEntry b row.val col.val = some (matrixCell g hash row col))
    (fun (r : Fin hash.length) acc => fillRow g hash r acc)
    row (List.finRange hash.length) m (List.mem_finRange row)
  · intro r _ b hb
    exact fillRow_hasDims g hash r hb
  · intro b hb
    exact fillRow_same g hash row col hb hn hk
  · intro r _ b hb hr
    by_cases hrr : r = row
    · subst hrr
      exact fillRow_same g hash r col hb hn hk
    · rw [fillRow_other g hash r hb, hr]
      exact Or.inl (fun e => hrr (Fin.ext e.symm))
  · exact h

/-- The matrix built when the registry size equals the passable count. -/
theorem getAjacentMatrix_eq (g : RoutingGraph Node W) (hash : List Node)
    (h : g.passable.length = hash.length) :
    getAjacentMatrix g hash
      = setEntry (fillMatrix g hash
          (List.replicate (hash.length + 1) (List.replicate (hash.length + 1) (0 : W))))
          hash.length hash.length sentinelCost := by
  unfold getAjacentMatrix
  simp [h]

theorem getAjacentMatrix_hasDims (g : RoutingGraph Node W) (hash : List Node)
    (h : g.passable.length = hash.length) :
    HasDims (getAjacentMatrix g hash) (hash.length + 1) (hash.length + 1) := by
  rw [getAjacentMatrix_eq g hash h]
  exact hasDims_setEntry (fillMatrix_hasDims g hash (hasDims_replicate _ _ _)) _ _ _

/-- Inside the registered block the entry is the value the double loop stored. -/
theorem getAjacentMatrix_inner (g : RoutingGraph Node W) (hash : List Node)
    (h : g.passable.length = hash.length) (row col : Fin hash.length) :
    getEntry (getAjacentMatrix g hash) row.val col.val = some (matrixCell g hash row col) := by
  rw [getAjacentMatrix_eq g hash h, getEntry_setEntry_other _ _ _]
  · exact fillMatrix_same g hash row col (hasDims_replicate _ _ _) (by omega) (by omega)
  · exact Or.inl (by have := row.isLt; omega)

/-- The corner entry of the appended row and column. -/
theorem getAjacentMatrix_corner (g : RoutingGraph Node W) (hash : List Node)
    (h : g.passable.length = hash.length) :
    getEntry (getAjacentMatrix g hash) hash.length hash.length = some (sentinelCost : W) := by
  rw [getAjacentMatrix_eq g hash h]
  exact getEntry_setEntry_same (fillMatrix_hasDims g hash (hasDims_replicate _ _ _))
    (by omega) (by omega) _

/-- The other entries of the appended row and column keep the initial zero. -/
theorem getAjacentMatrix_border (g : RoutingGraph Node W) (hash : List Node)
    (h : g.passable.length = hash.length) {i j : Nat}
    (hi : i ≤ hash.length) (hj : j ≤ hash.length)
    (hb : i = hash.length ∨ j = hash.length) (hne : i ≠ j) :
    getEntry (getAjacentMatrix g hash) i j = some (0 : W) := by
  rw [getAjacentMatrix_eq g hash h, getEntry_setEntry_other _ _ _]
  · rw [fillMatrix_other g hash (hasDims_replicate _ _ _)]
    · unfold getEntry
      have hi2 : i < hash.length + 1 := by omega
      have hj2 : j < hash.length + 1 := by omega
      simp [List.getElem?_replicate, hi2, hj2]
    · rcases hb with h1 | h1
      · exact Or.inl (by omega)
      · exact Or.inr (by omega)
  · rcases hb with h1 | h1
    · exact Or.inr (by omega)
    · exact Or.inl (by omega)

end MatrixLoops

/-! ## The cost matrix -/

theorem sumLeft_eq_sum {W : Type} [AddMonoid W] (costs : List W) :
    sumLeft costs = costs.sum := by
  unfold sumLeft
  rw [List.sum_eq_foldl]

theorem sumEdgeCosts_all {Node W : Type} [Add W] (g : RoutingGraph Node W) :
    ∀ (l : List Node) (costs : List W) (total : W),
      (consecutivePairs l).map (fun ab => g.getEdgeCost ab.1 ab.2) = costs.map some →
      sumEdgeCosts g l total = costs.foldl (fun t c => t + c) total := by
  intro l
  induction l with
  | nil =>
    intro costs total h
    cases costs with
    | nil => rfl
    | cons c cs => simp [consecutivePairs] at h
  | cons a l ih =>
    cases l with
    | nil =>
      intro costs total h
      cases costs with
      | nil => rfl
      | cons c cs => simp [consecutivePairs] at h
    | cons b rest =>
      intro costs total h
      cases costs with
      | nil => simp [consecutivePairs] at h
      | cons c cs =>
        simp only [consecutivePairs, List.tail_cons, List.zip_cons_cons, List.map_cons,
          List.cons.injEq] at h
        simp only [sumEdgeCosts, h.1, List.foldl_cons]
        exact ih cs (total + c) h.2

theorem getWeightOfAjacentMatrix_unreachable {Node W : Type} [Zero W] [Add W]
    (g : RoutingGraph Node W) (a b : Node) (h : g.shortestPath a b = none) :
    getWeightOfAjacentMatrix g a b = 0 := by
  simp [getWeightOfAjacentMatrix, expandPathToTheLanelet, h]

theorem getWeightOfAjacentMatrix_reachable {Node W : Type} [Zero W] [Add W]
    (g : RoutingGraph Node W) (a b : Node) (p : LaneletPath Node)
    (h : g.shortestPath a b = some p) :
    getWeightOfAjacentMatrix g a b = sumEdgeCosts g p.toList 0 := by
  simp [getWeightOfAjacentMatrix, expandPathToTheLanelet, h]

section CostMatrix

variable {Node W : Type} [Zero W] [Add W] [NatCast W]

/-- C1: when the passable-lanelet count equals the number of registered
ordinals `N`, `getAjacentMatrix` returns `N+1` rows of `N+1` entries each, and
every diagonal entry `matrix[k][k]`, `0 <= k <= N`, is the sentinel cost
`1000000`. -/
theorem getAjacentMatrix_square_with_sentinel_diagonal (g : RoutingGraph Node W)
    (node2lanelet_hash : List Node)
    (h : g.passable.length = node2lanelet_hash.length) :
    (getAjacentMatrix g node2lanelet_hash).length = node2lanelet_hash.length + 1 ∧
    (∀ row ∈ getAjacentMatrix g node2lanelet_hash,
      row.length = node2lanelet_hash.length + 1) ∧
    (∀ k, k ≤ node2lanelet_hash.length →
      getEntry (getAjacentMatrix g node2lanelet_hash) k k = some (sentinelCost : W)) := by
  have hd := getAjacentMatrix_hasDims g node2lanelet_hash h
  refine ⟨hd.1, hd.2, ?_⟩
  intro k hk
  by_cases hlt : k < node2lanelet_hash.length
  · have := getAjacentMatrix_inner g node2lanelet_hash h ⟨k, hlt⟩ ⟨k, hlt⟩
    simpa [matrixCell] using this
  · have hk2 : k = node2lanelet_hash.length := by omega
    rw [hk2]
    exact getAjacentMatrix_corner g node2lanelet_hash h

/-- C2 (as amended): with `N` registered lanelets, the corner `matrix[N][N]`
of the appended closing row and column is the sentinel cost `1000000`, and
every other entry of that row and column, `matrix[N][j]` and `matrix[i][N]`
with `i, j < N`, is `0`. -/
theorem getAjacentMatrix_closing_row_column (g : RoutingGraph Node W)
    (node2lanelet_hash : List Node)
    (h : g.passable.length = node2lanelet_hash.length) :
    getEntry (getAjacentMatrix g node2lanelet_hash)
        node2lanelet_hash.length node2lanelet_hash.length = some (sentinelCost : W) ∧
    (∀ j, j < node2lanelet_hash.length →
      getEntry (getAjacentMatrix g node2lanelet_hash) node2lanelet_hash.length j
        = some (0 : W)) ∧
    (∀ i, i < node2lanelet_hash.length →
      getEntry (getAjacentMatrix g node2lanelet_hash) i node2lanelet_hash.length
        = some (0 : W)) := by
  refine ⟨getAjacentMatrix_corner g node2lanelet_hash h, ?_, ?_⟩
  · intro j hj
    exact getAjacentMatrix_border g node2lanelet_hash h (Nat.le_refl _) (Nat.le_of_lt hj)
      (Or.inl rfl) (by omega)
  · intro i hi
    exact getAjacentMatrix_border g node2lanelet_hash h (Nat.le_of_lt hi) (Nat.le_refl _)
      (Or.inr rfl) (by omega)

/-- C3 (as amended): for distinct registered ordinals `i != j` such that the
graph has no shortest path from lanelet `i` to lanelet `j`, the entry
`matrix[i][j]` is `0`; so every off-diagonal entry between an isolated lanelet
and a registered lanelet is `0`. -/
theorem getAjacentMatrix_unreachable_pair (g : RoutingGraph Node W)
    (node2lanelet_hash : List Node)
    (h : g.passable.length = node2lanelet_hash.length)
    (i j : Fin node2lanelet_hash.length) (hij : i ≠ j)
    (hno : g.shortestPath (node2lanelet_hash.get i) (node2lanelet_hash.get j) = none) :
    getEntry (getAjacentMatrix g node2lanelet_hash) i.val j.val = some (0 : W) := by
  rw [getAjacentMatrix_inner g node2lanelet_hash h i j]
  simp only [matrixCell, hij, ne_eq, not_false_eq_true, if_true]
  rw [getWeightOfAjacentMatrix_unreachable g _ _ hno]

/-- C4: for distinct registered ordinals `i != j` for which
`shortestPath(node_i, node_j)` exists and every consecutive pair of it has an
edge cost, `matrix[i][j]` is the sum, from left to right, of the edge costs
of the consecutive pairs of that shortest path.  (A returned path is never
empty, so the theorem does not need that it starts at `node_i`.) -/
theorem getAjacentMatrix_reachable_pair (g : RoutingGraph Node W)
    (node2lanelet_hash : List Node)
    (h : g.passable.length = node2lanelet_hash.length)
    (i j : Fin node2lanelet_hash.length) (hij : i ≠ j)
    (p : LaneletPath Node) (costs : List W)
    (hp : g.shortestPath (node2lanelet_hash.get i) (node2lanelet_hash.get j) = some p)
    (hc : (consecutivePairs p.toList).map (fun ab => g.getEdgeCost ab.1 ab.2)
      = costs.map some) :
    getEntry (getAjacentMatrix g node2lanelet_hash) i.val j.val = some (sumLeft costs) := by
  rw [getAjacentMatrix_inner g node2lanelet_hash h i j]
  simp only [matrixCell, hij, ne_eq, not_false_eq_true, if_true]
  rw [getWeightOfAjacentMatrix_reachable g _ _ p hp, sumEdgeCosts_all g p.toList costs 0 hc]
  rfl

end CostMatrix

theorem getAjacentMatrix_square_with_sentinel_diagonal_witness :
    graphTwo.passable.length = [0, 1].length ∧
    ((getAjacentMatrix graphTwo [0, 1]).length = 3 ∧
      (∀ row ∈ getAjacentMatrix graphTwo [0, 1], row.length = 3) ∧
      (∀ k, k ≤ 2 → getEntry (getAjacentMatrix graphTwo [0, 1]) k k
        = some (sentinelCost : Int))) :=
  ⟨by decide, getAjacentMatrix_square_with_sentinel_diagonal graphTwo [0, 1] (by decide)⟩

/-- C2 fails as stated: with one registered lanelet the entry `matrix[1][0]`
of the closing row is `0`, not the sentinel cost. -/
theorem getAjacentMatrix_closing_row_not_sentinel :
    graphOne.passable.length = [0].length ∧
    ¬ (∀ i j, i ≤ 1 → j ≤ 1 →
      getEntry (getAjacentMatrix graphOne [0]) 1 j = some (sentinelCost : Int) ∧
      getEntry (getAjacentMatrix graphOne [0]) i 1 = some (sentinelCost : Int)) := by
  refine ⟨by decide, ?_⟩
  intro hall
  have h10 := (hall 0 0 (by decide) (by decide)).1
  revert h10
  decide

theorem getAjacentMatrix_closing_row_column_witness :
    graphTwo.passable.length = [0, 1].length ∧
    (getEntry (getAjacentMatrix graphTwo [0, 1]) 2 2 = some (sentinelCost : Int) ∧
      (∀ j, j < 2 → getEntry (getAjacentMatrix graphTwo [0, 1]) 2 j = some (0 : Int)) ∧
      (∀ i, i < 2 → getEntry (getAjacentMatrix graphTwo [0, 1]) i 2 = some (0 : Int))) :=
  ⟨by decide, getAjacentMatrix_closing_row_column graphTwo [0, 1] (by decide)⟩

/-- C3 fails as stated: lanelet `0` cannot be reached from lanelet `1` in
`graphTwo`, and `matrix[1][0]` is `0`, not the sentinel cost. -/
theorem getAjacentMatrix_unreachable_not_sentinel :
    graphTwo.passable.length = [0, 1].length ∧
    graphTwo.shortestPath 1 0 = none ∧
    getEntry (getAjacentMatrix graphTwo [0, 1]) 1 0 = some (0 : Int) ∧
    getEntry (getAjacentMatrix graphTwo [0, 1]) 1 0 ≠ some (sentinelCost : Int) := by
  decide

theorem getAjacentMatrix_unreachable_pair_witness :
    graphTwo.passable.length = [0, 1].length ∧
    (⟨1, by decide⟩ : Fin [0, 1].length) ≠ ⟨0, by decide⟩ ∧
    graphTwo.shortestPath 1 0 = none ∧
    getEntry (getAjacentMatrix graphTwo [0, 1]) 1 0 = some (0 : Int) :=
  ⟨by decide, by decide, by decide,
    getAjacentMatrix_unreachable_pair graphTwo [0, 1] (by decide)
      ⟨1, by decide⟩ ⟨0, by decide⟩ (by decide) (by decide)⟩

theorem getAjacentMatrix_reachable_pair_witness :
    graphTwo.passable.length = [0, 1].length ∧
    graphTwo.shortestPath 0 1 = some ⟨0, [1]⟩ ∧
    (consecutivePairs [0, 1]).map (fun ab => graphTwo.getEdgeCost ab.1 ab.2) = [some 7] ∧
    getEntry (getAjacentMatrix graphTwo [0, 1]) 0 1 = some (sumLeft [7]) :=
  ⟨by decide, by decide, by decide,
    getAjacentMatrix_reachable_pair graphTwo [0, 1] (by decide)
      ⟨0, by decide⟩ ⟨1, by decide⟩ (by decide) ⟨0, [1]⟩ [7] (by decide) (by decide)⟩

/-! ## The tour solvers -/

theorem length_identityOrder (n : Nat) : (identityOrder n).length = n := by
  simp [identityOrder]

theorem checkedOrder_identityOrder (n : Nat) :
    checkedOrder (identityOrder n) n = identityOrder n := by
  simp [checkedOrder, length_identityOrder]

theorem length_checkedOrder (order : List Int) (n : Nat) :
    (checkedOrder order n).length = n := by
  unfold checkedOrder
  by_cases h : order.length = n
  · simp [h]
  · simp [h, length_identityOrder]

theorem checkedOrder_of_length_ne (order : List Int) (n : Nat) (h : order.length ≠ n) :
    checkedOrder order n = identityOrder n := by
  simp [checkedOrder, h]

theorem checkedOrder_of_length_eq (order : List Int) (n : Nat) (h : order.length = n) :
    checkedOrder order n = order := by
  simp [checkedOrder, h]

namespace LKHTSPSolver

/-- The value part of `solveLKHTSP` by cases. -/
theorem solveLKHTSP_outcome {W : Type} (env : SolverEnv W) (m : Mat W) :
    (solveLKHTSP env m).1 =
      if 2 < m.length then
        if env.assertsEnabled = true ∧ env.system (cmd env) ≠ 0 then Outcome.aborted
        else Outcome.returned
          (checkedOrder (readFromFile (env.fileLines tsp_out_filename)) m.length)
      else Outcome.returned (identityOrder m.length) := by
  unfold solveLKHTSP
  by_cases h : 2 < m.length
  · by_cases ha : env.assertsEnabled = true ∧ env.system (cmd env) ≠ 0
    · rw [if_pos h, if_pos h, if_pos ha, if_pos ha]
    · rw [if_pos h, if_pos h, if_neg ha, if_neg ha]
  · rw [if_neg h, if_neg h, checkedOrder_identityOrder]

theorem solveLKHTSP_small {W : Type} (env : SolverEnv W) (m : Mat W) (h : m.length ≤ 2) :
    solveLKHTSP env m = (Outcome.returned (identityOrder m.length),
      [FileOp.remove (tsp_lib_filename env), FileOp.remove (tsp_par_filename env)]) := by
  unfold solveLKHTSP
  have h2 : ¬ m.length > 2 := by omega
  simp only [h2, if_false, checkedOrder_identityOrder]

theorem readLoop_header : ∀ (lines : List String) (k : Nat) (order : List Int), k ≤ 6 →
    readLoop lines k order = readLoop (lines.drop (6 - k)) 6 order := by
  intro lines
  induction lines with
  | nil => intro k order _; simp [readLoop]
  | cons line rest ih =>
    intro k order hk
    by_cases h6 : k < 6
    · have hd : 6 - k = (6 - (k + 1)) + 1 := by omega
      rw [hd, List.drop_succ_cons, ← ih (k + 1) order (by omega)]
      simp [readLoop, h6]
    · have hk6 : k = 6 := by omega
      subst hk6
      simp

theorem readLoop_body : ∀ (lines : List String) (order : List Int),
    readLoop lines 6 order
      = order ++ (((lines.filterMap leadingInt).takeWhile (fun v => decide (v ≠ -1))).map
          (fun v => wrapInt (v - 1))) := by
  intro lines
  induction lines with
  | nil => intro order; simp [readLoop]
  | cons line rest ih =>
    intro order
    cases hl : leadingInt line with
    | none => simp [readLoop, hl, ih]
    | some v =>
      by_cases hv : v = -1
      · simp [readLoop, hl, hv]
      · simp [readLoop, hl, hv, ih]

theorem readFromFile_eq (lines : List String) :
    readFromFile (some lines)
      = ((((lines.drop 6).filterMap leadingInt).takeWhile (fun v => decide (v ≠ -1))).map
          (fun v => wrapInt (v - 1))) := by
  show readLoop lines 0 [] = _
  rw [readLoop_header lines 0 [] (by omega), readLoop_body]
  simp

end LKHTSPSolver

theorem wrapInt_pred (v : Int) (h1 : INT_MIN < v) (h2 : v ≤ INT_MAX) : wrapInt (v - 1) = v - 1 := by
  unfold wrapInt
  unfold INT_MIN at h1
  unfold INT_MAX at h2
  omega

theorem filterMap_of_map_some {α β : Type} (f : α → Option β) :
    ∀ (l : List α) (ys : List β), l.map f = ys.map some → l.filterMap f = ys := by
  intro l
  induction l with
  | nil =>
    intro ys h
    cases ys with
    | nil => rfl
    | cons y ys => simp at h
  | cons a l ih =>
    intro ys h
    cases ys with
    | nil => simp at h
    | cons y ys =>
      simp only [List.map_cons, List.cons.injEq] at h
      rw [List.filterMap_cons, h.1, ih ys h.2]

theorem leadingInt_range (line : String) (v : Int) (h : leadingInt line = some v) :
    INT_MIN ≤ v ∧ v ≤ INT_MAX := by
  unfold leadingInt at h
  cases he : extractInt line.data with
  | none => rw [he] at h; cases h
  | some vr =>
    rw [he] at h
    obtain ⟨w, r⟩ := vr
    simp only [Option.some.injEq] at h
    subst h
    unfold extractInt at he
    simp only [] at he
    split_ifs at he with h1 h2 h3 h4
    all_goals
      simp only [Option.some.injEq, Prod.mk.injEq] at he
      rw [← he.1]
      assumption

namespace ConcordeTSPSolver

theorem solveConcordeTSP_small {W : Type} (env : SolverEnv W) (fuel : Nat) (m : Mat W)
    (h : m.length ≤ 2) :
    solveConcordeTSP env fuel m = (Outcome.returned (identityOrder m.length),
      [ FileOp.remove ("TSPlib_file" ++ uniqueFileIdentifier env ++ ".atsp"),
        FileOp.remove ("TSP_order" ++ uniqueFileIdentifier env ++ ".atsp"),
        FileOp.remove ("TSPlib_file" ++ uniqueFileIdentifier env ++ ".sol"),
        FileOp.remove ("TSPlib_file" ++ uniqueFileIdentifier env ++ ".res") ]) := by
  unfold solveConcordeTSP
  have h2 : ¬ m.length > 2 := by omega
  simp only [h2, if_false, checkedOrder_identityOrder]

end ConcordeTSPSolver

/-- C5: evaluation at the failing input.  The registry holds two ordinals and
the graph one passable lanelet: `getAjacentMatrix` gives the empty matrix,
`planFullCoveragePathByTSP` still calls `solveLKHTSP` on it (the two `remove`
operations are the solver's), gets the empty order back, and runs the
`verify_solution` loop on the empty order, which has no defined behaviour; the
call does not return `false`. -/
theorem planFullCoveragePathByTSP_stale_registry :
    graphOne.passable.length ≠ [0, 1].length ∧
    (getAjacentMatrix graphOne [0, 1] : Mat Int) = [] ∧
    LKHTSPSolver.solveLKHTSP (envWith true 0 tourHeader) (getAjacentMatrix graphOne [0, 1])
      = (Outcome.returned [],
          [FileOp.remove "TSPlib_file_17_5.atsp", FileOp.remove "TSPlib_file_17_5.par"]) ∧
    planFullCoveragePathByTSP graphOne [0, 1] (envWith true 0 tourHeader) 0 0 []
      = (PlanResult.undefinedBehaviour,
          [FileOp.remove "TSPlib_file_17_5.atsp", FileOp.remove "TSPlib_file_17_5.par"]) ∧
    (planFullCoveragePathByTSP graphOne [0, 1] (envWith true 0 tourHeader) 0 0 []).1
      ≠ PlanResult.failure [] := by
  decide

/-- C6: on a matrix with at most two rows `solveLKHTSP` and `solveConcordeTSP`
return the identity order `[0, ..., size-1]` (`[0, 1]` for two rows), and the
only file operations they issue are the `remove` calls of the cleanup: no file
is written, no `system` call is made and no file is read. -/
theorem solvers_small_matrix_identity {W : Type} (env : SolverEnv W) (fuel : Nat) (m : Mat W)
    (h : m.length ≤ 2) :
    (LKHTSPSolver.solveLKHTSP env m).1 = Outcome.returned (identityOrder m.length) ∧
    (ConcordeTSPSolver.solveConcordeTSP env fuel m).1
      = Outcome.returned (identityOrder m.length) ∧
    (∀ op ∈ (LKHTSPSolver.solveLKHTSP env m).2, ∃ name, op = FileOp.remove name) ∧
    (∀ op ∈ (ConcordeTSPSolver.solveConcordeTSP env fuel m).2,
      ∃ name, op = FileOp.remove name) ∧
    (m.length = 2 → identityOrder m.length = [0, 1]) := by
  rw [LKHTSPSolver.solveLKHTSP_small env m h,
    ConcordeTSPSolver.solveConcordeTSP_small env fuel m h]
  refine ⟨rfl, rfl, ?_, ?_, ?_⟩
  · intro op hop
    simp only [List.mem_cons, List.mem_singleton, List.not_mem_nil, or_false] at hop
    rcases hop with h1 | h1 <;> exact ⟨_, h1⟩
  · intro op hop
    simp only [List.mem_cons, List.mem_singleton, List.not_mem_nil, or_false] at hop
    rcases hop with h1 | h1 | h1 | h1 <;> exact ⟨_, h1⟩
  · intro h2
    rw [h2]
    rfl

theorem solvers_small_matrix_identity_witness :
    ([[1000000, 0], [0, 1000000]] : Mat Int).length ≤ 2 ∧
    ((LKHTSPSolver.solveLKHTSP (envWith true 1 []) ([[1000000, 0], [0, 1000000]] : Mat Int)).1
        = Outcome.returned (identityOrder 2) ∧
      (ConcordeTSPSolver.solveConcordeTSP (envWith true 1 []) 0
          ([[1000000, 0], [0, 1000000]] : Mat Int)).1 = Outcome.returned (identityOrder 2) ∧
      (∀ op ∈ (LKHTSPSolver.solveLKHTSP (envWith true 1 [])
          ([[1000000, 0], [0, 1000000]] : Mat Int)).2, ∃ name, op = FileOp.remove name) ∧
      (∀ op ∈ (ConcordeTSPSolver.solveConcordeTSP (envWith true 1 []) 0
          ([[1000000, 0], [0, 1000000]] : Mat Int)).2, ∃ name, op = FileOp.remove name) ∧
      ((2 : Nat) = 2 → identityOrder 2 = [0, 1])) :=
  ⟨by decide,
    solvers_small_matrix_identity (envWith true 1 []) 0 [[1000000, 0], [0, 1000000]]
      (by decide)⟩

/-- C7: whenever `solveLKHTSP` returns, the order has exactly as many entries
as the matrix has rows, and when the order parsed from the solver output has
another length the returned order is the identity order; it does return
whenever the matrix has at most two rows, `assert` is compiled out, or the
solver process ended with status zero; and `planFullCoveragePathByTSP` goes
on to stitch the order returned. -/
theorem solveLKHTSP_length_and_fallback {Node W : Type} [DecidableEq Node]
    [Zero W] [Add W] [NatCast W] (env : SolverEnv W) (m : Mat W) :
    (∀ order, (LKHTSPSolver.solveLKHTSP env m).1 = Outcome.returned order →
      order.length = m.length ∧
      ((LKHTSPSolver.readFromFile (env.fileLines LKHTSPSolver.tsp_out_filename)).length
          ≠ m.length → order = identityOrder m.length)) ∧
    ((m.length ≤ 2 ∨ env.assertsEnabled = false ∨ env.system (LKHTSPSolver.cmd env) = 0) →
      ∃ order, (LKHTSPSolver.solveLKHTSP env m).1 = Outcome.returned order) ∧
    (∀ (g : RoutingGraph Node W) (node2lanelet_hash : List Node)
        (start_lanelet goal_lanelet : Node) (path_lanelets : List Node) (order : List Int),
      (LKHTSPSolver.solveLKHTSP env (getAjacentMatrix g node2lanelet_hash)).1
        = Outcome.returned order →
      (planFullCoveragePathByTSP g node2lanelet_hash env start_lanelet goal_lanelet
          path_lanelets).1
        = stitchOrder g node2lanelet_hash (getAjacentMatrix g node2lanelet_hash)
            start_lanelet goal_lanelet path_lanelets order) := by
  refine ⟨?_, ?_, ?_⟩
  · intro order hret
    rw [LKHTSPSolver.solveLKHTSP_outcome] at hret
    split_ifs at hret with h1 h2
    · simp only [Outcome.returned.injEq] at hret
      rw [← hret]
      exact ⟨length_checkedOrder _ _, fun hne => checkedOrder_of_length_ne _ _ hne⟩
    · simp only [Outcome.returned.injEq] at hret
      rw [← hret]
      exact ⟨length_identityOrder _, fun _ => rfl⟩
  · intro hcase
    rw [LKHTSPSolver.solveLKHTSP_outcome]
    by_cases h1 : 2 < m.length
    · have hna : ¬ (env.assertsEnabled = true ∧ env.system (LKHTSPSolver.cmd env) ≠ 0) := by
        rintro ⟨ha, hs⟩
        rcases hcase with h | h | h
        · omega
        · rw [h] at ha; cases ha
        · exact hs h
      rw [if_pos h1, if_neg hna]
      exact ⟨_, rfl⟩
    · rw [if_neg h1]
      exact ⟨_, rfl⟩
  · intro g node2lanelet_hash start_lanelet goal_lanelet path_lanelets order hret
    unfold planFullCoveragePathByTSP
    simp only []
    cases hs : LKHTSPSolver.solveLKHTSP env (getAjacentMatrix g node2lanelet_hash) with
    | mk out ops =>
      rw [hs] at hret
      simp only at hret
      subst hret
      rfl

theorem solveLKHTSP_length_and_fallback_witness :
    (LKHTSPSolver.solveLKHTSP (envWith true 0 (tourHeader ++ ["2", "1", "-1", "EOF"]))
        matThree).1 = Outcome.returned [0, 1, 2] ∧
    (LKHTSPSolver.readFromFile ((envWith true 0 (tourHeader ++ ["2", "1", "-1", "EOF"])).fileLines
        LKHTSPSolver.tsp_out_filename)).length ≠ matThree.length ∧
    ([0, 1, 2] : List Int).length = matThree.length ∧ [0, 1, 2] = identityOrder matThree.length :=
  have hret : (LKHTSPSolver.solveLKHTSP (envWith true 0 (tourHeader ++ ["2", "1", "-1", "EOF"]))
      matThree).1 = Outcome.returned [0, 1, 2] := by decide
  have hne : (LKHTSPSolver.readFromFile
      ((envWith true 0 (tourHeader ++ ["2", "1", "-1", "EOF"])).fileLines
        LKHTSPSolver.tsp_out_filename)).length ≠ matThree.length := by decide
  have hmain := (@solveLKHTSP_length_and_fallback Nat Int _ _ _ _
    (envWith true 0 (tourHeader ++ ["2", "1", "-1", "EOF"])) matThree).1 [0, 1, 2] hret
  ⟨hret, hne, hmain.1, hmain.2 hne⟩

/-- C8 fails as stated: for a three by three matrix and a solver output
listing `1, 1, 1`, `solveLKHTSP` returns `[0, 0, 0]`, which has the right
length but is not a permutation of `0, 1, 2`. -/
theorem solveLKHTSP_not_permutation :
    matThree.length = 3 ∧ (∀ row ∈ matThree, row.length = 3) ∧
    (LKHTSPSolver.solveLKHTSP (envWith true 0 (tourHeader ++ ["1", "1", "1", "-1", "EOF"]))
        matThree).1 = Outcome.returned [0, 0, 0] ∧
    ¬ List.Perm ([0, 0, 0] : List Int) (identityOrder 3) := by
  decide

/-- C8 (as amended): the order `solveLKHTSP` returns has as many entries as
the matrix has rows, and it is a permutation of `0 .. N-1` whenever the matrix
has at most two rows, or the order parsed from the solver output has a length
other than `N`, or that parsed order is itself a permutation of `0 .. N-1`
(the values of a parsed order of length `N` are not checked); the call
returns whenever the matrix has at most two rows, `assert` is compiled out or
the solver process ended with status zero. -/
theorem solveLKHTSP_permutation_when_output_valid {W : Type} (env : SolverEnv W) (m : Mat W) :
    (∀ order, (LKHTSPSolver.solveLKHTSP env m).1 = Outcome.returned order →
      order.length = m.length ∧
      ((m.length ≤ 2 ∨
        (LKHTSPSolver.readFromFile (env.fileLines LKHTSPSolver.tsp_out_filename)).length
          ≠ m.length ∨
        List.Perm (LKHTSPSolver.readFromFile (env.fileLines LKHTSPSolver.tsp_out_filename))
          (identityOrder m.length)) →
        List.Perm order (identityOrder m.length))) ∧
    ((m.length ≤ 2 ∨ env.assertsEnabled = false ∨ env.system (LKHTSPSolver.cmd env) = 0) →
      ∃ order, (LKHTSPSolver.solveLKHTSP env m).1 = Outcome.returned order) := by
  refine ⟨?_, ?_⟩
  · intro order hret
    rw [LKHTSPSolver.solveLKHTSP_outcome] at hret
    split_ifs at hret with h1 h2
    · simp only [Outcome.returned.injEq] at hret
      rw [← hret]
      refine ⟨length_checkedOrder _ _, ?_⟩
      intro hcase
      by_cases hlen :
          (LKHTSPSolver.readFromFile (env.fileLines LKHTSPSolver.tsp_out_filename)).length
            = m.length
      · rw [checkedOrder_of_length_eq _ _ hlen]
        rcases hcase with h | h | h
        · omega
        · exact absurd hlen h
        · exact h
      · rw [checkedOrder_of_length_ne _ _ hlen]
    · simp only [Outcome.returned.injEq] at hret
      rw [← hret]
      exact ⟨length_identityOrder _, fun _ => List.Perm.refl _⟩
  · intro hcase
    rw [LKHTSPSolver.solveLKHTSP_outcome]
    by_cases h1 : 2 < m.length
    · have hna : ¬ (env.assertsEnabled = true ∧ env.system (LKHTSPSolver.cmd env) ≠ 0) := by
        rintro ⟨ha, hs⟩
        rcases hcase with h | h | h
        · omega
        · rw [h] at ha; cases ha
        · exact hs h
      rw [if_pos h1, if_neg hna]
      exact ⟨_, rfl⟩
    · rw [if_neg h1]
      exact ⟨_, rfl⟩

theorem solveLKHTSP_permutation_when_output_valid_witness :
    (LKHTSPSolver.solveLKHTSP (envWith true 0 (tourHeader ++ ["3", "1", "2", "-1", "EOF"]))
        matThree).1 = Outcome.returned [2, 0, 1] ∧
    List.Perm (LKHTSPSolver.readFromFile
        ((envWith true 0 (tourHeader ++ ["3", "1", "2", "-1", "EOF"])).fileLines
          LKHTSPSolver.tsp_out_filename)) (identityOrder matThree.length) ∧
    ([2, 0, 1] : List Int).length = matThree.length ∧
    List.Perm ([2, 0, 1] : List Int) (identityOrder matThree.length) :=
  have hret : (LKHTSPSolver.solveLKHTSP
      (envWith true 0 (tourHeader ++ ["3", "1", "2", "-1", "EOF"])) matThree).1
        = Outcome.returned [2, 0, 1] := by decide
  have hperm : List.Perm (LKHTSPSolver.readFromFile
      ((envWith true 0 (tourHeader ++ ["3", "1", "2", "-1", "EOF"])).fileLines
        LKHTSPSolver.tsp_out_filename)) (identityOrder matThree.length) := by decide
  have hmain := (solveLKHTSP_permutation_when_output_valid
    (envWith true 0 (tourHeader ++ ["3", "1", "2", "-1", "EOF"])) matThree).1 [2, 0, 1] hret
  ⟨hret, hperm, hmain.1, hmain.2 (Or.inr (Or.inr hperm))⟩

/-- C9 fails as stated: with a three-row matrix and a solver process that
ends with status `1`, a build with `assert` compiled in aborts inside
`solveLKHTSP` (and so does the planning call), and a build with `assert`
compiled out returns the order `[2, 1, 0]` found in the tour file, not the
identity order. -/
theorem solveLKHTSP_process_failure_not_recovered :
    2 < matThree.length ∧
    (envWith true 1 tourHeader).system (LKHTSPSolver.cmd (envWith true 1 tourHeader)) ≠ 0 ∧
    (LKHTSPSolver.solveLKHTSP (envWith true 1 tourHeader) matThree).1 = Outcome.aborted ∧
    (planFullCoveragePathByTSP graphTwo [0, 1] (envWith true 1 tourHeader) 0 1 []).1
      = PlanResult.aborted ∧
    (LKHTSPSolver.solveLKHTSP (envWith false 1 (tourHeader ++ ["3", "2", "1", "-1", "EOF"]))
        matThree).1 = Outcome.returned [2, 1, 0] ∧
    ([2, 1, 0] : List Int) ≠ identityOrder matThree.length := by
  decide

/-- C9 (as amended): for a matrix with more than two rows and a solver
process that ends with a non-zero status, `solveLKHTSP` with `assert`
compiled in does not return, the failed `assert(!result)` aborts the
process; with `assert` compiled out it reads the tour file as after a
successful run and returns the parsed order when that has `N` entries and
the identity order otherwise. -/
theorem solveLKHTSP_process_failure {W : Type} (env : SolverEnv W) (m : Mat W)
    (hm : 2 < m.length) (hs : env.system (LKHTSPSolver.cmd env) ≠ 0) :
    (env.assertsEnabled = true → (LKHTSPSolver.solveLKHTSP env m).1 = Outcome.aborted) ∧
    (env.assertsEnabled = false →
      (LKHTSPSolver.solveLKHTSP env m).1 = Outcome.returned
        (checkedOrder (LKHTSPSolver.readFromFile (env.fileLines LKHTSPSolver.tsp_out_filename))
          m.length) ∧
      ((LKHTSPSolver.readFromFile (env.fileLines LKHTSPSolver.tsp_out_filename)).length
          = m.length →
        (LKHTSPSolver.solveLKHTSP env m).1 = Outcome.returned
          (LKHTSPSolver.readFromFile (env.fileLines LKHTSPSolver.tsp_out_filename))) ∧
      ((LKHTSPSolver.readFromFile (env.fileLines LKHTSPSolver.tsp_out_filename)).length
          ≠ m.length →
        (LKHTSPSolver.solveLKHTSP env m).1 = Outcome.returned (identityOrder m.length))) := by
  refine ⟨?_, ?_⟩
  · intro ha
    rw [LKHTSPSolver.solveLKHTSP_outcome, if_pos hm, if_pos ⟨ha, hs⟩]
  · intro ha
    have hna : ¬ (env.assertsEnabled = true ∧ env.system (LKHTSPSolver.cmd env) ≠ 0) := by
      rintro ⟨h, _⟩
      rw [ha] at h
      cases h
    rw [LKHTSPSolver.solveLKHTSP_outcome, if_pos hm, if_neg hna]
    refine ⟨rfl, ?_, ?_⟩
    · intro hlen
      rw [checkedOrder_of_length_eq _ _ hlen]
    · intro hlen
      rw [checkedOrder_of_length_ne _ _ hlen]

theorem solveLKHTSP_process_failure_witness :
    2 < matThree.length ∧
    (envWith true 1 tourHeader).system (LKHTSPSolver.cmd (envWith true 1 tourHeader)) ≠ 0 ∧
    (envWith true 1 tourHeader).assertsEnabled = true ∧
    (LKHTSPSolver.solveLKHTSP (envWith true 1 tourHeader) matThree).1 = Outcome.aborted :=
  ⟨by decide, by decide, rfl,
    (solveLKHTSP_process_failure (envWith true 1 tourHeader) matThree (by decide)
      (by decide)).1 rfl⟩

theorem map_wrapInt_pred (ls : List String) (ps : List Int)
    (hl : ls.map leadingInt = ps.map some) (hp : ∀ p ∈ ps, 1 ≤ p) :
    ps.map (fun v => wrapInt (v - 1)) = ps.map (fun p => p - 1) := by
  apply List.map_congr_left
  intro p hmem
  have hin : some p ∈ ls.map leadingInt := by
    rw [hl]
    exact List.mem_map_of_mem some hmem
  obtain ⟨line, _, hline⟩ := List.mem_map.mp hin
  have hr := leadingInt_range line p hline
  have h1 := hp p hmem
  exact wrapInt_pred p (by unfold INT_MIN; omega) hr.2

/-- C10: `readFromFile` skips the first six lines and then gives, in order,
`v - 1` for each following line whose leading integer is `v`, up to the first
line whose value is `-1` or the end of the input (the decrement is the `int`
one, which is `v - 1` for every value but `INT_MIN`); so six header lines
followed by lines with the 1-based indices `p_1 .. p_k`, with or without a
closing line `-1`, are parsed to `[p_1 - 1, ..., p_k - 1]`. -/
theorem readFromFile_parses_tour :
    (∀ lines : List String,
      LKHTSPSolver.readFromFile (some lines)
        = ((((lines.drop 6).filterMap leadingInt).takeWhile (fun v => decide (v ≠ -1))).map
            (fun v => wrapInt (v - 1)))) ∧
    (∀ (line : String) (v : Int), leadingInt line = some v → v ≠ INT_MIN →
      wrapInt (v - 1) = v - 1) ∧
    (∀ (header ls rest : List String) (terminator : String) (ps : List Int),
      header.length = 6 → ls.map leadingInt = ps.map some → (∀ p ∈ ps, 1 ≤ p) →
      leadingInt terminator = some (-1) →
      LKHTSPSolver.readFromFile (some (header ++ ls ++ terminator :: rest))
        = ps.map (fun p => p - 1) ∧
      LKHTSPSolver.readFromFile (some (header ++ ls)) = ps.map (fun p => p - 1)) := by
  refine ⟨LKHTSPSolver.readFromFile_eq, ?_, ?_⟩
  · intro line v hv hne
    have hr := leadingInt_range line v hv
    exact wrapInt_pred v (lt_of_le_of_ne hr.1 (fun e => hne e.symm)) hr.2
  · intro header ls rest terminator ps hh hl hp ht
    have hall : ∀ a ∈ ps, decide (a ≠ -1) = true := by
      intro a ha
      have := hp a ha
      simp only [ne_eq, decide_not, Bool.not_eq_true', decide_eq_false_iff_not]
      omega
    have hfm := filterMap_of_map_some leadingInt ls ps hl
    constructor
    · rw [LKHTSPSolver.readFromFile_eq, List.append_assoc,
        List.drop_append_of_le_length (Nat.le_of_eq hh.symm), ← hh, List.drop_length,
        List.nil_append, List.filterMap_append, hfm, List.filterMap_cons, ht,
        List.takeWhile_append_of_pos hall]
      simp only [ne_eq, not_true_eq_false, decide_False, List.takeWhile_cons_of_neg,
        List.append_nil, Bool.false_eq_true, not_false_eq_true]
      exact map_wrapInt_pred ls ps hl hp
    · rw [LKHTSPSolver.readFromFile_eq,
        List.drop_append_of_le_length (Nat.le_of_eq hh.symm), ← hh, List.drop_length,
        List.nil_append, hfm, List.takeWhile_eq_self_iff.mpr hall]
      exact map_wrapInt_pred ls ps hl hp

theorem readFromFile_parses_tour_witness :
    tourHeader.length = 6 ∧
    ["3", " 1 ", "2"].map leadingInt = ([3, 1, 2] : List Int).map some ∧
    (∀ p ∈ ([3, 1, 2] : List Int), 1 ≤ p) ∧
    leadingInt "-1" = some (-1) ∧
    LKHTSPSolver.readFromFile (some (tourHeader ++ ["3", " 1 ", "2"] ++ "-1" :: ["EOF"]))
      = [2, 0, 1] :=
  ⟨by decide, by decide, by decide, by decide,
    (readFromFile_parses_tour.2.2 tourHeader ["3", " 1 ", "2"] ["EOF"] "-1" [3, 1, 2]
      (by decide) (by decide) (by decide) (by decide)).1⟩

/-! ## Rotation to the start lanelet -/

theorem stitchOrder_eq {Node W : Type} [DecidableEq Node] [Add W] [Zero W]
    (g : RoutingGraph Node W) (hash : List Node) (m : Mat W) (start goal : Node)
    (out : List Node) (order : List Int) :
    stitchOrder g hash m start goal out order =
      match verifySolution m order 0 with
      | none => PlanResult.undefinedBehaviour
      | some _ =>
        match laneletIdOrder hash order.length order with
        | none => PlanResult.thrown
        | some ids => stitchLaneletIds g ids start goal out := by
  rfl

theorem foldl_enumFrom_not_mem {Node : Type} [DecidableEq Node] (s : Node) :
    ∀ (l : List Node) (n : Nat) (pos : Option Nat), s ∉ l →
      (l.enumFrom n).foldl (fun pos ix => if ix.2 = s then some ix.1 else pos) pos = pos := by
  intro l
  induction l with
  | nil => intro n pos _; rfl
  | cons a l ih =>
    intro n pos h
    have ha : ¬ a = s := fun e => h (by rw [e]; exact List.mem_cons_self _ _)
    have hl : s ∉ l := fun hm => h (List.mem_cons_of_mem _ hm)
    simp only [List.enumFrom_cons, List.foldl_cons, ha, if_false]
    exact ih (n + 1) pos hl

theorem foldl_enumFrom_split {Node : Type} [DecidableEq Node] (s : Node) (B : List Node)
    (hB : s ∉ B) :
    ∀ (A : List Node) (n : Nat) (pos : Option Nat),
      ((A ++ s :: B).enumFrom n).foldl (fun pos ix => if ix.2 = s then some ix.1 else pos) pos
        = some (n + A.length) := by
  intro A
  induction A with
  | nil =>
    intro n pos
    simp only [List.nil_append, List.enumFrom_cons, List.foldl_cons, if_true, List.length_nil,
      Nat.add_zero]
    exact foldl_enumFrom_not_mem s B (n + 1) (some n) hB
  | cons a A ih =>
    intro n pos
    simp only [List.cons_append, List.enumFrom_cons, List.foldl_cons, List.length_cons]
    rw [ih (n + 1)]
    congr 1
    omega

theorem startIdPosition_not_mem {Node : Type} [DecidableEq Node] (ids : List Node) (s : Node)
    (h : s ∉ ids) : startIdPosition ids s = none := by
  unfold startIdPosition List.enum
  exact foldl_enumFrom_not_mem s ids 0 none h

theorem startIdPosition_split {Node : Type} [DecidableEq Node] (A B : List Node) (s : Node)
    (hB : s ∉ B) : startIdPosition (A ++ s :: B) s = some A.length := by
  unfold startIdPosition List.enum
  rw [foldl_enumFrom_split s B hB A 0 none, Nat.zero_add]

theorem finalLaneletIdOrder_split {Node : Type} (A B : List Node) (s : Node) :
    finalLaneletIdOrder (A ++ s :: B) A.length = s :: (B ++ A) := by
  unfold finalLaneletIdOrder
  simp

/-- The stitching of the ids that follow the start lanelet in the rotated
order, up to the goal lanelet. -/
theorem stitchLaneletIds_split {Node W : Type} [DecidableEq Node] (g : RoutingGraph Node W)
    (A B : List Node) (s goal : Node) (out : List Node) (hB : s ∉ B) :
    stitchLaneletIds g (A ++ s :: B) s goal out =
      match expandAll g [s] (B ++ A) with
      | (false, _) => PlanResult.failure out
      | (true, full_coverage_path) =>
        match expandPathToTheLanelet g full_coverage_path goal with
        | (false, _) => PlanResult.failure out
        | (true, full_path) => PlanResult.success (out ++ full_path) := by
  unfold stitchLaneletIds
  rw [startIdPosition_split A B s hB]
  simp only [finalLaneletIdOrder_split, List.tail_cons]

theorem stitchLaneletIds_not_mem {Node W : Type} [DecidableEq Node] (g : RoutingGraph Node W)
    (ids : List Node) (s goal : Node) (out : List Node) (h : s ∉ ids) :
    stitchLaneletIds g ids s goal out = PlanResult.undefinedBehaviour := by
  unfold stitchLaneletIds
  rw [startIdPosition_not_mem ids s h]

/-- A rotation of a duplicate-free list around `s` splits at `s` into the same
cyclic order. -/
theorem rotate_split {Node : Type} (A B : List Node) (s : Node)
    (hA : s ∉ A) (hB : s ∉ B) (k : Nat) :
    ∃ A1 B1, (A ++ s :: B).rotate k = A1 ++ s :: B1 ∧ s ∉ B1 ∧ B1 ++ A1 = B ++ A := by
  rw [← List.rotate_mod]
  have hlen : (A ++ s :: B).length = A.length + B.length + 1 := by simp; omega
  have hk : k % (A ++ s :: B).length < A.length + B.length + 1 := by
    rw [← hlen]
    exact Nat.mod_lt _ (by rw [hlen]; omega)
  generalize k % (A ++ s :: B).length = j at hk
  rw [List.rotate_eq_drop_append_take (by rw [hlen]; omega)]
  by_cases hj : j ≤ A.length
  · refine ⟨A.drop j, B ++ A.take j, ?_, ?_, ?_⟩
    · rw [List.drop_append_of_le_length hj, List.take_append_of_le_length hj]
      simp
    · intro hm
      rcases List.mem_append.mp hm with h | h
      · exact hB h
      · exact hA (List.mem_of_mem_take h)
    · rw [List.append_assoc, List.take_append_drop]
  · have hj2 : j - A.length = (j - A.length - 1) + 1 := by omega
    refine ⟨B.drop (j - A.length - 1) ++ A, B.take (j - A.length - 1), ?_, ?_, ?_⟩
    · rw [List.drop_append_eq_append_drop, List.take_append_eq_append_take, hj2,
        List.drop_succ_cons, List.take_succ_cons, List.drop_of_length_le (by omega),
        List.take_of_length_le (by omega)]
      simp
    · intro hm
      exact hB (List.mem_of_mem_take hm)
    · rw [← List.append_assoc, List.take_append_drop]

/-- C11: evaluation at the failing input.  The registry holds the lanelets `0`
and `1`, the tour file lists `1, 2, 3`, and the start lanelet `2` is not
among the registered lanelets: `lanelet_id_order` is `[0, 1]`, the search loop
never assigns `start_id_position`, and the rotation loops read the variable
unassigned, which has no defined behaviour; the call does not return `false`. -/
theorem planFullCoveragePathByTSP_start_absent :
    laneletIdOrder [0, 1] 3 [0, 1, 2] = some [0, 1] ∧
    (2 : Nat) ∉ [0, 1] ∧
    startIdPosition [0, 1] 2 = none ∧
    (planFullCoveragePathByTSP graphTwo [0, 1]
        (envWith true 0 (tourHeader ++ ["1", "2", "3", "-1", "EOF"])) 2 1 []).1
      = PlanResult.undefinedBehaviour ∧
    (planFullCoveragePathByTSP graphTwo [0, 1]
        (envWith true 0 (tourHeader ++ ["1", "2", "3", "-1", "EOF"])) 2 1 []).1
      ≠ PlanResult.failure [] := by
  decide

/-- C12: for every sequence of lanelet ids without repetition that contains
the start lanelet (the tour after the sentinel ordinal is dropped), every
cyclic rotation of it and every goal lanelet, the stitching step gives the
same result (the same path on success, the same failure otherwise) for the
rotated sequence as for the original one. -/
theorem stitchLaneletIds_rotate {Node W : Type} [DecidableEq Node] (g : RoutingGraph Node W)
    (lanelet_id_order : List Node) (start_lanelet goal_lanelet : Node)
    (path_lanelets : List Node) (k : Nat)
    (hnodup : lanelet_id_order.Nodup) (hstart : start_lanelet ∈ lanelet_id_order) :
    stitchLaneletIds g (lanelet_id_order.rotate k) start_lanelet goal_lanelet path_lanelets
      = stitchLaneletIds g lanelet_id_order start_lanelet goal_lanelet path_lanelets := by
  obtain ⟨A, B, rfl⟩ := List.append_of_mem hstart
  have hA : start_lanelet ∉ A := by
    intro hm
    have := (List.nodup_append.mp hnodup).2.2
    exact this hm (List.mem_cons_self _ _)
  have hB : start_lanelet ∉ B := by
    have := (List.nodup_append.mp hnodup).2.1
    exact (List.nodup_cons.mp this).1
  obtain ⟨A1, B1, hrot, hB1, heq⟩ := rotate_split A B start_lanelet hA hB k
  rw [hrot, stitchLaneletIds_split g A1 B1 _ _ _ hB1, stitchLaneletIds_split g A B _ _ _ hB, heq]

theorem stitchLaneletIds_rotate_witness :
    ([0, 1, 2, 3] : List Nat).Nodup ∧ 0 ∈ ([0, 1, 2, 3] : List Nat) ∧
    stitchLaneletIds graphCycle (([0, 1, 2, 3] : List Nat).rotate 3) 0 3 []
      = stitchLaneletIds graphCycle [0, 1, 2, 3] 0 3 [] :=
  ⟨by decide, by decide,
    stitchLaneletIds_rotate graphCycle [0, 1, 2, 3] 0 3 [] 3 (by decide) (by decide)⟩

/-! ## Splicing shortest paths onto the walk -/

theorem consecutivePairs_cons_cons {Node : Type} (a b : Node) (l : List Node) :
    consecutivePairs (a :: b :: l) = (a, b) :: consecutivePairs (b :: l) := by
  simp [consecutivePairs]

theorem consecutivePairs_singleton {Node : Type} (a : Node) :
    consecutivePairs [a] = [] := by
  simp [consecutivePairs]

theorem mem_consecutivePairs_overlap {Node : Type} (b : Node) (rest : List Node) (uv : Node × Node) :
    ∀ init : List Node, uv ∈ consecutivePairs (init ++ b :: rest) →
      uv ∈ consecutivePairs (init ++ [b]) ∨ uv ∈ consecutivePairs (b :: rest) := by
  intro init
  induction init with
  | nil => intro h; exact Or.inr h
  | cons a init ih =>
    intro h
    cases init with
    | nil =>
      simp only [List.cons_append, List.nil_append, consecutivePairs_cons_cons,
        List.mem_cons] at h
      rcases h with h | h
      · left
        simp [consecutivePairs_cons_cons, h]
      · exact Or.inr h
    | cons a2 init2 =>
      simp only [List.cons_append, consecutivePairs_cons_cons, List.mem_cons] at h
      rcases h with h | h
      · left
        simp [consecutivePairs_cons_cons, h]
      · rcases ih h with h2 | h2
        · left
          simp only [List.cons_append, consecutivePairs_cons_cons, List.mem_cons]
          exact Or.inr h2
        · exact Or.inr h2

theorem mem_of_mem_consecutivePairs {Node : Type} (uv : Node × Node) :
    ∀ l : List Node, uv ∈ consecutivePairs l → uv.1 ∈ l ∧ uv.2 ∈ l := by
  intro l h
  unfold consecutivePairs at h
  have h1 := (List.of_mem_zip h).1
  have h2 := (List.of_mem_zip h).2
  exact ⟨h1, List.mem_of_mem_tail h2⟩

theorem expandPathToTheLanelet_nil {Node W : Type} (g : RoutingGraph Node W) (goal : Node) :
    expandPathToTheLanelet g [] goal = (false, []) := by
  rfl

theorem expandPathToTheLanelet_concat {Node W : Type} (g : RoutingGraph Node W)
    (init : List Node) (back goal : Node) :
    expandPathToTheLanelet g (init ++ [back]) goal =
      match g.shortestPath back goal with
      | none => (false, init ++ [back])
      | some go_path => (true, init ++ go_path.toList) := by
  unfold expandPathToTheLanelet
  rw [List.getLast?_concat, List.dropLast_concat]

theorem expandPathToTheLanelet_failed {Node W : Type} (g : RoutingGraph Node W)
    (path : List Node) (goal : Node) (h : (expandPathToTheLanelet g path goal).1 = false) :
    (expandPathToTheLanelet g path goal).2 = path := by
  rcases List.eq_nil_or_concat path with hnil | ⟨init, back, hc⟩
  · rw [hnil]; rfl
  · rw [List.concat_eq_append] at hc
    rw [hc, expandPathToTheLanelet_concat] at h ⊢
    cases hsp : g.shortestPath back goal with
    | none => rfl
    | some p => rw [hsp] at h; cases h

theorem expandPathToTheLanelet_succeeded {Node W : Type} (g : RoutingGraph Node W)
    (path : List Node) (goal : Node) (q : List Node)
    (h : expandPathToTheLanelet g path goal = (true, q)) :
    ∃ init back p, path = init ++ [back] ∧ g.shortestPath back goal = some p ∧
      q = init ++ p.toList := by
  rcases List.eq_nil_or_concat path with hnil | ⟨init, back, hc⟩
  · rw [hnil, expandPathToTheLanelet_nil] at h
    cases h
  · rw [List.concat_eq_append] at hc
    rw [hc, expandPathToTheLanelet_concat] at h
    cases hsp : g.shortestPath back goal with
    | none => rw [hsp] at h; cases h
    | some p =>
      rw [hsp] at h
      simp only [Prod.mk.injEq, true_and] at h
      exact ⟨init, back, p, hc, hsp, h.symm⟩

/-- With paths that begin at their source a splice only appends to the walk. -/
theorem expandPathToTheLanelet_extends {Node W : Type} (g : RoutingGraph Node W)
    (hB : BeginsAtSource g.shortestPath)
    (path : List Node) (goal : Node) (q : List Node)
    (h : expandPathToTheLanelet g path goal = (true, q)) :
    ∃ back p, path.getLast? = some back ∧ g.shortestPath back goal = some p ∧
      q = path ++ p.rest := by
  obtain ⟨init, back, p, hpath, hsp, hq⟩ := expandPathToTheLanelet_succeeded g path goal q h
  refine ⟨back, p, by rw [hpath, List.getLast?_concat], hsp, ?_⟩
  rw [hq, hpath, LaneletPath.toList, hB back goal p hsp]
  simp

theorem expandPathToTheLanelet_last {Node W : Type} (g : RoutingGraph Node W)
    (hE : EndsAtTarget g.shortestPath)
    (path : List Node) (goal : Node) (q : List Node)
    (h : expandPathToTheLanelet g path goal = (true, q)) :
    q.getLast? = some goal := by
  obtain ⟨init, back, p, _, hsp, hq⟩ := expandPathToTheLanelet_succeeded g path goal q h
  have hl := hE back goal p hsp
  rw [hq, List.getLast?_append, hl]
  rfl

theorem expandAll_cons {Node W : Type} (g : RoutingGraph Node W) (path : List Node)
    (t : Node) (ts : List Node) :
    expandAll g path (t :: ts) =
      match expandPathToTheLanelet g path t with
      | (false, p) => (false, p)
      | (true, p) => expandAll g p ts := by
  rfl

theorem expandAll_succeeded_cons {Node W : Type} (g : RoutingGraph Node W) (path : List Node)
    (t : Node) (ts : List Node) (q : List Node) (h : expandAll g path (t :: ts) = (true, q)) :
    ∃ p, expandPathToTheLanelet g path t = (true, p) ∧ expandAll g p ts = (true, q) := by
  rw [expandAll_cons] at h
  cases he : expandPathToTheLanelet g path t with
  | mk flag p =>
    rw [he] at h
    cases flag with
    | false => simp only [Prod.mk.injEq] at h; exact absurd h.1 (by decide)
    | true => exact ⟨p, rfl, h⟩

theorem expandAll_append {Node W : Type} (g : RoutingGraph Node W) :
    ∀ (ts us path : List Node),
      expandAll g path (ts ++ us) =
        match expandAll g path ts with
        | (false, p) => (false, p)
        | (true, p) => expandAll g p us := by
  intro ts
  induction ts with
  | nil => intro us path; rfl
  | cons t ts ih =>
    intro us path
    rw [List.cons_append, expandAll_cons, expandAll_cons]
    cases he : expandPathToTheLanelet g path t with
    | mk flag p =>
      cases flag with
      | false => rfl
      | true => exact ih us p

theorem expandAll_extends {Node W : Type} (g : RoutingGraph Node W)
    (hB : BeginsAtSource g.shortestPath) :
    ∀ (ts path q : List Node), expandAll g path ts = (true, q) → ∃ ext, q = path ++ ext := by
  intro ts
  induction ts with
  | nil =>
    intro path q h
    simp only [expandAll, Prod.mk.injEq, true_and] at h
    exact ⟨[], by rw [← h]; simp⟩
  | cons t ts ih =>
    intro path q h
    obtain ⟨p, hp, hrest⟩ := expandAll_succeeded_cons g path t ts q h
    obtain ⟨_, sp, _, _, hpe⟩ := expandPathToTheLanelet_extends g hB path t p hp
    obtain ⟨ext, hext⟩ := ih p q hrest
    exact ⟨sp.rest ++ ext, by rw [hext, hpe, List.append_assoc]⟩

/-- With paths that begin at their source and end at their target every
lanelet asked for is on the walk afterwards. -/
theorem expandAll_covers {Node W : Type} (g : RoutingGraph Node W)
    (hB : BeginsAtSource g.shortestPath) (hE : EndsAtTarget g.shortestPath) :
    ∀ (ts path q : List Node), expandAll g path ts = (true, q) → ∀ t ∈ ts, t ∈ q := by
  intro ts
  induction ts with
  | nil => intro path q _ t ht; cases ht
  | cons t ts ih =>
    intro path q h x hx
    obtain ⟨p, hp, hrest⟩ := expandAll_succeeded_cons g path t ts q h
    rcases List.mem_cons.mp hx with hxt | hxts
    · have hl := expandPathToTheLanelet_last g hE path t p hp
      obtain ⟨ext, hext⟩ := expandAll_extends g hB ts p q hrest
      rw [hext, hxt]
      exact List.mem_append_left _ (List.mem_of_getLast?_eq_some hl)
    · exact ih p q hrest x hxts

/-! ## The depth-first loop -/

theorem mem_emplaceVisited {Node : Type} [DecidableEq Node] (visited : List Node) (id x : Node) :
    x ∈ emplaceVisited visited id ↔ x = id ∨ x ∈ visited := by
  unfold emplaceVisited
  by_cases h : id ∈ visited
  · rw [if_pos h]
    constructor
    · exact Or.inr
    · rintro (h1 | h1)
      · rw [h1]; exact h
      · exact h1
  · rw [if_neg h, List.mem_cons]

theorem mem_pushAll {Node : Type} (stk following_llts : List Node) (x : Node) :
    x ∈ pushAll stk following_llts ↔ x ∈ following_llts ∨ x ∈ stk := by
  simp [pushAll]

theorem backtrackLoop_path {Node W : Type} [DecidableEq Node] (g : RoutingGraph Node W) :
    ∀ (l : List Node) (s : DfsState Node),
      (backtrackLoop g l s).full_coverage_path = s.full_coverage_path ++ l := by
  intro l
  induction l with
  | nil => intro s; simp [backtrackLoop]
  | cons a l ih => intro s; simp [backtrackLoop, ih]

theorem backtrackLoop_visited {Node W : Type} [DecidableEq Node] (g : RoutingGraph Node W)
    (x : Node) :
    ∀ (l : List Node) (s : DfsState Node),
      x ∈ (backtrackLoop g l s).visited_lanelet ↔ x ∈ s.visited_lanelet ∨ x ∈ l := by
  intro l
  induction l with
  | nil => intro s; simp [backtrackLoop]
  | cons a l ih =>
    intro s
    simp only [backtrackLoop, ih, mem_emplaceVisited, List.mem_cons]
    tauto

theorem backtrackLoop_stk {Node W : Type} [DecidableEq Node] (g : RoutingGraph Node W)
    (x : Node) :
    ∀ (l : List Node) (s : DfsState Node),
      x ∈ (backtrackLoop g l s).dfs_stk ↔
        x ∈ s.dfs_stk ∨ ∃ llt ∈ l, x ∈ g.following llt := by
  intro l
  induction l with
  | nil => intro s; simp [backtrackLoop]
  | cons a l ih =>
    intro s
    simp only [backtrackLoop, ih, mem_pushAll, List.mem_cons, exists_eq_or_imp]
    tauto

/-- The three ways a round of the loop goes on: the candidate was visited
already, the backtracking branch, or the direct-successor branch. -/
theorem dfsStep_finished {Node W : Type} [DecidableEq Node] (g : RoutingGraph Node W)
    (cur : Node) (stk : List Node) (s s1 : DfsState Node)
    (h : dfsStep g cur stk s = DfsResult.finished s1) :
    ∃ pose, s.full_coverage_path.getLast? = some pose ∧
      ((cur ∈ s.visited_lanelet ∧ s1 = { s with dfs_stk := stk }) ∨
       (cur ∉ s.visited_lanelet ∧ ∃ r back_path, g.routingRelation pose cur = some r ∧
          r ≠ RelationType.Successor ∧ g.getRoute pose cur = some back_path ∧
          s1 = backtrackLoop g back_path.toList
            { dfs_stk := stk, visited_lanelet := s.visited_lanelet,
              full_coverage_path := s.full_coverage_path.dropLast }) ∨
       (cur ∉ s.visited_lanelet ∧
          g.routingRelation pose cur = some RelationType.Successor ∧
          s1 = { dfs_stk := pushAll stk (g.following cur),
                 visited_lanelet := emplaceVisited s.visited_lanelet cur,
                 full_coverage_path := s.full_coverage_path ++ [cur] })) := by
  unfold dfsStep at h
  cases hl : s.full_coverage_path.getLast? with
  | none => rw [hl] at h; cases h
  | some pose =>
    rw [hl] at h
    refine ⟨pose, rfl, ?_⟩
    simp only at h
    by_cases hv : cur ∈ s.visited_lanelet
    · rw [if_pos hv] at h
      simp only [DfsResult.finished.injEq] at h
      exact Or.inl ⟨hv, h.symm⟩
    · rw [if_neg hv] at h
      cases hr : g.routingRelation pose cur with
      | none => rw [hr] at h; cases h
      | some r =>
        rw [hr] at h
        simp only at h
        by_cases hs : r ≠ RelationType.Successor
        · rw [if_pos hs] at h
          cases hroute : g.getRoute pose cur with
          | none => rw [hroute] at h; cases h
          | some back_path =>
            rw [hroute] at h
            simp only [DfsResult.finished.injEq] at h
            exact Or.inr (Or.inl ⟨hv, r, back_path, rfl, hs, rfl, h.symm⟩)
        · rw [if_neg hs] at h
          simp only [DfsResult.finished.injEq] at h
          have hs2 : r = RelationType.Successor := by
            by_contra hne
            exact hs hne
          exact Or.inr (Or.inr ⟨hv, by rw [hs2], h.symm⟩)

theorem dfsLoop_succ_cons {Node W : Type} [DecidableEq Node] (g : RoutingGraph Node W)
    (fuel : Nat) (s : DfsState Node) (cur : Node) (stk : List Node)
    (hs : s.dfs_stk = cur :: stk) :
    dfsLoop g (fuel + 1) s =
      match dfsStep g cur stk s with
      | DfsResult.finished s1 => dfsLoop g fuel s1
      | DfsResult.failed => DfsResult.failed
      | DfsResult.undefinedBehaviour => DfsResult.undefinedBehaviour
      | DfsResult.outOfFuel => DfsResult.outOfFuel := by
  rw [dfsLoop]
  simp only [hs]

theorem dfsLoop_nil {Node W : Type} [DecidableEq Node] (g : RoutingGraph Node W)
    (fuel : Nat) (s : DfsState Node) (hs : s.dfs_stk = []) :
    dfsLoop g fuel s = DfsResult.finished s := by
  cases fuel with
  | zero => rw [dfsLoop]; simp only [hs]
  | succ n => rw [dfsLoop]; simp only [hs]

/-- A property kept by every round that goes on holds when the loop ends,
and the stack is empty then. -/
theorem dfsLoop_invariant {Node W : Type} [DecidableEq Node] (g : RoutingGraph Node W)
    (P : DfsState Node → Prop)
    (hstep : ∀ (cur : Node) (stk : List Node) (s s1 : DfsState Node), P s →
      s.dfs_stk = cur :: stk → dfsStep g cur stk s = DfsResult.finished s1 → P s1) :
    ∀ (fuel : Nat) (s s2 : DfsState Node), P s →
      dfsLoop g fuel s = DfsResult.finished s2 → P s2 ∧ s2.dfs_stk = [] := by
  intro fuel
  induction fuel with
  | zero =>
    intro s s2 hP h
    rw [dfsLoop] at h
    cases hs : s.dfs_stk with
    | nil =>
      simp only [hs, DfsResult.finished.injEq] at h
      rw [← h]
      exact ⟨hP, hs⟩
    | cons cur stk => simp only [hs] at h; cases h
  | succ n ih =>
    intro s s2 hP h
    cases hs : s.dfs_stk with
    | nil =>
      rw [dfsLoop_nil g _ s hs] at h
      simp only [DfsResult.finished.injEq] at h
      rw [← h]
      exact ⟨hP, hs⟩
    | cons cur stk =>
      rw [dfsLoop_succ_cons g n s cur stk hs] at h
      cases hstepres : dfsStep g cur stk s with
      | finished s1 =>
        rw [hstepres] at h
        exact ih s1 s2 (hstep cur stk s s1 hP hs hstepres) h
      | failed => rw [hstepres] at h; cases h
      | undefinedBehaviour => rw [hstepres] at h; cases h
      | outOfFuel => rw [hstepres] at h; cases h

/-- The shape of a successful call of `planFullCoveragePath`. -/
theorem planFullCoveragePath_succeeded {Node W : Type} [DecidableEq Node]
    (g : RoutingGraph Node W) (fuel : Nat) (start goal : Node) (out p : List Node)
    (h : planFullCoveragePath g fuel start goal out = PlanResult.success p) :
    ∃ s back last_path,
      dfsLoop g fuel
        { dfs_stk := [start], visited_lanelet := [], full_coverage_path := [start] }
          = DfsResult.finished s ∧
      s.full_coverage_path.getLast? = some back ∧
      g.getRoute back goal = some last_path ∧
      p = out ++ (s.full_coverage_path.dropLast ++ last_path.toList) := by
  unfold planFullCoveragePath at h
  cases hloop : dfsLoop g fuel
      { dfs_stk := [start], visited_lanelet := [], full_coverage_path := [start] } with
  | finished s =>
    rw [hloop] at h
    simp only at h
    cases hl : s.full_coverage_path.getLast? with
    | none => rw [hl] at h; cases h
    | some back =>
      rw [hl] at h
      simp only at h
      cases hr : g.getRoute back goal with
      | none => rw [hr] at h; cases h
      | some last_path =>
        rw [hr] at h
        simp only [PlanResult.success.injEq] at h
        exact ⟨s, back, last_path, rfl, hl, hr, h.symm⟩
  | failed => rw [hloop] at h; cases h
  | undefinedBehaviour => rw [hloop] at h; cases h
  | outOfFuel => rw [hloop] at h; cases h

/-- With routes that begin at their source a round only appends to the walk. -/
theorem dfsStep_extends {Node W : Type} [DecidableEq Node] (g : RoutingGraph Node W)
    (hB : BeginsAtSource g.getRoute)
    (cur : Node) (stk : List Node) (s s1 : DfsState Node)
    (h : dfsStep g cur stk s = DfsResult.finished s1) :
    ∃ ext, s1.full_coverage_path = s.full_coverage_path ++ ext := by
  obtain ⟨pose, hpose, hcases⟩ := dfsStep_finished g cur stk s s1 h
  rcases hcases with ⟨_, hs1⟩ | ⟨_, r, bp, _, _, hroute, hs1⟩ | ⟨_, _, hs1⟩
  · exact ⟨[], by rw [hs1]; simp⟩
  · refine ⟨bp.rest, ?_⟩
    rw [hs1, backtrackLoop_path]
    simp only
    obtain ⟨init, hinit⟩ := List.getLast?_eq_some_iff.mp hpose
    rw [hinit, List.dropLast_concat, LaneletPath.toList, hB pose cur bp hroute]
    simp
  · exact ⟨[cur], by rw [hs1]⟩

/-! ## Shape of the planning results -/

theorem stitchLaneletIds_succeeded {Node W : Type} [DecidableEq Node] (g : RoutingGraph Node W)
    (ids : List Node) (start goal : Node) (out p : List Node)
    (h : stitchLaneletIds g ids start goal out = PlanResult.success p) :
    ∃ pos full full_path, startIdPosition ids start = some pos ∧
      expandAll g [start] (finalLaneletIdOrder ids pos).tail = (true, full) ∧
      expandPathToTheLanelet g full goal = (true, full_path) ∧ p = out ++ full_path := by
  unfold stitchLaneletIds at h
  cases hpos : startIdPosition ids start with
  | none => rw [hpos] at h; cases h
  | some pos =>
    rw [hpos] at h
    simp only at h
    cases he : expandAll g [start] (finalLaneletIdOrder ids pos).tail with
    | mk flag full =>
      rw [he] at h
      cases flag with
      | false => cases h
      | true =>
        simp only at h
        cases hg : expandPathToTheLanelet g full goal with
        | mk flag2 full_path =>
          rw [hg] at h
          cases flag2 with
          | false => cases h
          | true =>
            simp only [PlanResult.success.injEq] at h
            exact ⟨pos, full, full_path, rfl, he, hg, h.symm⟩

theorem stitchLaneletIds_failed {Node W : Type} [DecidableEq Node] (g : RoutingGraph Node W)
    (ids : List Node) (start goal : Node) (out p : List Node)
    (h : stitchLaneletIds g ids start goal out = PlanResult.failure p) : p = out := by
  unfold stitchLaneletIds at h
  cases hpos : startIdPosition ids start with
  | none => rw [hpos] at h; cases h
  | some pos =>
    rw [hpos] at h
    simp only at h
    cases he : expandAll g [start] (finalLaneletIdOrder ids pos).tail with
    | mk flag full =>
      rw [he] at h
      cases flag with
      | false =>
        simp only [PlanResult.failure.injEq] at h
        exact h.symm
      | true =>
        simp only at h
        cases hg : expandPathToTheLanelet g full goal with
        | mk flag2 full_path =>
          rw [hg] at h
          cases flag2 with
          | false =>
            simp only [PlanResult.failure.injEq] at h
            exact h.symm
          | true => cases h

/-- The stitching as one run of `expandPathToTheLanelet` over the ids after
the start lanelet followed by the goal lanelet. -/
theorem stitchLaneletIds_eq_expandAll {Node W : Type} [DecidableEq Node]
    (g : RoutingGraph Node W) (ids : List Node) (start goal : Node) (out : List Node)
    (pos : Nat) (hpos : startIdPosition ids start = some pos) :
    stitchLaneletIds g ids start goal out =
      match expandAll g [start] ((finalLaneletIdOrder ids pos).tail ++ [goal]) with
      | (false, _) => PlanResult.failure out
      | (true, full_path) => PlanResult.success (out ++ full_path) := by
  unfold stitchLaneletIds
  rw [hpos, expandAll_append]
  simp only
  cases he : expandAll g [start] (finalLaneletIdOrder ids pos).tail with
  | mk flag full =>
    cases flag with
    | false => rfl
    | true =>
      simp only [expandAll_cons]
      cases hg : expandPathToTheLanelet g full goal with
      | mk flag2 full_path =>
        cases flag2 with
        | false => rfl
        | true => rfl

/-- What `planFullCoveragePathByTSP` went through when its result is neither an
abort nor a loop of the model out of fuel. -/
theorem planFullCoveragePathByTSP_stitched {Node W : Type} [DecidableEq Node]
    [Zero W] [Add W] [NatCast W] (g : RoutingGraph Node W) (hash : List Node)
    (env : SolverEnv W) (start goal : Node) (out : List Node) (r : PlanResult Node)
    (h : (planFullCoveragePathByTSP g hash env start goal out).1 = r)
    (hr : (∃ p, r = PlanResult.success p) ∨ (∃ p, r = PlanResult.failure p)) :
    ∃ order ids,
      (LKHTSPSolver.solveLKHTSP env (getAjacentMatrix g hash)).1 = Outcome.returned order ∧
      laneletIdOrder hash order.length order = some ids ∧
      stitchLaneletIds g ids start goal out = r := by
  unfold planFullCoveragePathByTSP at h
  simp only at h
  cases hs : LKHTSPSolver.solveLKHTSP env (getAjacentMatrix g hash) with
  | mk res ops =>
    rw [hs] at h
    cases res with
    | returned order =>
      simp only at h
      rw [stitchOrder_eq] at h
      cases hv : verifySolution (getAjacentMatrix g hash) order 0 with
      | none =>
        rw [hv] at h
        simp only at h
        rcases hr with ⟨p, hp⟩ | ⟨p, hp⟩ <;> (rw [hp] at h; cases h)
      | some c =>
        rw [hv] at h
        simp only at h
        cases hl : laneletIdOrder hash order.length order with
        | none =>
          rw [hl] at h
          simp only at h
          rcases hr with ⟨p, hp⟩ | ⟨p, hp⟩ <;> (rw [hp] at h; cases h)
        | some ids =>
          rw [hl] at h
          exact ⟨order, ids, rfl, hl, h⟩
    | aborted =>
      simp only at h
      rcases hr with ⟨p, hp⟩ | ⟨p, hp⟩ <;> (rw [hp] at h; cases h)
    | outOfFuel =>
      simp only at h
      rcases hr with ⟨p, hp⟩ | ⟨p, hp⟩ <;> (rw [hp] at h; cases h)

theorem planFullCoveragePath_failed {Node W : Type} [DecidableEq Node]
    (g : RoutingGraph Node W) (fuel : Nat) (start goal : Node) (out p : List Node)
    (h : planFullCoveragePath g fuel start goal out = PlanResult.failure p) : p = out := by
  unfold planFullCoveragePath at h
  cases hloop : dfsLoop g fuel
      { dfs_stk := [start], visited_lanelet := [], full_coverage_path := [start] } with
  | finished s =>
    rw [hloop] at h
    simp only at h
    cases hl : s.full_coverage_path.getLast? with
    | none => rw [hl] at h; cases h
    | some back =>
      rw [hl] at h
      simp only at h
      cases hr : g.getRoute back goal with
      | none =>
        rw [hr] at h
        simp only [PlanResult.failure.injEq] at h
        exact h.symm
      | some last_path => rw [hr] at h; cases h
  | failed =>
    rw [hloop] at h
    simp only [PlanResult.failure.injEq] at h
    exact h.symm
  | undefinedBehaviour => rw [hloop] at h; cases h
  | outOfFuel => rw [hloop] at h; cases h

theorem graphCycle_begins : BeginsAtSource cyclePath := by
  intro a b p h
  unfold cyclePath at h
  split_ifs at h
  simp only [Option.some.injEq] at h
  rw [← h]

theorem graphCycle_ends : EndsAtTarget cyclePath := by
  intro a b p h
  unfold cyclePath at h
  split_ifs at h with hab
  simp only [Option.some.injEq] at h
  rw [← h]
  obtain ⟨ha, hb⟩ := hab
  interval_cases a <;> interval_cases b <;> decide

theorem graphCycle_contract : RoutingContract graphCycle := by
  refine ⟨graphCycle_begins, graphCycle_begins, ?_⟩
  intro u v r h
  have h2 : (if u < 4 ∧ v = (u + 1) % 4 then some RelationType.Successor else none)
      = some r := h
  show ∃ c, (if u < 4 ∧ v = (u + 1) % 4 then some (1 : Int) else none) = some c
  split_ifs at h2 with hc
  exact ⟨1, by rw [if_pos hc]⟩

theorem graphLoop_begins : BeginsAtSource loopPath := by
  intro a b p h
  unfold loopPath at h
  split_ifs at h
  simp only [Option.some.injEq] at h
  rw [← h]

theorem graphLoop_ends : EndsAtTarget loopPath := by
  intro a b p h
  unfold loopPath at h
  split_ifs at h with hab
  simp only [Option.some.injEq] at h
  rw [← h]
  obtain ⟨ha, hb⟩ := hab
  interval_cases b <;> interval_cases a <;> decide

theorem graphLoop_contract : RoutingContract graphLoop := by
  refine ⟨graphLoop_begins, graphLoop_begins, ?_⟩
  intro u v r h
  have h2 : (if (u = 0 ∧ v = 0) ∨ (u = 0 ∧ v = 1) ∨ (u = 1 ∧ v = 2)
      then some RelationType.Successor else none) = some r := h
  show ∃ c, (if (u = 0 ∧ v = 0) ∨ (u = 0 ∧ v = 1) ∨ (u = 1 ∧ v = 2)
      then some (1 : Int) else none) = some c
  split_ifs at h2 with hc
  exact ⟨1, by rw [if_pos hc]⟩

theorem graphCycle_connectors_valid :
    ∀ u v, IsConnectorPair graphCycle u v → validPair graphCycle (u, v) = true := by
  rintro u v ⟨a, b, p, hp, hm⟩
  have hsp : cyclePath a b = some p := by
    rcases hp with h | h
    · exact h
    · exact h
  unfold cyclePath at hsp
  split_ifs at hsp with hab
  simp only [Option.some.injEq] at hsp
  rw [← hsp] at hm
  obtain ⟨ha, hb⟩ := hab
  revert hm
  interval_cases a <;> interval_cases b <;> intro hm
  all_goals
    exact (by decide : ∀ uv ∈ consecutivePairs
      (LaneletPath.toList ⟨_, (List.range _).map _⟩), validPair graphCycle uv = true) (u, v) hm

theorem graphLoop_connectors_valid :
    ∀ u v, IsConnectorPair graphLoop u v → validPair graphLoop (u, v) = true := by
  rintro u v ⟨a, b, p, hp, hm⟩
  have hsp : loopPath a b = some p := by
    rcases hp with h | h
    · exact h
    · exact h
  unfold loopPath at hsp
  split_ifs at hsp with hab
  simp only [Option.some.injEq] at hsp
  rw [← hsp] at hm
  obtain ⟨ha, hb⟩ := hab
  revert hm
  interval_cases b <;> interval_cases a <;> intro hm
  all_goals
    exact (by decide : ∀ uv ∈ consecutivePairs
      (LaneletPath.toList ⟨_, (List.range _).map _⟩), validPair graphLoop uv = true) (u, v) hm

/-- The first round of the loop of `planFullCoveragePath` asks for the
relation of the start lanelet with itself and dereferences the answer: when
the graph has no such relation the call has no defined behaviour, whatever
the goal lanelet and the output path. -/
theorem planFullCoveragePath_start_unrelated {Node W : Type} [DecidableEq Node]
    (g : RoutingGraph Node W) (start goal : Node) (out : List Node)
    (h : g.routingRelation start start = none) (fuel : Nat) :
    planFullCoveragePath g (fuel + 1) start goal out = PlanResult.undefinedBehaviour := by
  unfold planFullCoveragePath
  rw [dfsLoop_succ_cons g fuel _ start [] rfl]
  simp [dfsStep, h]

theorem stitchLaneletIds_endpoints {Node W : Type} [DecidableEq Node] (g : RoutingGraph Node W)
    (hB : BeginsAtSource g.shortestPath) (hE : EndsAtTarget g.shortestPath)
    (ids : List Node) (start goal : Node) (p : List Node)
    (h : stitchLaneletIds g ids start goal [] = PlanResult.success p) :
    p ≠ [] ∧ p.head? = some start ∧ p.getLast? = some goal := by
  obtain ⟨pos, full, full_path, _, hall, hgoal, hp⟩ :=
    stitchLaneletIds_succeeded g ids start goal [] p h
  rw [List.nil_append] at hp
  obtain ⟨ext, hext⟩ := expandAll_extends g hB _ _ _ hall
  obtain ⟨_, sp, _, _, hfp⟩ := expandPathToTheLanelet_extends g hB full goal full_path hgoal
  have hlast := expandPathToTheLanelet_last g hE full goal full_path hgoal
  rw [hp]
  refine ⟨?_, ?_, hlast⟩
  · rw [hfp, hext]; simp
  · rw [hfp, hext]; simp

theorem planFullCoveragePath_endpoints {Node W : Type} [DecidableEq Node]
    (g : RoutingGraph Node W)
    (hB : BeginsAtSource g.getRoute) (hE : EndsAtTarget g.getRoute)
    (fuel : Nat) (start goal : Node) (p : List Node)
    (h : planFullCoveragePath g fuel start goal [] = PlanResult.success p) :
    p ≠ [] ∧ p.head? = some start ∧ p.getLast? = some goal := by
  obtain ⟨s, back, last_path, hloop, hback, hroute, hp⟩ :=
    planFullCoveragePath_succeeded g fuel start goal [] p h
  have hinv := (dfsLoop_invariant g (fun st => ∃ ext, st.full_coverage_path = start :: ext)
    (by
      intro cur stk st st1 hP _ hstep
      obtain ⟨ext, hext⟩ := hP
      obtain ⟨ext1, hext1⟩ := dfsStep_extends g hB cur stk st st1 hstep
      exact ⟨ext ++ ext1, by rw [hext1, hext, List.cons_append]⟩)
    fuel _ s ⟨[], rfl⟩ hloop).1
  obtain ⟨ext, hext⟩ := hinv
  obtain ⟨init, hinit⟩ := List.getLast?_eq_some_iff.mp hback
  have hfirst := hB back goal last_path hroute
  have hlast := hE back goal last_path hroute
  have hp2 : p = s.full_coverage_path ++ last_path.rest := by
    rw [hp, List.nil_append, hinit, List.dropLast_concat, LaneletPath.toList, hfirst]
    simp
  refine ⟨?_, ?_, ?_⟩
  · rw [hp2, hext]; simp
  · rw [hp2, hext]; simp
  · rw [hp, List.nil_append, List.getLast?_append, hlast]
    rfl

/-- C13: with every path returned by `shortestPath` and by the shortest path
of `getRoute` beginning at its source and ending at its target, a successful
call of `planFullCoveragePathByTSP` or of `planFullCoveragePath` on an empty
output gives a non-empty path whose first lanelet is the start lanelet and
whose last lanelet is the goal lanelet. -/
theorem fullPath_from_start_to_goal {Node W : Type} [DecidableEq Node]
    [Zero W] [Add W] [NatCast W] (g : RoutingGraph Node W)
    (hBs : BeginsAtSource g.shortestPath) (hEs : EndsAtTarget g.shortestPath)
    (hBr : BeginsAtSource g.getRoute) (hEr : EndsAtTarget g.getRoute)
    (start_lanelet goal_lanelet : Node) :
    (∀ (node2lanelet_hash : List Node) (env : SolverEnv W) (p : List Node),
      (planFullCoveragePathByTSP g node2lanelet_hash env start_lanelet goal_lanelet []).1
        = PlanResult.success p →
      p ≠ [] ∧ p.head? = some start_lanelet ∧ p.getLast? = some goal_lanelet) ∧
    (∀ (fuel : Nat) (p : List Node),
      planFullCoveragePath g fuel start_lanelet goal_lanelet [] = PlanResult.success p →
      p ≠ [] ∧ p.head? = some start_lanelet ∧ p.getLast? = some goal_lanelet) := by
  constructor
  · intro hash env p h
    obtain ⟨order, ids, _, _, hst⟩ :=
      planFullCoveragePathByTSP_stitched g hash env start_lanelet goal_lanelet [] _ h
        (Or.inl ⟨p, rfl⟩)
    exact stitchLaneletIds_endpoints g hBs hEs ids start_lanelet goal_lanelet p hst
  · intro fuel p h
    exact planFullCoveragePath_endpoints g hBr hEr fuel start_lanelet goal_lanelet p h

theorem fullPath_from_start_to_goal_witness :
    (BeginsAtSource graphCycle.shortestPath ∧ EndsAtTarget graphCycle.shortestPath ∧
      BeginsAtSource graphCycle.getRoute ∧ EndsAtTarget graphCycle.getRoute ∧
      (planFullCoveragePathByTSP graphCycle [0, 1, 2, 3]
          (envWith true 0 (tourHeader ++ ["3", "2", "5", "1", "4", "-1", "EOF"])) 0 3 []).1
        = PlanResult.success [0, 1, 2, 3, 0, 1, 2, 3, 0, 1, 2, 3] ∧
      ([0, 1, 2, 3, 0, 1, 2, 3, 0, 1, 2, 3] : List Nat) ≠ [] ∧
      ([0, 1, 2, 3, 0, 1, 2, 3, 0, 1, 2, 3] : List Nat).head? = some 0 ∧
      ([0, 1, 2, 3, 0, 1, 2, 3, 0, 1, 2, 3] : List Nat).getLast? = some 3) ∧
    (BeginsAtSource graphLoop.shortestPath ∧ EndsAtTarget graphLoop.shortestPath ∧
      BeginsAtSource graphLoop.getRoute ∧ EndsAtTarget graphLoop.getRoute ∧
      planFullCoveragePath graphLoop 4 0 2 [] = PlanResult.success [0, 0, 1, 2] ∧
      ([0, 0, 1, 2] : List Nat) ≠ [] ∧
      ([0, 0, 1, 2] : List Nat).head? = some 0 ∧
      ([0, 0, 1, 2] : List Nat).getLast? = some 2) :=
  ⟨⟨graphCycle_begins, graphCycle_ends, graphCycle_begins, graphCycle_ends, by decide,
      (fullPath_from_start_to_goal graphCycle graphCycle_begins graphCycle_ends
        graphCycle_begins graphCycle_ends 0 3).1 [0, 1, 2, 3]
        (envWith true 0 (tourHeader ++ ["3", "2", "5", "1", "4", "-1", "EOF"]))
        [0, 1, 2, 3, 0, 1, 2, 3, 0, 1, 2, 3] (by decide)⟩,
    ⟨graphLoop_begins, graphLoop_ends, graphLoop_begins, graphLoop_ends, by decide,
      (@fullPath_from_start_to_goal Nat Int _ _ _ _ graphLoop graphLoop_begins graphLoop_ends
        graphLoop_begins graphLoop_ends 0 2).2 4 [0, 0, 1, 2] (by decide)⟩⟩

/-- Where the calls have defined behaviour a missing connector makes them
fail without output: a call of `expandPathToTheLanelet` that fails leaves the
path as it was, and it fails when the connector from the last lanelet of the
path is absent; when a connector asked for while stitching the rotated tour
or to the goal is absent `planFullCoveragePathByTSP` returns `false`; when the
relation asked for in a round of the depth-first loop has a value other than
`Successor` and the route is absent, or the route to the goal is absent after
the loop, `planFullCoveragePath` returns `false`; and whenever either call
returns `false` the output path is the one it had before the call. -/
theorem missing_connector_fails_where_defined {Node W : Type} [DecidableEq Node]
    [Zero W] [Add W] [NatCast W] (g : RoutingGraph Node W)
    (start_lanelet goal_lanelet : Node) (path_lanelets : List Node) :
    (∀ (path : List Node) (goal : Node), (expandPathToTheLanelet g path goal).1 = false →
      (expandPathToTheLanelet g path goal).2 = path) ∧
    (∀ (init : List Node) (back goal : Node), g.shortestPath back goal = none →
      expandPathToTheLanelet g (init ++ [back]) goal = (false, init ++ [back])) ∧
    (∀ (lanelet_id_order : List Node) (pos : Nat) (done rest init : List Node) (t back : Node),
      startIdPosition lanelet_id_order start_lanelet = some pos →
      (finalLaneletIdOrder lanelet_id_order pos).tail ++ [goal_lanelet] = done ++ t :: rest →
      expandAll g [start_lanelet] done = (true, init ++ [back]) →
      g.shortestPath back t = none →
      stitchLaneletIds g lanelet_id_order start_lanelet goal_lanelet path_lanelets
        = PlanResult.failure path_lanelets) ∧
    (∀ (node2lanelet_hash : List Node) (env : SolverEnv W) (p : List Node),
      (planFullCoveragePathByTSP g node2lanelet_hash env start_lanelet goal_lanelet
          path_lanelets).1 = PlanResult.failure p → p = path_lanelets) ∧
    (∀ (fuel : Nat) (s : DfsState Node) (cur pose : Node) (stk : List Node) (r : RelationType),
      s.dfs_stk = cur :: stk → s.full_coverage_path.getLast? = some pose →
      cur ∉ s.visited_lanelet → g.routingRelation pose cur = some r →
      r ≠ RelationType.Successor → g.getRoute pose cur = none →
      dfsLoop g (fuel + 1) s = DfsResult.failed) ∧
    (∀ (fuel : Nat),
      dfsLoop g fuel { dfs_stk := [start_lanelet], visited_lanelet := [],
                       full_coverage_path := [start_lanelet] } = DfsResult.failed →
      planFullCoveragePath g fuel start_lanelet goal_lanelet path_lanelets
        = PlanResult.failure path_lanelets) ∧
    (∀ (fuel : Nat) (s : DfsState Node) (back : Node),
      dfsLoop g fuel { dfs_stk := [start_lanelet], visited_lanelet := [],
                       full_coverage_path := [start_lanelet] } = DfsResult.finished s →
      s.full_coverage_path.getLast? = some back → g.getRoute back goal_lanelet = none →
      planFullCoveragePath g fuel start_lanelet goal_lanelet path_lanelets
        = PlanResult.failure path_lanelets) ∧
    (∀ (fuel : Nat) (p : List Node),
      planFullCoveragePath g fuel start_lanelet goal_lanelet path_lanelets
        = PlanResult.failure p → p = path_lanelets) := by
  refine ⟨expandPathToTheLanelet_failed g, ?_, ?_, ?_, ?_, ?_, ?_, ?_⟩
  · intro init back goal hsp
    rw [expandPathToTheLanelet_concat, hsp]
  · intro ids pos done rest init t back hpos hsplit hdone hsp
    rw [stitchLaneletIds_eq_expandAll g ids start_lanelet goal_lanelet path_lanelets pos hpos,
      hsplit, expandAll_append, hdone]
    simp only [expandAll_cons, expandPathToTheLanelet_concat, hsp]
  · intro hash env p h
    obtain ⟨order, ids, _, _, hst⟩ :=
      planFullCoveragePathByTSP_stitched g hash env start_lanelet goal_lanelet path_lanelets _ h
        (Or.inr ⟨p, rfl⟩)
    exact stitchLaneletIds_failed g ids start_lanelet goal_lanelet path_lanelets p hst
  · intro fuel s cur pose stk r hs hpose hv hr hne hroute
    rw [dfsLoop_succ_cons g fuel s cur stk hs]
    simp only [dfsStep, hpose, hv, if_false, hr, hne, ne_eq, not_false_eq_true, if_true,
      hroute]
  · intro fuel hloop
    unfold planFullCoveragePath
    rw [hloop]
  · intro fuel s back hloop hback hroute
    unfold planFullCoveragePath
    rw [hloop]
    simp only [hback, hroute]
  · intro fuel p h
    exact planFullCoveragePath_failed g fuel start_lanelet goal_lanelet path_lanelets p h

theorem missing_connector_fails_where_defined_witness :
    graphTwo.shortestPath 1 0 = none ∧
    expandPathToTheLanelet graphTwo ([0] ++ [1]) 0 = (false, [0] ++ [1]) ∧
    startIdPosition [0, 1] 0 = some 0 ∧
    (finalLaneletIdOrder [0, 1] 0).tail ++ [0] = [1] ++ 0 :: [] ∧
    expandAll graphTwo [0] [1] = (true, [0] ++ [1]) ∧
    stitchLaneletIds graphTwo [0, 1] 0 0 [5] = PlanResult.failure [5] :=
  ⟨by decide,
    (@missing_connector_fails_where_defined Nat Int _ _ _ _ graphTwo 0 0 [5]).2.1
      [0] 1 0 (by decide),
    by decide, by decide, by decide,
    (@missing_connector_fails_where_defined Nat Int _ _ _ _ graphTwo 0 0 [5]).2.2.1
      [0, 1] 0 [1] [] [0] 0 1 (by decide) (by decide) (by decide) (by decide)⟩

/-- C14: evaluation at the failing input.  In `graphTwo` (the single edge
`0 -> 1`) with start lanelet `1` and goal lanelet `0` the route from `1` to
the goal is absent, yet `planFullCoveragePath` does not return `false`: its
first round dereferences the relation of lanelet `1` with itself, which the
graph does not have, so for every number of rounds the call has no defined
behaviour, and it returns `false` for none.  The same holds in a later round
that turns back to a lanelet unrelated to the last lanelet of the path: with
`0` on the stack and the path `[1]` the round dereferences the absent relation
of `(1, 0)` before the absent route is asked for. -/
theorem planFullCoveragePath_missing_route_undefined :
    graphTwo.getRoute 1 0 = none ∧
    graphTwo.routingRelation 1 1 = none ∧
    (∀ fuel : Nat,
      planFullCoveragePath graphTwo (fuel + 1) 1 0 [] = PlanResult.undefinedBehaviour) ∧
    (∀ (fuel : Nat) (p : List Nat),
      planFullCoveragePath graphTwo fuel 1 0 [] ≠ PlanResult.failure p) ∧
    graphTwo.routingRelation 1 0 = none ∧
    dfsStep graphTwo 0 []
        { dfs_stk := [0], visited_lanelet := [1], full_coverage_path := [1] }
      = DfsResult.undefinedBehaviour := by
  have hub : ∀ fuel : Nat,
      planFullCoveragePath graphTwo (fuel + 1) 1 0 [] = PlanResult.undefinedBehaviour :=
    fun fuel => planFullCoveragePath_start_unrelated graphTwo 1 0 [] (by decide) fuel
  refine ⟨by decide, by decide, hub, ?_, by decide, by decide⟩
  intro fuel p
  cases fuel with
  | zero =>
    have h0 : planFullCoveragePath graphTwo 0 1 0 [] = PlanResult.outOfFuel := by decide
    rw [h0]
    intro h
    cases h
  | succ n =>
    rw [hub n]
    intro h
    cases h

/-! ## `getPathCost` -/

theorem consecutivePairs_append {Node : Type} (a : Node) (rest : List Node) :
    ∀ init : List Node,
      consecutivePairs (init ++ a :: rest)
        = consecutivePairs (init ++ [a]) ++ consecutivePairs (a :: rest) := by
  intro init
  induction init with
  | nil => simp [consecutivePairs_singleton]
  | cons x init ih =>
    cases init with
    | nil =>
      simp only [List.cons_append, List.nil_append, consecutivePairs_cons_cons,
        consecutivePairs_singleton]
    | cons y init2 =>
      simp only [List.cons_append, consecutivePairs_cons_cons] at ih ⊢
      rw [ih]

theorem validPair_iff {Node W : Type} (g : RoutingGraph Node W) (a b : Node) :
    validPair g (a, b) = true ↔
      ∃ r c, g.routingRelation a b = some r ∧
        (r = RelationType.Successor ∨ r = RelationType.Left ∨ r = RelationType.Right) ∧
        g.getEdgeCost a b = some c := by
  unfold validPair
  cases hr : g.routingRelation a b with
  | none => simp
  | some r =>
    cases hc : g.getEdgeCost a b with
    | none => simp
    | some c => simp

theorem pathCostLoop_eq {Node W : Type} [Add W] (g : RoutingGraph Node W) :
    ∀ (l : List Node) (total : W),
      pathCostLoop g l total
        = (pairCosts g ((consecutivePairs l).takeWhile (validPair g))).foldl
            (fun t c => t + c) total := by
  intro l
  induction l with
  | nil => intro total; simp [pathCostLoop, consecutivePairs, pairCosts]
  | cons a l ih =>
    cases l with
    | nil => intro total; simp [pathCostLoop, consecutivePairs, pairCosts]
    | cons b rest =>
      intro total
      rw [consecutivePairs_cons_cons]
      by_cases hv : validPair g (a, b) = true
      · obtain ⟨r, c, hr, hkind, hc⟩ := (validPair_iff g a b).mp hv
        rw [List.takeWhile_cons_of_pos hv]
        simp only [pathCostLoop, hr, hkind, if_true, hc, pairCosts, List.filterMap_cons,
          List.foldl_cons]
        exact ih (total + c)
      · rw [List.takeWhile_cons_of_neg hv]
        simp only [pairCosts, List.filterMap_nil, List.foldl_nil]
        cases hr : g.routingRelation a b with
        | none => simp only [pathCostLoop, hr]
        | some r =>
          by_cases hkind :
              r = RelationType.Successor ∨ r = RelationType.Left ∨ r = RelationType.Right
          · cases hc : g.getEdgeCost a b with
            | none => simp only [pathCostLoop, hr, hkind, if_true, hc]
            | some c => exact absurd ((validPair_iff g a b).mpr ⟨r, c, hr, hkind, hc⟩) hv
          · simp only [pathCostLoop, hr, hkind, if_false]

theorem getPathCost_eq {Node W : Type} [Zero W] [Add W] (g : RoutingGraph Node W)
    (path : List Node) :
    getPathCost g path
      = sumLeft (pairCosts g ((consecutivePairs path).takeWhile (validPair g))) := by
  unfold getPathCost sumLeft
  exact pathCostLoop_eq g path 0

theorem getPathCost_all_valid {Node W : Type} [Zero W] [Add W] (g : RoutingGraph Node W)
    (path : List Node) (h : ∀ ab ∈ consecutivePairs path, validPair g ab = true) :
    getPathCost g path = sumLeft (pairCosts g (consecutivePairs path)) := by
  rw [getPathCost_eq, List.takeWhile_eq_self_iff.mpr h]

/-- C18: for every non-empty path `getPathCost` returns the sum, from left to
right, of the edge costs over the longest prefix of consecutive pairs whose
relation is `Successor`, `Left` or `Right` and which have an edge cost: for a
fully valid walk it is the sum over all consecutive pairs, for a one-lanelet
path it is `0`, and when the pair `(a, b)` is the first invalid one the result
is the sum accumulated up to `a`. -/
theorem getPathCost_sums_leading_valid_pairs {Node W : Type} [Zero W] [Add W]
    (g : RoutingGraph Node W) :
    (∀ path : List Node, path ≠ [] →
      getPathCost g path
        = sumLeft (pairCosts g ((consecutivePairs path).takeWhile (validPair g)))) ∧
    (∀ path : List Node, path ≠ [] →
      (∀ ab ∈ consecutivePairs path, validPair g ab = true) →
      getPathCost g path = sumLeft (pairCosts g (consecutivePairs path))) ∧
    (∀ a : Node, getPathCost g [a] = 0) ∧
    (∀ (init rest : List Node) (a b : Node),
      (∀ ab ∈ consecutivePairs (init ++ [a]), validPair g ab = true) →
      validPair g (a, b) = false →
      getPathCost g (init ++ a :: b :: rest)
        = sumLeft (pairCosts g (consecutivePairs (init ++ [a]))) ∧
      getPathCost g (init ++ a :: b :: rest) = getPathCost g (init ++ [a])) := by
  refine ⟨fun path _ => getPathCost_eq g path,
    fun path _ h => getPathCost_all_valid g path h, ?_, ?_⟩
  · intro a
    rfl
  · intro init rest a b hvalid hbad
    have hnot : ¬ validPair g (a, b) = true := by rw [hbad]; decide
    have h1 : getPathCost g (init ++ a :: b :: rest)
        = sumLeft (pairCosts g (consecutivePairs (init ++ [a]))) := by
      rw [getPathCost_eq, consecutivePairs_append, consecutivePairs_cons_cons,
        List.takeWhile_append_of_pos hvalid, List.takeWhile_cons_of_neg hnot, List.append_nil]
    exact ⟨h1, by rw [h1, getPathCost_all_valid g _ hvalid]⟩

theorem getPathCost_sums_leading_valid_pairs_witness :
    ([0, 1, 2, 3] : List Nat) ≠ [] ∧
    (∀ ab ∈ consecutivePairs ([0, 1, 2, 3] : List Nat), validPair graphCycle ab = true) ∧
    getPathCost graphCycle [0, 1, 2, 3]
      = sumLeft (pairCosts graphCycle (consecutivePairs [0, 1, 2, 3])) ∧
    sumLeft (pairCosts graphCycle (consecutivePairs [0, 1, 2, 3])) = 3 :=
  ⟨by decide, by decide,
    (getPathCost_sums_leading_valid_pairs graphCycle).2.1 [0, 1, 2, 3] (by decide) (by decide),
    by decide⟩

/-! ## The produced path is a walk -/

theorem isWalk_singleton {Node W : Type} (g : RoutingGraph Node W) (a : Node) :
    IsWalk g [a] := by
  intro uv h
  rw [consecutivePairs_singleton] at h
  cases h

theorem isWalk_splice {Node W : Type} (g : RoutingGraph Node W) (init rest : List Node)
    (b : Node) (h1 : IsWalk g (init ++ [b])) (h2 : IsWalk g (b :: rest)) :
    IsWalk g (init ++ b :: rest) := by
  intro uv h
  rcases mem_consecutivePairs_overlap b rest uv init h with h3 | h3
  · exact h1 uv h3
  · exact h2 uv h3

theorem isWalk_shortestPath {Node W : Type} (g : RoutingGraph Node W) (a b : Node)
    (p : LaneletPath Node) (h : g.shortestPath a b = some p) : IsWalk g p.toList := by
  intro uv huv
  exact Or.inr ⟨a, b, p, Or.inl h, huv⟩

theorem isWalk_getRoute {Node W : Type} (g : RoutingGraph Node W) (a b : Node)
    (p : LaneletPath Node) (h : g.getRoute a b = some p) : IsWalk g p.toList := by
  intro uv huv
  exact Or.inr ⟨a, b, p, Or.inr h, huv⟩

theorem expandPathToTheLanelet_isWalk {Node W : Type} (g : RoutingGraph Node W)
    (hB : BeginsAtSource g.shortestPath) (path : List Node) (goal : Node) (q : List Node)
    (h : expandPathToTheLanelet g path goal = (true, q)) (hw : IsWalk g path) :
    IsWalk g q := by
  obtain ⟨init, back, p, hpath, hsp, hq⟩ := expandPathToTheLanelet_succeeded g path goal q h
  have hwp := isWalk_shortestPath g back goal p hsp
  rw [hq, LaneletPath.toList, hB back goal p hsp]
  apply isWalk_splice
  · rw [← hpath]; exact hw
  · rw [LaneletPath.toList, hB back goal p hsp] at hwp
    exact hwp

theorem expandAll_isWalk {Node W : Type} (g : RoutingGraph Node W)
    (hB : BeginsAtSource g.shortestPath) :
    ∀ (ts path q : List Node), expandAll g path ts = (true, q) → IsWalk g path →
      IsWalk g q := by
  intro ts
  induction ts with
  | nil =>
    intro path q h hw
    simp only [expandAll, Prod.mk.injEq, true_and] at h
    rw [← h]
    exact hw
  | cons t ts ih =>
    intro path q h hw
    obtain ⟨p, hp, hrest⟩ := expandAll_succeeded_cons g path t ts q h
    exact ih p q hrest (expandPathToTheLanelet_isWalk g hB path t p hp hw)

theorem stitchLaneletIds_isWalk {Node W : Type} [DecidableEq Node] (g : RoutingGraph Node W)
    (hB : BeginsAtSource g.shortestPath) (ids : List Node) (start goal : Node) (p : List Node)
    (h : stitchLaneletIds g ids start goal [] = PlanResult.success p) : IsWalk g p := by
  obtain ⟨pos, full, full_path, _, hall, hgoal, hp⟩ :=
    stitchLaneletIds_succeeded g ids start goal [] p h
  rw [hp, List.nil_append]
  exact expandPathToTheLanelet_isWalk g hB full goal full_path hgoal
    (expandAll_isWalk g hB _ _ _ hall (isWalk_singleton g start))

theorem dfsStep_isWalk {Node W : Type} [DecidableEq Node] (g : RoutingGraph Node W)
    (hB : BeginsAtSource g.getRoute) (cur : Node) (stk : List Node) (s s1 : DfsState Node)
    (h : dfsStep g cur stk s = DfsResult.finished s1) (hw : IsWalk g s.full_coverage_path) :
    IsWalk g s1.full_coverage_path := by
  obtain ⟨pose, hpose, hcases⟩ := dfsStep_finished g cur stk s s1 h
  obtain ⟨init, hinit⟩ := List.getLast?_eq_some_iff.mp hpose
  rcases hcases with ⟨_, hs1⟩ | ⟨_, r, bp, _, _, hroute, hs1⟩ | ⟨_, hrel, hs1⟩
  · rw [hs1]; exact hw
  · have hwp := isWalk_getRoute g pose cur bp hroute
    rw [hs1, backtrackLoop_path]
    simp only
    rw [hinit, List.dropLast_concat, LaneletPath.toList, hB pose cur bp hroute]
    apply isWalk_splice
    · rw [← hinit]; exact hw
    · rw [LaneletPath.toList, hB pose cur bp hroute] at hwp
      exact hwp
  · rw [hs1]
    simp only
    rw [hinit, List.append_assoc]
    apply isWalk_splice
    · rw [← hinit]; exact hw
    · intro uv huv
      have hpair : consecutivePairs [pose, cur] = [(pose, cur)] := by
        rw [consecutivePairs_cons_cons, consecutivePairs_singleton]
      have huv2 : uv ∈ [(pose, cur)] := by
        rw [← hpair]
        exact huv
      rw [List.mem_singleton.mp huv2]
      exact Or.inl hrel

theorem planFullCoveragePath_isWalk {Node W : Type} [DecidableEq Node]
    (g : RoutingGraph Node W) (hB : BeginsAtSource g.getRoute)
    (fuel : Nat) (start goal : Node) (p : List Node)
    (h : planFullCoveragePath g fuel start goal [] = PlanResult.success p) : IsWalk g p := by
  obtain ⟨s, back, last_path, hloop, hback, hroute, hp⟩ :=
    planFullCoveragePath_succeeded g fuel start goal [] p h
  have hinv := (dfsLoop_invariant g (fun st => IsWalk g st.full_coverage_path)
    (by
      intro cur stk st st1 hP _ hstep
      exact dfsStep_isWalk g hB cur stk st st1 hstep hP)
    fuel _ s (isWalk_singleton g start) hloop).1
  obtain ⟨init, hinit⟩ := List.getLast?_eq_some_iff.mp hback
  have hwp := isWalk_getRoute g back goal last_path hroute
  rw [hp, List.nil_append, hinit, List.dropLast_concat, LaneletPath.toList,
    hB back goal last_path hroute]
  apply isWalk_splice
  · rw [← hinit]; exact hinv
  · rw [LaneletPath.toList, hB back goal last_path hroute] at hwp
    exact hwp

/-- A walk whose connector pairs and successor pairs all pass the test of
`getPathCost` is summed to its end. -/
theorem getPathCost_of_isWalk {Node W : Type} [Zero W] [Add W] (g : RoutingGraph Node W)
    (hconn : ∀ u v, IsConnectorPair g u v → validPair g (u, v) = true)
    (hsucc : ∀ u v, g.routingRelation u v = some RelationType.Successor →
      ∃ c, g.getEdgeCost u v = some c)
    (p : List Node) (hw : IsWalk g p) :
    (∀ uv ∈ consecutivePairs p, validPair g uv = true) ∧
    getPathCost g p = sumLeft (pairCosts g (consecutivePairs p)) := by
  have hall : ∀ uv ∈ consecutivePairs p, validPair g uv = true := by
    intro uv huv
    rcases hw uv huv with hrel | hc
    · obtain ⟨c, hcost⟩ := hsucc uv.1 uv.2 hrel
      exact (validPair_iff g uv.1 uv.2).mpr ⟨_, c, hrel, Or.inl rfl, hcost⟩
    · exact hconn uv.1 uv.2 hc
  exact ⟨hall, getPathCost_all_valid g p hall⟩

/-- C15: on a routing graph that keeps `RoutingContract` (returned paths
begin at their source; a pair that has a relation has an edge cost), a
successful TSP-based or depth-first call on an empty output gives a walk:
every consecutive pair of the path is related as `Successor` or is a
consecutive pair of a path returned by `shortestPath` or by the shortest path
of `getRoute`.  Hence, if every consecutive pair of a returned path is related
as `Successor`, `Left` or `Right` and has an edge cost, every consecutive pair
of the produced path passes the test of `getPathCost`, which therefore does
not stop early and returns the sum over all consecutive pairs of the path. -/
theorem produced_path_is_walk {Node W : Type} [DecidableEq Node]
    [Zero W] [Add W] [NatCast W] (g : RoutingGraph Node W) (hc : RoutingContract g)
    (start_lanelet goal_lanelet : Node) (p : List Node)
    (hplan : (∃ (node2lanelet_hash : List Node) (env : SolverEnv W),
        (planFullCoveragePathByTSP g node2lanelet_hash env start_lanelet goal_lanelet []).1
          = PlanResult.success p) ∨
      (∃ fuel : Nat,
        planFullCoveragePath g fuel start_lanelet goal_lanelet [] = PlanResult.success p)) :
    IsWalk g p ∧
    ((∀ u v, IsConnectorPair g u v → validPair g (u, v) = true) →
      (∀ uv ∈ consecutivePairs p, validPair g uv = true) ∧
      getPathCost g p = sumLeft (pairCosts g (consecutivePairs p))) := by
  obtain ⟨hBs, hBr, hedge⟩ := hc
  have hw : IsWalk g p := by
    rcases hplan with ⟨hash, env, h⟩ | ⟨fuel, h⟩
    · obtain ⟨order, ids, _, _, hst⟩ :=
        planFullCoveragePathByTSP_stitched g hash env start_lanelet goal_lanelet [] _ h
          (Or.inl ⟨p, rfl⟩)
      exact stitchLaneletIds_isWalk g hBs ids start_lanelet goal_lanelet p hst
    · exact planFullCoveragePath_isWalk g hBr fuel start_lanelet goal_lanelet p h
  exact ⟨hw, fun hconn =>
    getPathCost_of_isWalk g hconn (fun u v h => hedge u v RelationType.Successor h) p hw⟩

theorem produced_path_is_walk_witness :
    (RoutingContract graphCycle ∧
      (planFullCoveragePathByTSP graphCycle [0, 1, 2, 3]
          (envWith true 0 (tourHeader ++ ["1", "2", "3", "4", "5", "-1", "EOF"])) 0 3 []).1
        = PlanResult.success [0, 1, 2, 3] ∧
      IsWalk graphCycle [0, 1, 2, 3] ∧
      (∀ u v, IsConnectorPair graphCycle u v → validPair graphCycle (u, v) = true) ∧
      getPathCost graphCycle [0, 1, 2, 3]
        = sumLeft (pairCosts graphCycle (consecutivePairs [0, 1, 2, 3]))) ∧
    (RoutingContract graphLoop ∧
      planFullCoveragePath graphLoop 4 0 2 [] = PlanResult.success [0, 0, 1, 2] ∧
      IsWalk graphLoop [0, 0, 1, 2] ∧
      (∀ u v, IsConnectorPair graphLoop u v → validPair graphLoop (u, v) = true) ∧
      getPathCost graphLoop [0, 0, 1, 2]
        = sumLeft (pairCosts graphLoop (consecutivePairs [0, 0, 1, 2]))) :=
  ⟨⟨graphCycle_contract, by decide,
      (produced_path_is_walk graphCycle graphCycle_contract 0 3 [0, 1, 2, 3]
        (Or.inl ⟨[0, 1, 2, 3],
          envWith true 0 (tourHeader ++ ["1", "2", "3", "4", "5", "-1", "EOF"]),
          by decide⟩)).1,
      graphCycle_connectors_valid,
      ((produced_path_is_walk graphCycle graphCycle_contract 0 3 [0, 1, 2, 3]
        (Or.inl ⟨[0, 1, 2, 3],
          envWith true 0 (tourHeader ++ ["1", "2", "3", "4", "5", "-1", "EOF"]),
          by decide⟩)).2 graphCycle_connectors_valid).2⟩,
    ⟨graphLoop_contract, by decide,
      (@produced_path_is_walk Nat Int _ _ _ _ graphLoop graphLoop_contract 0 2 [0, 0, 1, 2]
        (Or.inr ⟨4, by decide⟩)).1,
      graphLoop_connectors_valid,
      ((@produced_path_is_walk Nat Int _ _ _ _ graphLoop graphLoop_contract 0 2 [0, 0, 1, 2]
        (Or.inr ⟨4, by decide⟩)).2 graphLoop_connectors_valid).2⟩⟩

/-! ## Coverage -/

theorem laneletIdOrder_covers {Node : Type} (hash : List Node) (size : Nat) (i : Nat)
    (x : Node) (hi : i < size - 1) (hx : hash[i]? = some x) :
    ∀ (order : List Int) (ids : List Node), laneletIdOrder hash size order = some ids →
      (i : Int) ∈ order → x ∈ ids := by
  have hcond : ((i : Int) % 18446744073709551616).toNat < size - 1 := by
    have h1 : ((i : Int) % 18446744073709551616).toNat ≤ i := by omega
    omega
  intro order
  induction order with
  | nil => intro ids _ hmem; cases hmem
  | cons index rest ih =>
    intro ids h hmem
    rw [laneletIdOrder] at h
    by_cases hc : (index % 18446744073709551616).toNat < size - 1
    · rw [if_pos hc] at h
      cases hlook : (if 0 ≤ index then hash[index.toNat]? else none) with
      | none => rw [hlook] at h; cases h
      | some id =>
        cases hrest : laneletIdOrder hash size rest with
        | none => rw [hlook, hrest] at h; cases h
        | some ids1 =>
          rw [hlook, hrest] at h
          simp only [Option.some.injEq] at h
          rw [← h]
          rcases List.mem_cons.mp hmem with heq | hin
          · rw [← heq] at hlook
            simp only [Int.ofNat_zero_le, if_true, Int.toNat_ofNat] at hlook
            rw [hx] at hlook
            simp only [Option.some.injEq] at hlook
            rw [hlook]
            exact List.mem_cons_self _ _
          · exact List.mem_cons_of_mem _ (ih ids1 hrest hin)
    · rw [if_neg hc] at h
      rcases List.mem_cons.mp hmem with heq | hin
      · rw [← heq] at hc
        exact absurd hcond hc
      · exact ih ids h hin

theorem exists_last_split {Node : Type} [DecidableEq Node] (s : Node) :
    ∀ l : List Node, s ∈ l → ∃ A B, l = A ++ s :: B ∧ s ∉ B := by
  intro l
  induction l with
  | nil => intro h; cases h
  | cons a l ih =>
    intro h
    by_cases hl : s ∈ l
    · obtain ⟨A, B, hAB, hB⟩ := ih hl
      exact ⟨a :: A, B, by rw [hAB]; rfl, hB⟩
    · have ha : s = a := by
        rcases List.mem_cons.mp h with h1 | h1
        · exact h1
        · exact absurd h1 hl
      exact ⟨[], l, by rw [ha]; rfl, hl⟩

theorem startIdPosition_some_split {Node : Type} [DecidableEq Node] (ids : List Node)
    (s : Node) (pos : Nat) (h : startIdPosition ids s = some pos) :
    ∃ A B, ids = A ++ s :: B ∧ s ∉ B ∧ pos = A.length := by
  by_cases hm : s ∈ ids
  · obtain ⟨A, B, hAB, hB⟩ := exists_last_split s ids hm
    refine ⟨A, B, hAB, hB, ?_⟩
    rw [hAB, startIdPosition_split A B s hB] at h
    simp only [Option.some.injEq] at h
    exact h.symm
  · rw [startIdPosition_not_mem ids s hm] at h
    cases h

theorem stitchLaneletIds_covers {Node W : Type} [DecidableEq Node] (g : RoutingGraph Node W)
    (hB : BeginsAtSource g.shortestPath) (hE : EndsAtTarget g.shortestPath)
    (ids : List Node) (start goal : Node) (out p : List Node)
    (h : stitchLaneletIds g ids start goal out = PlanResult.success p) :
    ∀ x ∈ ids, x ∈ p := by
  obtain ⟨pos, full, full_path, hpos, hall, hgoal, hp⟩ :=
    stitchLaneletIds_succeeded g ids start goal out p h
  obtain ⟨A, B, hAB, hBn, hlen⟩ := startIdPosition_some_split ids start pos hpos
  rw [hAB, hlen, finalLaneletIdOrder_split, List.tail_cons] at hall
  obtain ⟨ext, hext⟩ := expandAll_extends g hB _ _ _ hall
  have hcov := expandAll_covers g hB hE _ _ _ hall
  obtain ⟨_, sp, _, _, hfp⟩ := expandPathToTheLanelet_extends g hB full goal full_path hgoal
  have hfull : ∀ x ∈ ids, x ∈ full := by
    intro x hx
    rw [hAB] at hx
    rcases List.mem_append.mp hx with hxA | hxsB
    · exact hcov x (List.mem_append_right _ hxA)
    · rcases List.mem_cons.mp hxsB with hxs | hxB
      · rw [hext, hxs]
        exact List.mem_append_left _ (List.mem_singleton_self _)
      · exact hcov x (List.mem_append_left _ hxB)
  intro x hx
  rw [hp, hfp]
  exact List.mem_append_right _ (List.mem_append_left _ (hfull x hx))

/-- C16: with every path returned by `shortestPath` beginning at its source
and ending at its target, when `solveLKHTSP` returns a tour that is a
permutation of `0 .. N` (`N` registered lanelets and the sentinel ordinal `N`)
and `planFullCoveragePathByTSP` succeeds, every registered lanelet occurs in
the produced path. -/
theorem planFullCoveragePathByTSP_covers_registry {Node W : Type} [DecidableEq Node]
    [Zero W] [Add W] [NatCast W] (g : RoutingGraph Node W)
    (hBs : BeginsAtSource g.shortestPath) (hEs : EndsAtTarget g.shortestPath)
    (node2lanelet_hash : List Node) (env : SolverEnv W)
    (start_lanelet goal_lanelet : Node) (path_lanelets p : List Node) (order : List Int)
    (hsolve : (LKHTSPSolver.solveLKHTSP env (getAjacentMatrix g node2lanelet_hash)).1
      = Outcome.returned order)
    (hperm : List.Perm order (identityOrder (node2lanelet_hash.length + 1)))
    (hplan : (planFullCoveragePathByTSP g node2lanelet_hash env start_lanelet goal_lanelet
      path_lanelets).1 = PlanResult.success p) :
    ∀ x ∈ node2lanelet_hash, x ∈ p := by
  obtain ⟨order1, ids, hsolve1, hids, hst⟩ :=
    planFullCoveragePathByTSP_stitched g node2lanelet_hash env start_lanelet goal_lanelet
      path_lanelets _ hplan (Or.inl ⟨p, rfl⟩)
  rw [hsolve] at hsolve1
  simp only [Outcome.returned.injEq] at hsolve1
  rw [← hsolve1] at hids
  have hlen : order.length = node2lanelet_hash.length + 1 := by
    rw [hperm.length_eq, length_identityOrder]
  intro x hx
  obtain ⟨i, hi, hxi⟩ := List.getElem_of_mem hx
  have hmem : (i : Int) ∈ order := by
    rw [hperm.mem_iff]
    unfold identityOrder
    exact List.mem_map.mpr ⟨i, List.mem_range.mpr (by omega), rfl⟩
  have hlook : node2lanelet_hash[i]? = some x := by
    rw [List.getElem?_eq_getElem hi, hxi]
  have hxids := laneletIdOrder_covers node2lanelet_hash order.length i x
    (by rw [hlen]; omega) hlook order ids hids hmem
  exact stitchLaneletIds_covers g hBs hEs ids start_lanelet goal_lanelet path_lanelets p hst
    x hxids

theorem planFullCoveragePathByTSP_covers_registry_witness :
    BeginsAtSource graphCycle.shortestPath ∧ EndsAtTarget graphCycle.shortestPath ∧
    (LKHTSPSolver.solveLKHTSP
        (envWith true 0 (tourHeader ++ ["3", "2", "5", "1", "4", "-1", "EOF"]))
        (getAjacentMatrix graphCycle [0, 1, 2, 3])).1 = Outcome.returned [2, 1, 4, 0, 3] ∧
    List.Perm ([2, 1, 4, 0, 3] : List Int) (identityOrder ([0, 1, 2, 3].length + 1)) ∧
    (planFullCoveragePathByTSP graphCycle [0, 1, 2, 3]
        (envWith true 0 (tourHeader ++ ["3", "2", "5", "1", "4", "-1", "EOF"])) 0 3 []).1
      = PlanResult.success [0, 1, 2, 3, 0, 1, 2, 3, 0, 1, 2, 3] ∧
    (∀ x ∈ ([0, 1, 2, 3] : List Nat), x ∈ ([0, 1, 2, 3, 0, 1, 2, 3, 0, 1, 2, 3] : List Nat)) :=
  ⟨graphCycle_begins, graphCycle_ends, by decide, by decide, by decide,
    planFullCoveragePathByTSP_covers_registry graphCycle graphCycle_begins graphCycle_ends
      [0, 1, 2, 3] (envWith true 0 (tourHeader ++ ["3", "2", "5", "1", "4", "-1", "EOF"]))
      0 3 [] [0, 1, 2, 3, 0, 1, 2, 3, 0, 1, 2, 3] [2, 1, 4, 0, 3]
      (by decide) (by decide) (by decide)⟩

/-- The coverage invariant of the depth-first loop: every visited lanelet is
on the path, every lanelet following a visited one is visited or on the
stack, and the start lanelet is visited or on the stack. -/
theorem dfsStep_coverage {Node W : Type} [DecidableEq Node] (g : RoutingGraph Node W)
    (hB : BeginsAtSource g.getRoute) (hE : EndsAtTarget g.getRoute) (start : Node)
    (cur : Node) (stk : List Node) (s s1 : DfsState Node)
    (hP : (∀ v ∈ s.visited_lanelet, v ∈ s.full_coverage_path) ∧
      (∀ v ∈ s.visited_lanelet, ∀ w ∈ g.following v,
        w ∈ s.visited_lanelet ∨ w ∈ s.dfs_stk) ∧
      (start ∈ s.visited_lanelet ∨ start ∈ s.dfs_stk))
    (hs : s.dfs_stk = cur :: stk)
    (h : dfsStep g cur stk s = DfsResult.finished s1) :
    (∀ v ∈ s1.visited_lanelet, v ∈ s1.full_coverage_path) ∧
    (∀ v ∈ s1.visited_lanelet, ∀ w ∈ g.following v,
      w ∈ s1.visited_lanelet ∨ w ∈ s1.dfs_stk) ∧
    (start ∈ s1.visited_lanelet ∨ start ∈ s1.dfs_stk) := by
  obtain ⟨hpath, hclosed, hstart⟩ := hP
  rw [hs] at hclosed hstart
  obtain ⟨pose, hpose, hcases⟩ := dfsStep_finished g cur stk s s1 h
  obtain ⟨init, hinit⟩ := List.getLast?_eq_some_iff.mp hpose
  rcases hcases with ⟨hv, hs1⟩ | ⟨_, r, bp, _, _, hroute, hs1⟩ | ⟨_, _, hs1⟩
  · rw [hs1]
    refine ⟨hpath, ?_, ?_⟩
    · intro v hvis w hw
      rcases hclosed v hvis w hw with h1 | h1
      · exact Or.inl h1
      · rcases List.mem_cons.mp h1 with h2 | h2
        · exact Or.inl (by rw [h2]; exact hv)
        · exact Or.inr h2
    · rcases hstart with h1 | h1
      · exact Or.inl h1
      · rcases List.mem_cons.mp h1 with h2 | h2
        · exact Or.inl (by rw [h2]; exact hv)
        · exact Or.inr h2
  · have hcur : cur ∈ bp.toList := List.mem_of_getLast?_eq_some (hE pose cur bp hroute)
    have hp1 : s1.full_coverage_path = s.full_coverage_path ++ bp.rest := by
      rw [hs1, backtrackLoop_path]
      simp only
      rw [hinit, List.dropLast_concat, LaneletPath.toList, hB pose cur bp hroute]
      simp
    have hbp : ∀ v ∈ bp.toList, v ∈ s1.full_coverage_path := by
      intro v hv
      rw [hs1, backtrackLoop_path]
      exact List.mem_append_right _ hv
    have hvis1 : ∀ v, v ∈ s1.visited_lanelet ↔ v ∈ s.visited_lanelet ∨ v ∈ bp.toList := by
      intro v
      rw [hs1, backtrackLoop_visited]
    have hstk1 : ∀ v, v ∈ s1.dfs_stk ↔ v ∈ stk ∨ ∃ llt ∈ bp.toList, v ∈ g.following llt := by
      intro v
      rw [hs1, backtrackLoop_stk]
    have hold : ∀ w, w ∈ s.visited_lanelet ∨ w ∈ cur :: stk →
        w ∈ s1.visited_lanelet ∨ w ∈ s1.dfs_stk := by
      intro w hw
      rcases hw with h1 | h1
      · exact Or.inl ((hvis1 w).mpr (Or.inl h1))
      · rcases List.mem_cons.mp h1 with h2 | h2
        · exact Or.inl ((hvis1 w).mpr (Or.inr (by rw [h2]; exact hcur)))
        · exact Or.inr ((hstk1 w).mpr (Or.inl h2))
    refine ⟨?_, ?_, hold start hstart⟩
    · intro v hv
      rcases (hvis1 v).mp hv with h1 | h1
      · rw [hp1]
        exact List.mem_append_left _ (hpath v h1)
      · exact hbp v h1
    · intro v hv w hw
      rcases (hvis1 v).mp hv with h1 | h1
      · exact hold w (hclosed v h1 w hw)
      · exact Or.inr ((hstk1 w).mpr (Or.inr ⟨v, h1, hw⟩))
  · have hvis1 : ∀ v, v ∈ s1.visited_lanelet ↔ v = cur ∨ v ∈ s.visited_lanelet := by
      intro v
      rw [hs1]
      exact mem_emplaceVisited _ _ _
    have hstk1 : ∀ v, v ∈ s1.dfs_stk ↔ v ∈ g.following cur ∨ v ∈ stk := by
      intro v
      rw [hs1]
      exact mem_pushAll _ _ _
    have hp1 : s1.full_coverage_path = s.full_coverage_path ++ [cur] := by rw [hs1]
    have hold : ∀ w, w ∈ s.visited_lanelet ∨ w ∈ cur :: stk →
        w ∈ s1.visited_lanelet ∨ w ∈ s1.dfs_stk := by
      intro w hw
      rcases hw with h1 | h1
      · exact Or.inl ((hvis1 w).mpr (Or.inr h1))
      · rcases List.mem_cons.mp h1 with h2 | h2
        · exact Or.inl ((hvis1 w).mpr (Or.inl h2))
        · exact Or.inr ((hstk1 w).mpr (Or.inr h2))
    refine ⟨?_, ?_, hold start hstart⟩
    · intro v hv
      rw [hp1]
      rcases (hvis1 v).mp hv with h1 | h1
      · rw [h1]
        exact List.mem_append_right _ (List.mem_singleton_self _)
      · exact List.mem_append_left _ (hpath v h1)
    · intro v hv w hw
      rcases (hvis1 v).mp hv with h1 | h1
      · rw [h1] at hw
        exact Or.inr ((hstk1 w).mpr (Or.inl hw))
      · exact hold w (hclosed v h1 w hw)

/-- C17: with every path returned by the shortest path of `getRoute`
beginning at its source and ending at its target, when `planFullCoveragePath`
succeeds every lanelet reachable from the start lanelet by following
direct-successor edges, zero or more steps, occurs in the produced path. -/
theorem planFullCoveragePath_covers_reachable {Node W : Type} [DecidableEq Node]
    (g : RoutingGraph Node W)
    (hBr : BeginsAtSource g.getRoute) (hEr : EndsAtTarget g.getRoute)
    (fuel : Nat) (start_lanelet goal_lanelet : Node) (path_lanelets p : List Node)
    (hplan : planFullCoveragePath g fuel start_lanelet goal_lanelet path_lanelets
      = PlanResult.success p) :
    ∀ x, ReachableByFollowing g start_lanelet x → x ∈ p := by
  obtain ⟨s, back, last_path, hloop, hback, hroute, hp⟩ :=
    planFullCoveragePath_succeeded g fuel start_lanelet goal_lanelet path_lanelets p hplan
  have h0 : (∀ v ∈ ([] : List Node), v ∈ [start_lanelet]) ∧
      (∀ v ∈ ([] : List Node), ∀ w ∈ g.following v,
        w ∈ ([] : List Node) ∨ w ∈ [start_lanelet]) ∧
      (start_lanelet ∈ ([] : List Node) ∨ start_lanelet ∈ [start_lanelet]) :=
    ⟨fun v hv => absurd hv (List.not_mem_nil v), fun v hv => absurd hv (List.not_mem_nil v),
      Or.inr (List.mem_singleton_self _)⟩
  have hinv := dfsLoop_invariant g
    (fun st => (∀ v ∈ st.visited_lanelet, v ∈ st.full_coverage_path) ∧
      (∀ v ∈ st.visited_lanelet, ∀ w ∈ g.following v,
        w ∈ st.visited_lanelet ∨ w ∈ st.dfs_stk) ∧
      (start_lanelet ∈ st.visited_lanelet ∨ start_lanelet ∈ st.dfs_stk))
    (fun cur stk st st1 hP hs hstep =>
      dfsStep_coverage g hBr hEr start_lanelet cur stk st st1 hP hs hstep)
    fuel _ s h0 hloop
  obtain ⟨⟨hpath, hclosed, hstart⟩, hempty⟩ := hinv
  rw [hempty] at hclosed hstart
  have hstartv : start_lanelet ∈ s.visited_lanelet := by
    rcases hstart with h1 | h1
    · exact h1
    · cases h1
  have hreach : ∀ x, ReachableByFollowing g start_lanelet x → x ∈ s.visited_lanelet := by
    intro x hx
    induction hx with
    | refl => exact hstartv
    | tail _ hstep ih =>
      rcases hclosed _ ih _ hstep with h1 | h1
      · exact h1
      · cases h1
  obtain ⟨init, hinit⟩ := List.getLast?_eq_some_iff.mp hback
  have hp2 : p = path_lanelets ++ (s.full_coverage_path ++ last_path.rest) := by
    rw [hp, hinit, List.dropLast_concat, LaneletPath.toList, hBr back goal_lanelet last_path hroute]
    simp
  intro x hx
  rw [hp2]
  exact List.mem_append_right _ (List.mem_append_left _ (hpath x (hreach x hx)))

theorem planFullCoveragePath_covers_reachable_witness :
    BeginsAtSource graphLoop.getRoute ∧ EndsAtTarget graphLoop.getRoute ∧
    planFullCoveragePath graphLoop 4 0 2 [] = PlanResult.success [0, 0, 1, 2] ∧
    ReachableByFollowing graphLoop 0 2 ∧ 2 ∈ ([0, 0, 1, 2] : List Nat) :=
  have hreach : ReachableByFollowing graphLoop 0 2 :=
    Relation.ReflTransGen.tail
      (Relation.ReflTransGen.tail Relation.ReflTransGen.refl
        (show 1 ∈ graphLoop.following 0 by decide))
      (show 2 ∈ graphLoop.following 1 by decide)
  ⟨graphLoop_begins, graphLoop_ends, by decide, hreach,
    planFullCoveragePath_covers_reachable graphLoop graphLoop_begins graphLoop_ends
      4 0 2 [] [0, 0, 1, 2] (by decide) 2 hreach⟩

/-! ## The four-lanelet cycle and the scratch files -/

/-- More fuel does not change a result other than running out of fuel. -/
theorem dfsLoop_fuel_mono {Node W : Type} [DecidableEq Node] (g : RoutingGraph Node W) :
    ∀ (n : Nat) (s : DfsState Node) (r : DfsResult Node), dfsLoop g n s = r →
      r ≠ DfsResult.outOfFuel → ∀ m, n ≤ m → dfsLoop g m s = r := by
  intro n
  induction n with
  | zero =>
    intro s r h hr m _
    cases hs : s.dfs_stk with
    | nil =>
      rw [dfsLoop_nil g _ s hs] at h
      rw [dfsLoop_nil g _ s hs, h]
    | cons cur stk =>
      rw [dfsLoop] at h
      simp only [hs] at h
      exact absurd h.symm hr
  | succ n ih =>
    intro s r h hr m hm
    cases hs : s.dfs_stk with
    | nil =>
      rw [dfsLoop_nil g _ s hs] at h
      rw [dfsLoop_nil g _ s hs, h]
    | cons cur stk =>
      obtain ⟨m1, hm1⟩ : ∃ m1, m = m1 + 1 := ⟨m - 1, by omega⟩
      rw [hm1, dfsLoop_succ_cons g m1 s cur stk hs]
      rw [dfsLoop_succ_cons g n s cur stk hs] at h
      cases hstep : dfsStep g cur stk s with
      | finished s1 =>
        rw [hstep] at h
        exact ih s1 r h hr m1 (by omega)
      | failed => rw [hstep] at h; exact h
      | undefinedBehaviour => rw [hstep] at h; exact h
      | outOfFuel => rw [hstep] at h; exact h

/-- C19: evaluation at the failing input.  On the cycle `0 -> 1 -> 2 -> 3 -> 0`
with every edge of cost `1` and `shortestPath(X, X) = [X]`, with start `0` and
goal `3`, `planFullCoveragePath` does not give the path `[0, 1, 2, 3]`: lanelet
`0` has no relation with itself, the first round of the loop dereferences
that absent relation, so for every number of rounds the call has no defined
behaviour and succeeds for none.  The rest of the scenario holds: the
stitching of the tour `0, 1, 2, 3` with the sentinel ordinal `4` gives
`[0, 1, 2, 3]`, so does the whole TSP-based call when the solver lists that
tour, and `getPathCost` of that path is `3`. -/
theorem cycle_scenario_depth_first_undefined :
    (∀ a, a < 4 → graphCycle.shortestPath a a = some ⟨a, []⟩ ∧
      graphCycle.getEdgeCost a ((a + 1) % 4) = some 1) ∧
    graphCycle.routingRelation 0 0 = none ∧
    (∀ fuel : Nat,
      planFullCoveragePath graphCycle (fuel + 1) 0 3 [] = PlanResult.undefinedBehaviour) ∧
    (∀ (fuel : Nat) (p : List Nat),
      planFullCoveragePath graphCycle fuel 0 3 [] ≠ PlanResult.success p) ∧
    stitchOrder graphCycle [0, 1, 2, 3] (getAjacentMatrix graphCycle [0, 1, 2, 3]) 0 3 []
      [0, 1, 2, 3, 4] = PlanResult.success [0, 1, 2, 3] ∧
    (planFullCoveragePathByTSP graphCycle [0, 1, 2, 3]
        (envWith true 0 (tourHeader ++ ["1", "2", "3", "4", "5", "-1", "EOF"])) 0 3 []).1
      = PlanResult.success [0, 1, 2, 3] ∧
    getPathCost graphCycle [0, 1, 2, 3] = 3 := by
  have hub : ∀ fuel : Nat,
      planFullCoveragePath graphCycle (fuel + 1) 0 3 [] = PlanResult.undefinedBehaviour :=
    fun fuel => planFullCoveragePath_start_unrelated graphCycle 0 3 [] (by decide) fuel
  refine ⟨by decide, by decide, hub, ?_, by decide, by decide, by decide⟩
  intro fuel p
  cases fuel with
  | zero =>
    have h0 : planFullCoveragePath graphCycle 0 0 3 [] = PlanResult.outOfFuel := by decide
    rw [h0]
    intro h
    cases h
  | succ n =>
    rw [hub n]
    intro h
    cases h

/-- C20: evaluation at the failing input.  Two calls of `solveLKHTSP` at the
times `17 s, 5 us` and `17 s, 6 us` have different unique identifiers, yet both
name `ATSP_output.txt` as the tour file in their parameter file and both read
the tour back from `ATSP_output.txt`, a name that contains neither
identifier. -/
theorem solveLKHTSP_shared_tour_file :
    uniqueFileIdentifier (envWith true 0 tourHeader) = "_17_5" ∧
    uniqueFileIdentifier { envWith true 0 tourHeader with tv_usec := 6 } = "_17_6" ∧
    FileOp.read "ATSP_output.txt"
      ∈ (LKHTSPSolver.solveLKHTSP (envWith true 0 tourHeader) matThree).2 ∧
    FileOp.read "ATSP_output.txt"
      ∈ (LKHTSPSolver.solveLKHTSP { envWith true 0 tourHeader with tv_usec := 6 } matThree).2 ∧
    FileOp.write "TSPlib_file_17_5.par"
        ["PROBLEM_FILE = TSPlib_file_17_5.atsp", "TOUR_FILE = ./ATSP_output.txt", "RUNS = 1"]
      ∈ (LKHTSPSolver.solveLKHTSP (envWith true 0 tourHeader) matThree).2 ∧
    FileOp.write "TSPlib_file_17_6.par"
        ["PROBLEM_FILE = TSPlib_file_17_6.atsp", "TOUR_FILE = ./ATSP_output.txt", "RUNS = 1"]
      ∈ (LKHTSPSolver.solveLKHTSP { envWith true 0 tourHeader with tv_usec := 6 } matThree).2 ∧
    ¬ List.IsInfix "_17_5".data "ATSP_output.txt".data ∧
    ¬ List.IsInfix "_17_6".data "ATSP_output.txt".data := by
  decide

/-! ## Rounds of the depth-first loop -/

/-- C21: in a round of the loop of `planFullCoveragePath` that goes on, a
popped candidate that is in the visited set leaves the path and the visited
set as they were (only the stack loses the candidate); a candidate that is
not in the visited set is either appended as the direct successor of the
last lanelet of the path and marked visited, or reached by the backtracking
splice of the route from that lanelet.  So the lanelet appended by the
direct-successor branch is never one that was marked visited. -/
theorem dfsStep_no_silent_duplicate {Node W : Type} [DecidableEq Node]
    (g : RoutingGraph Node W) (cur_lanelet : Node) (dfs_stk : List Node)
    (s s1 : DfsState Node)
    (h : dfsStep g cur_lanelet dfs_stk s = DfsResult.finished s1) :
    (cur_lanelet ∈ s.visited_lanelet →
      s1.full_coverage_path = s.full_coverage_path ∧
      s1.visited_lanelet = s.visited_lanelet ∧ s1.dfs_stk = dfs_stk) ∧
    (cur_lanelet ∉ s.visited_lanelet →
      ∃ pose_lanelet, s.full_coverage_path.getLast? = some pose_lanelet ∧
        ((g.routingRelation pose_lanelet cur_lanelet = some RelationType.Successor ∧
            s1.full_coverage_path = s.full_coverage_path ++ [cur_lanelet] ∧
            s1.visited_lanelet = cur_lanelet :: s.visited_lanelet) ∨
         (∃ relation back_path,
            g.routingRelation pose_lanelet cur_lanelet = some relation ∧
            relation ≠ RelationType.Successor ∧
            g.getRoute pose_lanelet cur_lanelet = some back_path ∧
            s1.full_coverage_path = s.full_coverage_path.dropLast ++ back_path.toList))) ∧
    (∀ x ∈ s.visited_lanelet,
      s1.full_coverage_path = s.full_coverage_path ++ [x] →
      ∃ pose_lanelet relation back_path,
        s.full_coverage_path.getLast? = some pose_lanelet ∧
        g.routingRelation pose_lanelet cur_lanelet = some relation ∧
        relation ≠ RelationType.Successor ∧
        g.getRoute pose_lanelet cur_lanelet = some back_path ∧
        s1.full_coverage_path = s.full_coverage_path.dropLast ++ back_path.toList) := by
  obtain ⟨pose, hpose, hcases⟩ := dfsStep_finished g cur_lanelet dfs_stk s s1 h
  refine ⟨?_, ?_, ?_⟩
  · intro hv
    rcases hcases with ⟨_, hs1⟩ | ⟨hnv, _⟩ | ⟨hnv, _⟩
    · rw [hs1]
      exact ⟨rfl, rfl, rfl⟩
    · exact absurd hv hnv
    · exact absurd hv hnv
  · intro hnv
    refine ⟨pose, hpose, ?_⟩
    rcases hcases with ⟨hv, _⟩ | ⟨_, r, bp, hr, hne, hroute, hs1⟩ | ⟨_, hrel, hs1⟩
    · exact absurd hv hnv
    · right
      refine ⟨r, bp, hr, hne, hroute, ?_⟩
      rw [hs1, backtrackLoop_path]
    · left
      refine ⟨hrel, by rw [hs1], ?_⟩
      rw [hs1]
      simp only [emplaceVisited, hnv, if_false]
  · intro x hx happ
    rcases hcases with ⟨_, hs1⟩ | ⟨_, r, bp, hr, hne, hroute, hs1⟩ | ⟨hnv, _, hs1⟩
    · rw [hs1] at happ
      simp only at happ
      have hlen := congrArg List.length happ
      simp at hlen
    · refine ⟨pose, r, bp, hpose, hr, hne, hroute, ?_⟩
      rw [hs1, backtrackLoop_path]
    · rw [hs1] at happ
      simp only at happ
      have hcx : cur_lanelet = x := by
        have := List.append_cancel_left happ
        simpa using this
      rw [hcx] at hnv
      exact absurd hx hnv

theorem dfsStep_no_silent_duplicate_witness :
    dfsStep graphCycle 0 []
        { dfs_stk := [0], visited_lanelet := [3, 2, 1, 0], full_coverage_path := [0, 1, 2, 3] }
      = DfsResult.finished
        { dfs_stk := [], visited_lanelet := [3, 2, 1, 0], full_coverage_path := [0, 1, 2, 3] } ∧
    (0 : Nat) ∈ [3, 2, 1, 0] ∧
    ([0, 1, 2, 3] : List Nat) = [0, 1, 2, 3] ∧ ([3, 2, 1, 0] : List Nat) = [3, 2, 1, 0] ∧
    ([] : List Nat) = [] :=
  ⟨by decide, by decide,
    (dfsStep_no_silent_duplicate graphCycle 0 []
      { dfs_stk := [0], visited_lanelet := [3, 2, 1, 0], full_coverage_path := [0, 1, 2, 3] }
      { dfs_stk := [], visited_lanelet := [3, 2, 1, 0], full_coverage_path := [0, 1, 2, 3] }
      (by decide)).1 (by decide)⟩

/-! ## Termination of the depth-first loop -/

theorem unvisitedCount_lt {Node : Type} [DecidableEq Node] (lanelets : Finset Node)
    (s s1 : DfsState Node) (cur : Node) (hcur : cur ∈ lanelets)
    (hnv : cur ∉ s.visited_lanelet) (hv1 : cur ∈ s1.visited_lanelet)
    (hmono : ∀ v ∈ s.visited_lanelet, v ∈ s1.visited_lanelet) :
    unvisitedCount lanelets s1 < unvisitedCount lanelets s := by
  unfold unvisitedCount
  apply Finset.card_lt_card
  constructor
  · intro x hx
    rw [Finset.mem_filter] at hx ⊢
    exact ⟨hx.1, fun hxs => hx.2 (hmono x hxs)⟩
  · intro hsub
    have hin : cur ∈ lanelets.filter (fun x => x ∉ s.visited_lanelet) :=
      Finset.mem_filter.mpr ⟨hcur, hnv⟩
    have := Finset.mem_filter.mp (hsub hin)
    exact this.2 hv1

/-- A round that goes on keeps the lanelets inside the finite set, and either
drops a visited candidate from the stack or marks the candidate visited. -/
theorem dfsStep_progress {Node W : Type} [DecidableEq Node] (g : RoutingGraph Node W)
    (lanelets : Finset Node) (hfin : FiniteGraph g lanelets) (hE : EndsAtTarget g.getRoute)
    (cur : Node) (stk : List Node) (s s1 : DfsState Node)
    (hs : s.dfs_stk = cur :: stk) (hin : InLanelets lanelets s)
    (h : dfsStep g cur stk s = DfsResult.finished s1) :
    InLanelets lanelets s1 ∧
    ((cur ∈ s.visited_lanelet ∧ s1.visited_lanelet = s.visited_lanelet ∧
        s1.dfs_stk.length + 1 = s.dfs_stk.length) ∨
      (cur ∉ s.visited_lanelet ∧ cur ∈ s1.visited_lanelet ∧
        (∀ v ∈ s.visited_lanelet, v ∈ s1.visited_lanelet) ∧
        unvisitedCount lanelets s1 < unvisitedCount lanelets s)) := by
  obtain ⟨hstack, hpath⟩ := hin
  rw [hs] at hstack
  have hcur : cur ∈ lanelets := hstack cur (List.mem_cons_self _ _)
  have hstk : ∀ x ∈ stk, x ∈ lanelets := fun x hx => hstack x (List.mem_cons_of_mem _ hx)
  obtain ⟨pose, hpose, hcases⟩ := dfsStep_finished g cur stk s s1 h
  have hposein : pose ∈ lanelets := hpath pose (List.mem_of_getLast?_eq_some hpose)
  rcases hcases with ⟨hv, hs1⟩ | ⟨hnv, r, bp, _, _, hroute, hs1⟩ | ⟨hnv, _, hs1⟩
  · refine ⟨?_, Or.inl ⟨hv, by rw [hs1], by rw [hs1, hs]; simp⟩⟩
    rw [hs1]
    exact ⟨hstk, hpath⟩
  · have hbp : ∀ x ∈ bp.toList, x ∈ lanelets := hfin.2 pose hposein cur hcur bp hroute
    have hcurbp : cur ∈ bp.toList := List.mem_of_getLast?_eq_some (hE pose cur bp hroute)
    have hvis1 : ∀ v, v ∈ s1.visited_lanelet ↔ v ∈ s.visited_lanelet ∨ v ∈ bp.toList := by
      intro v
      rw [hs1, backtrackLoop_visited]
    have hmono : ∀ v ∈ s.visited_lanelet, v ∈ s1.visited_lanelet :=
      fun v hv => (hvis1 v).mpr (Or.inl hv)
    have hcur1 : cur ∈ s1.visited_lanelet := (hvis1 cur).mpr (Or.inr hcurbp)
    refine ⟨⟨?_, ?_⟩, Or.inr ⟨hnv, hcur1, hmono,
      unvisitedCount_lt lanelets s s1 cur hcur hnv hcur1 hmono⟩⟩
    · intro x hx
      rw [hs1, backtrackLoop_stk] at hx
      rcases hx with h1 | ⟨llt, hllt, hf⟩
      · exact hstk x h1
      · exact hfin.1 llt (hbp llt hllt) x hf
    · intro x hx
      rw [hs1, backtrackLoop_path] at hx
      rcases List.mem_append.mp hx with h1 | h1
      · exact hpath x (List.mem_of_mem_dropLast h1)
      · exact hbp x h1
  · have hvis1 : ∀ v, v ∈ s1.visited_lanelet ↔ v = cur ∨ v ∈ s.visited_lanelet := by
      intro v
      rw [hs1]
      exact mem_emplaceVisited _ _ _
    have hmono : ∀ v ∈ s.visited_lanelet, v ∈ s1.visited_lanelet :=
      fun v hv => (hvis1 v).mpr (Or.inr hv)
    have hcur1 : cur ∈ s1.visited_lanelet := (hvis1 cur).mpr (Or.inl rfl)
    refine ⟨⟨?_, ?_⟩, Or.inr ⟨hnv, hcur1, hmono,
      unvisitedCount_lt lanelets s s1 cur hcur hnv hcur1 hmono⟩⟩
    · intro x hx
      rw [hs1] at hx
      rcases (mem_pushAll _ _ _).mp hx with h1 | h1
      · exact hfin.1 cur hcur x h1
      · exact hstk x h1
    · intro x hx
      rw [hs1] at hx
      rcases List.mem_append.mp hx with h1 | h1
      · exact hpath x h1
      · rw [List.mem_singleton.mp h1]
        exact hcur

theorem dfsStep_measure_decreases {Node W : Type} [DecidableEq Node]
    (g : RoutingGraph Node W)
    (lanelets : Finset Node) (hfin : FiniteGraph g lanelets) (hE : EndsAtTarget g.getRoute)
    (cur : Node) (stk : List Node) (s s1 : DfsState Node)
    (hs : s.dfs_stk = cur :: stk) (hin : InLanelets lanelets s)
    (h : dfsStep g cur stk s = DfsResult.finished s1) :
    Prod.Lex (fun a b : Nat => a < b) (fun a b : Nat => a < b)
      (dfsMeasure lanelets s1) (dfsMeasure lanelets s) := by
  rcases (dfsStep_progress g lanelets hfin hE cur stk s s1 hs hin h).2 with
    ⟨_, hvis, hlen⟩ | ⟨_, _, _, hlt⟩
  · rw [Prod.lex_def]
    right
    refine ⟨?_, ?_⟩
    · simp only [dfsMeasure, unvisitedCount, hvis]
    · simp only [dfsMeasure]
      omega
  · rw [Prod.lex_def]
    left
    exact hlt

/-- From every state over a finite graph some amount of fuel ends the loop. -/
theorem dfsLoop_ends {Node W : Type} [DecidableEq Node] (g : RoutingGraph Node W)
    (lanelets : Finset Node) (hfin : FiniteGraph g lanelets) (hE : EndsAtTarget g.getRoute) :
    ∀ (m : Nat × Nat) (s : DfsState Node), dfsMeasure lanelets s = m →
      InLanelets lanelets s → ∃ n, dfsLoop g n s ≠ DfsResult.outOfFuel := by
  intro m
  induction m using
    (WellFounded.prod_lex Nat.lt_wfRel.wf Nat.lt_wfRel.wf).induction with
  | _ m ih =>
    intro s hm hin
    cases hs : s.dfs_stk with
    | nil =>
      refine ⟨0, ?_⟩
      rw [dfsLoop_nil g 0 s hs]
      intro hcontra
      cases hcontra
    | cons cur stk =>
      cases hstep : dfsStep g cur stk s with
      | finished s1 =>
        have hdec := dfsStep_measure_decreases g lanelets hfin hE cur stk s s1 hs hin hstep
        have hin1 := (dfsStep_progress g lanelets hfin hE cur stk s s1 hs hin hstep).1
        rw [hm] at hdec
        obtain ⟨n, hn⟩ := ih (dfsMeasure lanelets s1) hdec s1 rfl hin1
        refine ⟨n + 1, ?_⟩
        rw [dfsLoop_succ_cons g n s cur stk hs, hstep]
        exact hn
      | failed =>
        refine ⟨1, ?_⟩
        rw [dfsLoop_succ_cons g 0 s cur stk hs, hstep]
        intro hcontra
        cases hcontra
      | undefinedBehaviour =>
        refine ⟨1, ?_⟩
        rw [dfsLoop_succ_cons g 0 s cur stk hs, hstep]
        intro hcontra
        cases hcontra
      | outOfFuel =>
        unfold dfsStep at hstep
        exfalso
        revert hstep
        cases s.full_coverage_path.getLast? with
        | none => intro hstep; cases hstep
        | some pose =>
          simp only
          split_ifs
          · intro hstep; cases hstep
          · cases g.routingRelation pose cur with
            | none => intro hstep; cases hstep
            | some r =>
              simp only
              split_ifs
              · cases g.getRoute pose cur with
                | none => intro hstep; cases hstep
                | some bp => intro hstep; cases hstep
              · intro hstep; cases hstep

theorem planFullCoveragePath_of_dfsLoop {Node W : Type} [DecidableEq Node]
    (g : RoutingGraph Node W) (fuel : Nat) (start goal : Node) (out : List Node)
    (h : dfsLoop g fuel
      { dfs_stk := [start], visited_lanelet := [], full_coverage_path := [start] }
        ≠ DfsResult.outOfFuel) :
    planFullCoveragePath g fuel start goal out ≠ PlanResult.outOfFuel := by
  unfold planFullCoveragePath
  cases hloop : dfsLoop g fuel
      { dfs_stk := [start], visited_lanelet := [], full_coverage_path := [start] } with
  | finished s =>
    simp only
    cases s.full_coverage_path.getLast? with
    | none => intro hc; cases hc
    | some back =>
      simp only
      cases g.getRoute back goal with
      | none => intro hc; cases hc
      | some p => intro hc; cases hc
  | failed => intro hc; cases hc
  | undefinedBehaviour => intro hc; cases hc
  | outOfFuel => exact absurd hloop h

theorem graphCycle_finite : FiniteGraph graphCycle ({0, 1, 2, 3} : Finset Nat) := by
  refine ⟨by decide, ?_⟩
  intro a _ b _ p hp
  have hp2 : cyclePath a b = some p := hp
  unfold cyclePath at hp2
  split_ifs at hp2 with hab
  simp only [Option.some.injEq] at hp2
  rw [← hp2]
  obtain ⟨ha, hb⟩ := hab
  interval_cases a <;> interval_cases b <;> decide

/-- C22: on a finite graph in which every route returned ends at its target,
a round of the loop of `planFullCoveragePath` that goes on either pops a
candidate that is visited already (the stack shrinks by one, the visited set
is unchanged) or adds the candidate to the visited set, so the pair (number
of unvisited lanelets, stack size) decreases lexicographically; the other
rounds end the call.  Hence the loop terminates: from every state, and so
for every start lanelet of the graph, some number of rounds suffices, and
with that much fuel or more the model never runs out of fuel. -/
theorem dfsLoop_terminates {Node W : Type} [DecidableEq Node] (g : RoutingGraph Node W)
    (lanelets : Finset Node) (hfin : FiniteGraph g lanelets) (hE : EndsAtTarget g.getRoute) :
    (∀ (cur : Node) (stk : List Node) (s s1 : DfsState Node),
      s.dfs_stk = cur :: stk → InLanelets lanelets s →
      dfsStep g cur stk s = DfsResult.finished s1 →
      InLanelets lanelets s1 ∧
      ((cur ∈ s.visited_lanelet ∧ s1.visited_lanelet = s.visited_lanelet ∧
          s1.dfs_stk.length + 1 = s.dfs_stk.length) ∨
        (cur ∉ s.visited_lanelet ∧ cur ∈ s1.visited_lanelet ∧
          (∀ v ∈ s.visited_lanelet, v ∈ s1.visited_lanelet) ∧
          unvisitedCount lanelets s1 < unvisitedCount lanelets s)) ∧
      Prod.Lex (fun a b : Nat => a < b) (fun a b : Nat => a < b)
        (dfsMeasure lanelets s1) (dfsMeasure lanelets s)) ∧
    (∀ s : DfsState Node, InLanelets lanelets s →
      ∃ n, ∀ fuel, n ≤ fuel → dfsLoop g fuel s ≠ DfsResult.outOfFuel) ∧
    (∀ (start_lanelet goal_lanelet : Node) (path_lanelets : List Node),
      start_lanelet ∈ lanelets →
      ∃ n, ∀ fuel, n ≤ fuel →
        planFullCoveragePath g fuel start_lanelet goal_lanelet path_lanelets
          ≠ PlanResult.outOfFuel) := by
  have hloop : ∀ s : DfsState Node, InLanelets lanelets s →
      ∃ n, ∀ fuel, n ≤ fuel → dfsLoop g fuel s ≠ DfsResult.outOfFuel := by
    intro s hin
    obtain ⟨n, hn⟩ := dfsLoop_ends g lanelets hfin hE _ s rfl hin
    refine ⟨n, fun fuel hfuel => ?_⟩
    rw [dfsLoop_fuel_mono g n s _ rfl hn fuel hfuel]
    exact hn
  refine ⟨?_, hloop, ?_⟩
  · intro cur stk s s1 hs hin hstep
    have hprog := dfsStep_progress g lanelets hfin hE cur stk s s1 hs hin hstep
    exact ⟨hprog.1, hprog.2,
      dfsStep_measure_decreases g lanelets hfin hE cur stk s s1 hs hin hstep⟩
  · intro start goal out hstart
    have hin0 : InLanelets lanelets
        { dfs_stk := [start], visited_lanelet := [], full_coverage_path := [start] } := by
      constructor
      · intro x hx
        rw [List.mem_singleton.mp hx]
        exact hstart
      · intro x hx
        rw [List.mem_singleton.mp hx]
        exact hstart
    obtain ⟨n, hn⟩ := hloop _ hin0
    exact ⟨n, fun fuel hfuel =>
      planFullCoveragePath_of_dfsLoop g fuel start goal out (hn fuel hfuel)⟩

theorem dfsLoop_terminates_witness :
    FiniteGraph graphCycle ({0, 1, 2, 3} : Finset Nat) ∧
    EndsAtTarget graphCycle.getRoute ∧
    (0 : Nat) ∈ ({0, 1, 2, 3} : Finset Nat) ∧
    ∃ n, ∀ fuel, n ≤ fuel →
      planFullCoveragePath graphCycle fuel 0 3 [] ≠ PlanResult.outOfFuel :=
  ⟨graphCycle_finite, graphCycle_ends, by decide,
    (dfsLoop_terminates graphCycle ({0, 1, 2, 3} : Finset Nat) graphCycle_finite
      graphCycle_ends).2.2 0 3 [] (by decide)⟩

end MissionPlanner
